import Mathlib

/-! sbrwxmpp: connection state machine and routing fabric.

A shallow embedding of `xmpp/client.go`, `xmpp/server.go`, `xmpp/xmlutil.go`,
`xmlstream2/xmlstream.go` and `db/db.go`.

* A `*XmppClient` pointer is a `ClientRef` (a natural number); the fields of the
  client objects live in `World.heap`.
* Everything a handler writes to a connection is appended to the global,
  ordered log `World.sent`, as a pair (receiving client, payload).
* Go strings are Lean strings; `[]byte(s)` is the UTF-8 encoding of `s`.
* Logger output is not part of the model.
* `Element.AsString` is the buffer of the printer of Go's `encoding/xml` after the
  tokens of `writeToEncoder`; the tokens that `NextChild` reads from bytes come from a
  model of the strict `xml.Decoder`. Both follow the library; its name tables above
  U+007F and the prefix it invents for a namespaced attribute are parameters (`XmlLib`).
-/

namespace Sbrwxmpp

/-! ## Go string helpers -/

/-- Go `strings.Split(s, sep)[0]` for a one-character separator: the part of `s`
before the first `sep`, all of `s` when `sep` does not occur. -/
def splitHead (sep : Char) (s : String) : String :=
  ⟨s.data.takeWhile (fun ch => ch != sep)⟩

/-- Go `strings.Contains(s, sep)` for a one-character separator. -/
def containsChar (s : String) (sep : Char) : Bool :=
  s.data.contains sep

/-- Go `strings.EqualFold`: rune-wise equality under Unicode simple case folding.
`fold` sends a rune to the representative of its `unicode.SimpleFold` orbit. -/
def EqualFold (fold : Char → Char) (s t : String) : Bool :=
  s.data.map fold == t.data.map fold

/-- Go `[]byte(s)`: the UTF-8 bytes of a string, as numbers below 256. -/
def bytesOf (s : String) : List Nat :=
  s.data.flatMap (fun ch => (String.utf8EncodeChar ch).map (fun b => b.toNat))

/-- The case folding of ASCII letters only; used to run the model on ASCII inputs. -/
def asciiFold (ch : Char) : Char :=
  if 65 ≤ ch.toNat ∧ ch.toNat ≤ 90 then Char.ofNat (ch.toNat + 32) else ch

/-! ## `xmlstream2`: elements -/

/-- Go `xml.Name`. -/
structure Name where
  Space : String
  Local : String
deriving DecidableEq, Repr

/-- Go `xml.Attr`. -/
structure Attr where
  Name : Name
  Value : String
deriving DecidableEq, Repr

/-- The `xmlstream.Element` struct. -/
structure Element where
  Name : Name
  Attr : List Attr
  Children : List Element
  Text : String

/-- The zero value `Element{}`. -/
def Element.zero : Element := ⟨⟨"", ""⟩, [], [], ""⟩

/-- The method `Element.GetAttr`: value of the first attribute with this local name. -/
def Element.GetAttr (e : Element) (name : String) : String :=
  match e.Attr.find? (fun a => a.Name.Local == name) with
  | some a => a.Value
  | none => ""

/-- The loop of `Element.SetAttr` on the attribute slice. -/
def setAttrList (name value : String) : List Attr → List Attr
  | [] => [⟨⟨"", name⟩, value⟩]
  | a :: rest =>
    if a.Name.Local = name then { a with Value := value } :: rest
    else a :: setAttrList name value rest

/-- The method `Element.SetAttr`, as seen through the receiver. -/
def Element.SetAttr (e : Element) (name value : String) : Element :=
  { e with Attr := setAttrList name value e.Attr }

/-- Whether `SetAttr name` overwrites an existing slot (true) or appends (false). -/
def Element.hasAttr (e : Element) (name : String) : Bool :=
  e.Attr.any (fun a => a.Name.Local == name)

/-- What the holder of another copy of the same `Element` value sees after
`SetAttr` ran on a copy that shares its attribute array: an overwritten slot is
visible, an appended one lies beyond the holder's slice length. -/
def Element.setAttrInPlace (e : Element) (name value : String) : Element :=
  if e.hasAttr name then e.SetAttr name value else e

/-- The method `Element.GetChild`: first direct child with this local name. -/
def Element.GetChild (e : Element) (name : String) : Element × Bool :=
  match e.Children.find? (fun ch => ch.Name.Local == name) with
  | some ch => (ch, true)
  | none => (Element.zero, false)

/-! ## `xmpp/xmlutil.go` -/

/-- Go `encoding/xml` `isInCharacterRange`. -/
def isInCharacterRange (r : Char) : Bool :=
  let n := r.toNat
  n == 0x09 || n == 0x0A || n == 0x0D || (0x20 ≤ n && n ≤ 0xD7FF) ||
    (0xE000 ≤ n && n ≤ 0xFFFD) || (0x10000 ≤ n && n ≤ 0x10FFFF)

/-- One rune of Go `xml.EscapeText`. -/
def escapeRune (r : Char) : String :=
  if r.toNat = 34 then "&#34;"
  else if r.toNat = 39 then "&#39;"
  else if r = '&' then "&amp;"
  else if r = '<' then "&lt;"
  else if r = '>' then "&gt;"
  else if r.toNat = 9 then "&#x9;"
  else if r.toNat = 10 then "&#xA;"
  else if r.toNat = 13 then "&#xD;"
  else if !isInCharacterRange r then "�"
  else String.singleton r

/-- The function `XMLEscape`: `xml.EscapeText` applied to the whole text. -/
def XMLEscape (text : String) : String :=
  String.join (text.data.map escapeRune)

/-! ## `db/db.go` -/

/-- The struct `db.User`. -/
structure User where
  Name : String
  Password : List Nat
deriving DecidableEq, Repr

/-- The credential store: the bucket `users` and whether a `View` transaction fails. -/
structure DB where
  viewErr : Bool
  users : String → Option (List Nat)

/-- The method `DB.GetUser`: a missing key leaves `Password` nil (empty). -/
def DB.GetUser (d : DB) (name : String) : Except Unit User :=
  if d.viewErr then .error ()
  else .ok ⟨name, (d.users name).getD []⟩

/-! ## `xmpp/server.go`, `xmpp/client.go`: state -/

/-- A `*XmppClient` pointer. -/
abbrev ClientRef := Nat

/-- The fields of `XmppClient` that the handlers read or write; `tlsConn` is
true when the Go field is non-nil, `streamClosed` when the atomic word is 1. -/
structure XmppClient where
  tlsConn : Bool
  authenticated : Bool
  JID : String
  streamClosed : Bool
deriving DecidableEq, Repr

/-- The struct `XmppRoom`. -/
structure XmppRoom where
  JID : String
  Members : List ClientRef
deriving DecidableEq, Repr

/-- What is written to a connection: a literal string, or `e.AsString()`. -/
inductive Wire where
  | text (s : String)
  | xml (e : Element)

/-- The struct `XmppServer` (lists, `Config.Domain`, `DB`). -/
structure XmppServer where
  Clients : List ClientRef
  Rooms : List XmppRoom
  Domain : String
  DB : DB

/-- The whole process state: client objects, the registry, and the write log. -/
structure World where
  heap : ClientRef → XmppClient
  server : XmppServer
  sent : List (ClientRef × Wire)

/-- What the surroundings supply: case folding and the webhook's verdict
(`CmdHook.ProcessMessage(from, body)`). -/
structure Env where
  fold : Char → Char
  webhook : String → String → Bool

/-- What a TLS upgrade reads from outside: the error of `xmlstream.NewStream`
on the TLS connection, if any, and the `RandomStringSecure(10)` stream id. -/
structure ConnInput where
  streamErr : Option String
  streamId : String

/-- A client object as `XmppServer.Run` creates it. -/
def XmppClient.fresh : XmppClient := ⟨false, false, "", false⟩

/-- A server with no client and no room. -/
def World.init (domain : String) (db : DB) : World :=
  ⟨fun _ => XmppClient.fresh, ⟨[], [], domain, db⟩, []⟩

/-- The function `jidMatches`. -/
def jidMatches (a b : String) : Bool :=
  if containsChar a '/' then a == b
  else a == splitHead '/' b

/-- The function `BareJidMatch`. -/
def BareJidMatch (fold : Char → Char) (a b : String) : Bool :=
  EqualFold fold (splitHead '/' a) (splitHead '/' b)

/-! ## `xmpp/client.go`: writing and closing -/

/-- The method `XmppClient.write`: the string goes to the client's connection. -/
def World.write (w : World) (c : ClientRef) (str : String) : World :=
  { w with sent := w.sent ++ [(c, Wire.text str)] }

/-- The method `XmppClient.SendXML`: writes `e.AsString()`. -/
def World.SendXML (w : World) (c : ClientRef) (e : Element) : World :=
  { w with sent := w.sent ++ [(c, Wire.xml e)] }

/-- Overwrite one client object. -/
def World.setClient (w : World) (c : ClientRef) (v : XmppClient) : World :=
  { w with heap := Function.update w.heap c v }

/-- The method `XmppClient.Close`: set the closed flag and write the stream end tag.
The bounded wait for the peer that follows has no effect on the modelled fields. -/
def World.Close (w : World) (c : ClientRef) : World :=
  (w.setClient c { w.heap c with streamClosed := true }).write c "</stream:stream>"

/-- The method `XmppClient.CloseError`. -/
def World.CloseError (w : World) (c : ClientRef) (err : String) : World :=
  (w.write c ("<stream:error>" ++ err ++ "</stream:error>")).Close c

/-! ### Stanza texts -/

/-- The `jabber:iq:auth` field list sent for `type='get'`. -/
def iqAuthFields (id : String) : String :=
  "<iq type='result' id='" ++ id ++
    "'><query xmlns='jabber:iq:auth'><username/><password/><resource/></query></iq>"

/-- The reply to a failed credential lookup. -/
def iqInternalError (id : String) : String :=
  "<iq type='error' id='" ++ id ++ "'><error type='cancel'>" ++
    "<internal-server-error xmlns='urn:ietf:params:xml:ns:xmpp-stanzas'/>" ++
    "</error></iq>"

/-- The reply to a wrong password. -/
def iqNotAuthorized (id : String) : String :=
  "<iq type='error' id='" ++ id ++ "'><error code='401' type='auth'>" ++
    "<not-authorized xmlns='urn:ietf:params:xml:ns:xmpp-stanzas'/>" ++
    "</error></iq>"

/-- The reply to a successful authentication. -/
def iqResult (id : String) : String :=
  "<iq type='result' id='" ++ id ++ "'/>"

/-- The reply to an IQ child that is not an auth query. -/
def iqServiceUnavailable (id domain : String) : String :=
  "<iq type='error' id='" ++ id ++ "' from='" ++ domain ++
    "'><error type='cancel'><service-unavailable xmlns='urn:ietf:params:xml:ns:xmpp-stanzas'/></error></iq>"

/-- The stream error condition used on a JID conflict. -/
def conflictCondition : String :=
  "<conflict xmlns='urn:ietf:params:xml:ns:xmpp-streams'/>"

/-! ### `handleIq` -/

/-- One pass of the eviction loop in `handleIq`. -/
def evictStep (env : Env) (c : ClientRef) (w : World) (cl : ClientRef) : World :=
  if BareJidMatch env.fold (w.heap cl).JID (w.heap c).JID then w.CloseError cl conflictCondition
  else w

/-- The body of the loop over `e.Children` in `handleIq`. -/
def handleIqChild (env : Env) (c : ClientRef) (id typ : String) (w : World) (el : Element) :
    World :=
  if el.Name.Local = "query" ∧ el.Name.Space = "jabber:iq:auth" then
    if typ = "get" then w.write c (iqAuthFields id)
    else
      let uc := (el.GetChild "username").1
      let pc := (el.GetChild "password").1
      let rc := (el.GetChild "resource").1
      match w.server.DB.GetUser uc.Text with
      | .error _ => w.write c (iqInternalError id)
      | .ok user =>
        if user.Password ≠ bytesOf pc.Text then w.write c (iqNotAuthorized id)
        else
          let w1 := w.setClient c
            { w.heap c with JID := uc.Text ++ "@" ++ w.server.Domain ++ "/" ++ rc.Text }
          let w2 := w1.server.Clients.foldl (evictStep env c) w1
          let w3 := w2.write c (iqResult id)
          w3.setClient c { w3.heap c with authenticated := true }
  else w.write c (iqServiceUnavailable id w.server.Domain)

/-- The method `XmppClient.handleIq`. -/
def handleIq (env : Env) (w : World) (c : ClientRef) (e : Element) : World :=
  let id := e.GetAttr "id"
  let typ := e.GetAttr "type"
  if id = "" ∨ (typ ≠ "get" ∧ typ ≠ "set") then w
  else e.Children.foldl (handleIqChild env c id typ) w

/-! ## `xmpp/server.go`: rooms and the registry -/

/-- The method `XmppRoom.AddMember`. -/
def XmppRoom.AddMember (r : XmppRoom) (c : ClientRef) : XmppRoom :=
  if c ∈ r.Members then r else { r with Members := r.Members ++ [c] }

/-- The slice surgery shared by `RemoveMember` and `RemoveClient`: slot `i` takes
the last entry and the slice is cut by one. -/
def swapRemoveAt (xs : List ClientRef) (i : Nat) : List ClientRef :=
  let j := xs.length - 1
  (xs.set i (xs.getD j 0)).take j

/-- Remove the first slot holding `c`, if any, by `swapRemoveAt`. -/
def swapRemove (c : ClientRef) (xs : List ClientRef) : List ClientRef :=
  let i := xs.indexOf c
  if i < xs.length then swapRemoveAt xs i else xs

/-- The unavailable presence of `RemoveMember`. -/
def presenceUnavailable (self : Bool) (sender target : String) : String :=
  "<presence from='" ++ sender ++ "' to='" ++ target ++ "' type='unavailable'>" ++
    "<x xmlns='http://jabber.org/protocol/muc#user'>" ++
    "<item affiliation='member' role='none'/>" ++
    (if self then "<status code='110'/>" else "") ++ "</x></presence>"

/-- The first loop of `XmppRoom.RemoveMember`: one write per member. -/
def XmppRoom.leaveNotices (r : XmppRoom) (heap : ClientRef → XmppClient) (c : ClientRef) :
    List (ClientRef × Wire) :=
  r.Members.map (fun member =>
    (member, Wire.text (presenceUnavailable (member == c)
      (XMLEscape (r.JID ++ "/" ++ splitHead '@' (heap c).JID))
      (XMLEscape (heap member).JID))))

/-- The second loop of `XmppRoom.RemoveMember`: the membership afterwards. -/
def XmppRoom.RemoveMember (r : XmppRoom) (c : ClientRef) : XmppRoom :=
  { r with Members := swapRemove c r.Members }

/-- The method `XmppRoom.RouteMessage`, on its own copy of the message. The state of
the loop is the world and the copy. -/
def XmppRoom.RouteMessage (r : XmppRoom) (w : World) (msg : Element) : World :=
  let nick := splitHead '@' (msg.GetAttr "from")
  let msg1 := msg.SetAttr "from" (r.JID ++ "/" ++ nick)
  (r.Members.foldl (fun (st : World × Element) member =>
      let m := st.2.SetAttr "to" (st.1.heap member).JID
      (st.1.SendXML member m, m)) (w, msg1)).1

/-- The caller's message value after `XmppRoom.RouteMessage` returned. The copy
shares the attribute array: overwritten slots show through, appended ones do not;
when the first `SetAttr` appends and the array has no spare capacity
(`spare = false`) the copy moves to a new array and nothing shows through. -/
def XmppRoom.callerView (r : XmppRoom) (w : World) (spare : Bool) (msg : Element) : Element :=
  if !msg.hasAttr "from" && !spare then msg
  else
    let nick := splitHead '@' (msg.GetAttr "from")
    let msg1 := msg.setAttrInPlace "from" (r.JID ++ "/" ++ nick)
    r.Members.foldl (fun m member => m.setAttrInPlace "to" (w.heap member).JID) msg1

/-- The room part of `XmppServer.RouteMessage`: the world after the deliveries and
the message value the client loop goes on with. -/
def roomDelivery (env : Env) (spare : Bool) (w : World) (msg : Element) : World × Element :=
  if msg.GetAttr "type" = "groupchat" then
    match w.server.Rooms.find? (fun room => EqualFold env.fold room.JID (msg.GetAttr "to")) with
    | some room => (room.RouteMessage w msg, room.callerView w spare msg)
    | none => (w, msg)
  else (w, msg)

/-- The client loop of `XmppServer.RouteMessage`. -/
def clientDelivery (w : World) (toJid : String) (msg : Element) : World :=
  match w.server.Clients.find? (fun client => jidMatches toJid (w.heap client).JID) with
  | some client => w.SendXML client msg
  | none => w

/-- The method `XmppServer.RouteMessage`. `spare` tells whether the attribute slice
of `msg` has capacity beyond its length. -/
def XmppServer.RouteMessage (env : Env) (spare : Bool) (w : World) (msg : Element) : World :=
  let toJid := msg.GetAttr "to"
  let st := roomDelivery env spare w msg
  clientDelivery st.1 toJid st.2

/-- The method `XmppServer.AddClient`. -/
def XmppServer.AddClient (w : World) (c : ClientRef) : World :=
  if c ∈ w.server.Clients then w
  else { w with server := { w.server with Clients := w.server.Clients ++ [c] } }

/-- The method `XmppServer.RemoveClient`: `RemoveMember` on every room in order,
then the first slot of `c` in `Clients` is swap-removed. -/
def XmppServer.RemoveClient (w : World) (c : ClientRef) : World :=
  { w with
    sent := w.sent ++ w.server.Rooms.flatMap (fun room => room.leaveNotices w.heap c)
    server := { w.server with
      Rooms := w.server.Rooms.map (fun room => room.RemoveMember c)
      Clients := swapRemove c w.server.Clients } }

/-! ## `xmpp/client.go`: presence, message, TLS, dispatch -/

/-- The room search of a join: the first room matching under case folding gets
`AddMember(c)`; the result is the new room list and the joined room. -/
def joinRooms (fold : Char → Char) (toBare : String) (c : ClientRef) :
    List XmppRoom → Option (List XmppRoom × XmppRoom)
  | [] => none
  | room :: rest =>
    if EqualFold fold room.JID toBare then
      some (room.AddMember c :: rest, room.AddMember c)
    else (joinRooms fold toBare c rest).map (fun p => (room :: p.1, p.2))

/-- The room search of a leave: the first room whose JID is exactly `toBare` gets
`RemoveMember(c)`; the result is the new room list and the writes. -/
def leaveRooms (heap : ClientRef → XmppClient) (toBare : String) (c : ClientRef) :
    List XmppRoom → List XmppRoom × List (ClientRef × Wire)
  | [] => ([], [])
  | room :: rest =>
    if room.JID = toBare then (room.RemoveMember c :: rest, room.leaveNotices heap c)
    else ((room :: (leaveRooms heap toBare c rest).1), (leaveRooms heap toBare c rest).2)

/-- The presence of a join. -/
def presenceJoin (self : Bool) (sender target : String) : String :=
  "<presence from='" ++ sender ++ "' to='" ++ target ++ "'>" ++
    "<x xmlns='http://jabber.org/protocol/muc#user'>" ++
    "<item affiliation='member' role='participant'/>" ++
    (if self then "<status code='110'/>" else "") ++ "</x></presence>"

/-- The two write loops that follow a join. -/
def joinNotices (heap : ClientRef → XmppClient) (toJid toBare : String) (c : ClientRef)
    (joined : XmppRoom) : List (ClientRef × Wire) :=
  joined.Members.map (fun member =>
    (c, Wire.text (presenceJoin (member == c)
      (XMLEscape (toBare ++ "/" ++ splitHead '@' (heap member).JID))
      (XMLEscape (heap c).JID)))) ++
  (joined.Members.filter (fun member => member != c)).map (fun member =>
    (member, Wire.text (presenceJoin false (XMLEscape toJid) (XMLEscape (heap member).JID))))

/-- The method `XmppClient.handlePresence`. -/
def handlePresence (env : Env) (w : World) (c : ClientRef) (e : Element) : World :=
  let toJid := e.GetAttr "to"
  let typ := e.GetAttr "type"
  if toJid ≠ "" then
    let toBare := splitHead '/' toJid
    let w1 :=
      if typ = "" then
        let p : List XmppRoom × XmppRoom :=
          match joinRooms env.fold toBare c w.server.Rooms with
          | some p => p
          | none => (w.server.Rooms ++ [⟨toBare, [c]⟩], ⟨toBare, [c]⟩)
        { w with
          server := { w.server with Rooms := p.1 }
          sent := w.sent ++ joinNotices w.heap toJid toBare c p.2 }
      else w
    if typ = "unavailable" then
      let q := leaveRooms w1.heap toBare c w1.server.Rooms
      { w1 with server := { w1.server with Rooms := q.1 }, sent := w1.sent ++ q.2 }
    else w1
  else XmppServer.AddClient w c

/-- The method `XmppClient.handleMessage`. The chat-log decoder only prints. The
message built here always carries a `from` slot, so the capacity flag is idle. -/
def handleMessage (env : Env) (w : World) (c : ClientRef) (e : Element) : World :=
  let body := e.GetChild "body"
  if body.2 && env.webhook (w.heap c).JID body.1.Text then w
  else XmppServer.RouteMessage env false w (e.SetAttr "from" (w.heap c).JID)

/-- The method `XmppClient.sendStreamStart`; its argument is not used by the text. -/
def sendStreamStart (w : World) (c : ClientRef) (id : String) : World :=
  w.write c ("<?xml version=\"1.0\" encoding=\"UTF-8\"?>\n" ++ "<stream:stream " ++
    "from='" ++ w.server.Domain ++ "' " ++ "id='" ++ id ++ "' " ++ "version='1.0' " ++
    "xml:lang='en' " ++ "xmlns='jabber:client' " ++
    "xmlns:stream='http://etherx.jabber.org/streams'>")

/-- The method `XmppClient.handleRootElement`: stream header, then the features
for the current layer. -/
def handleRootElement (w : World) (c : ClientRef) (id : String) : World :=
  let w1 := sendStreamStart w c id
  if (w1.heap c).tlsConn = false then
    w1.write c ("<stream:features>" ++
      "<starttls xmlns='urn:ietf:params:xml:ns:xmpp-tls'><required/></starttls>" ++
      "</stream:features>")
  else
    w1.write c ("<stream:features>" ++ "<auth xmlns='http://jabber.org/features/iq-auth'/>" ++
      "</stream:features>")

/-- The method `XmppClient.doTLS`; the second component is the returned error. -/
def doTLS (w : World) (c : ClientRef) (conn : ConnInput) : World × Option String :=
  let w1 := w.write c "<proceed xmlns='urn:ietf:params:xml:ns:xmpp-tls'/>"
  let w2 := w1.setClient c { w1.heap c with tlsConn := true }
  match conn.streamErr with
  | some err => (w2, some ("error creating xml stream: " ++ err))
  | none => (handleRootElement w2 c conn.streamId, none)

/-- The method `XmppClient.handleXmlElement`; the second component is the
returned error. -/
def handleXmlElement (env : Env) (w : World) (c : ClientRef) (e : Element)
    (conn : ConnInput) : World × Option String :=
  if e.Name.Local = "starttls" then
    if (w.heap c).tlsConn = false then doTLS w c conn else (w, none)
  else if e.Name.Local = "iq" then (handleIq env w c e, none)
  else if e.Name.Local = "presence" then
    if (w.heap c).authenticated then (handlePresence env w c e, none) else (w, none)
  else if e.Name.Local = "message" then
    if (w.heap c).authenticated then (handleMessage env w c e, none) else (w, none)
  else (w, none)

/-! ## Sequences of connection events -/

/-- What happens on a connection: a stanza read by `HandleConnection`, or the end of
the handler task (its deferred `RemoveClient`). -/
inductive Event where
  | stanza (c : ClientRef) (e : Element) (conn : ConnInput)
  | teardown (c : ClientRef)

/-- One turn of the `HandleConnection` loop, or its deferred teardown; a handler
error ends the task, so the teardown follows at once. -/
def step (env : Env) (w : World) : Event → World
  | .stanza c e conn =>
    let r := handleXmlElement env w c e conn
    if r.2.isSome then XmppServer.RemoveClient r.1 c else r.1
  | .teardown c => XmppServer.RemoveClient w c

/-- The state after a sequence of events. -/
def run (env : Env) (w : World) (evs : List Event) : World :=
  evs.foldl (step env) w

/-! ## Derived descriptions used by the statements -/

/-- The writes of the eviction loop of `handleIq` over the list `l`: the conflict
stream error and the stream end tag for every entry that bare-matches `c`. -/
def evictions (env : Env) (heap : ClientRef → XmppClient) (c : ClientRef) (l : List ClientRef) :
    List (ClientRef × Wire) :=
  (l.filter (fun cl => BareJidMatch env.fold (heap cl).JID (heap c).JID)).flatMap
    (fun cl => [(cl, Wire.text ("<stream:error>" ++ conflictCondition ++ "</stream:error>")),
      (cl, Wire.text "</stream:stream>")])

/-- No client reference occurs twice in `Clients` or in the `Members` of a room. -/
def World.NoDup (w : World) : Prop :=
  w.server.Clients.Nodup ∧ ∀ r ∈ w.server.Rooms, r.Members.Nodup

/-- Every member of every room is in `Clients`. -/
def World.Enrolled (w : World) : Prop :=
  ∀ r ∈ w.server.Rooms, ∀ m ∈ r.Members, m ∈ w.server.Clients

/-- The event is not a join presence, or its sender is in `Clients`. -/
def joinGuard (w : World) : Event → Bool
  | .stanza c e _ =>
    !(e.Name.Local == "presence" && e.GetAttr "to" != "" && e.GetAttr "type" == "") ||
      w.server.Clients.contains c
  | .teardown _ => true

/-- Along the run of `evs` from `w`, every join presence comes from a client that is
in `Clients` at that moment. -/
def joinsEnrolled (env : Env) : World → List Event → Bool
  | _, [] => true
  | w, ev :: rest => joinGuard w ev && joinsEnrolled env (step env w ev) rest

/-! ## Concrete inputs -/

/-- An environment with ASCII case folding and a webhook that declines everything. -/
def demoEnv : Env := ⟨asciiFold, fun _ _ => false⟩

/-- A credential store holding `alice → hunter2`. -/
def demoDB : DB := ⟨false, fun n => if n = "alice" then some (bytesOf "hunter2") else none⟩

/-- A TLS upgrade that succeeds. -/
def demoConn : ConnInput := ⟨none, "abcdefghij"⟩

/-- A childless element of namespace `jabber:client` with the given attributes. -/
def stanzaOf (name : String) (attrs : List (String × String)) (children : List Element)
    (text : String) : Element :=
  ⟨⟨"jabber:client", name⟩, attrs.map (fun p => ⟨⟨"", p.1⟩, p.2⟩), children, text⟩

/-- The `jabber:iq:auth` query child carrying the three credentials. -/
def authQuery (user pass resource : String) : Element :=
  ⟨⟨"jabber:iq:auth", "query"⟩, [],
    [stanzaOf "username" [] [] user, stanzaOf "password" [] [] pass,
      stanzaOf "resource" [] [] resource], ""⟩

/-- The stanza `<iq id=… type='set'>` around `authQuery`. -/
def authSet (id user pass resource : String) : Element :=
  stanzaOf "iq" [("id", id), ("type", "set")] [authQuery user pass resource] ""

/-- A server whose registry already holds session 1 as `alice@localhost/game`, with
session 2 registered as `bob@localhost/game`. -/
def demoTaken : World :=
  ⟨fun x => if x = 1 then ⟨true, true, "alice@localhost/game", false⟩
      else if x = 2 then ⟨true, true, "bob@localhost/game", false⟩ else XmppClient.fresh,
    ⟨[2, 1], [], "localhost", demoDB⟩, []⟩

/-- The bare `<starttls/>` request. -/
def starttls : Element := ⟨⟨"urn:ietf:params:xml:ns:xmpp-tls", "starttls"⟩, [], [], ""⟩

/-- Session 0 upgrades to TLS and authenticates as `alice@localhost/game`. -/
def aliceLogin : List Event :=
  [.stanza 0 starttls demoConn, .stanza 0 (authSet "a1" "alice" "hunter2" "game") demoConn]

/-- Session 1 logs in as `alice@localhost/game` and sends its initial presence. -/
def aliceOnline : List Event :=
  [.stanza 1 starttls demoConn, .stanza 1 (authSet "a1" "alice" "hunter2" "game") demoConn,
    .stanza 1 (stanzaOf "presence" [] [] "") demoConn]

/-- The join presence `<presence to='room1@conference.localhost'/>`. -/
def joinRoom1 : Element := stanzaOf "presence" [("to", "room1@conference.localhost")] [] ""

/-- Session 1 logs in, sends its initial presence and joins `room1`. -/
def aliceInRoom : List Event := aliceOnline ++ [.stanza 1 joinRoom1 demoConn]

/-! ## `cmdhook/cmdhook.go` -/

/-- Go `strings.Split(s, sep)` for a one-character separator, on the runes of `s`. -/
def splitChars (sep : Char) : List Char → List (List Char)
  | [] => [[]]
  | ch :: rest =>
    if ch = sep then [] :: splitChars sep rest
    else
      match splitChars sep rest with
      | [] => [[ch]]
      | hd :: tl => (ch :: hd) :: tl

/-- Go `strings.Split(s, sep)` for a one-character separator. -/
def splitAll (sep : Char) (s : String) : List String :=
  (splitChars sep s.data).map String.mk

/-- Go `strings.HasPrefix(s, "/")`. -/
def hasSlashPrefix (s : String) : Bool :=
  s.data.head? == some '/'

/-- The struct `config.WebhookConfig`. -/
structure WebhookConfig where
  Target : String
  Secret : String

/-- What `CmdHook.ProcessMessage` gets from outside the repository: the `Message` field
after `xml.Unmarshal(body, &chatMsg)` (`none` when it returns an error), whether
`http.NewRequest` fails, and whether `Client.Do` fails. -/
structure HookInput where
  unmarshal : String → Option String
  requestErr : Bool
  doErr : Bool

/-- The request handed to `Client.Do`: the `pid` and `cmd` query values and the
`Authorization` header. -/
structure HookRequest where
  pid : String
  cmd : String
  authorization : String
deriving DecidableEq, Repr

/-- The method `CmdHook.ProcessMessage`: the returned flag and the request given to
`Client.Do`, if it got that far. -/
def CmdHook.ProcessMessage (cfg : WebhookConfig) (inp : HookInput) (sender body : String) :
    Bool × Option HookRequest :=
  if cfg.Target = "" then (false, none)
  else
    match inp.unmarshal body with
    | none => (false, none)
    | some message =>
      if !hasSlashPrefix message then (false, none)
      else
        let splits := splitAll '.' (splitHead '@' sender)
        if splits.length < 2 then (false, none)
        else
          let fromID := splits.getD 1 ""
          if inp.requestErr then (true, none)
          else if inp.doErr then (true, some ⟨fromID, message, cfg.Secret⟩)
          else (true, some ⟨fromID, message, cfg.Secret⟩)

/-- The environment of a server whose sessions use this webhook. -/
def hookEnv (fold : Char → Char) (cfg : WebhookConfig) (inp : HookInput) : Env :=
  ⟨fold, fun sender body => (CmdHook.ProcessMessage cfg inp sender body).1⟩

/-- A configured webhook. -/
def demoHook : WebhookConfig := ⟨"http://localhost:9000/hook", "s3cret"⟩

/-- The chat body of the command `/help`, and what `xml.Unmarshal` reads from it. -/
def slashBody : String := "<ChatMsg Type=\"8\"><From>alice</From><Msg>/help</Msg></ChatMsg>"

/-- An outside world where the body `slashBody` parses to `/help` and HTTP works. -/
def demoHookInput : HookInput :=
  ⟨fun body => if body = slashBody then some "/help" else none, false, false⟩

/-- A groupchat message to `room1` carrying `slashBody`. -/
def slashMessage : Element :=
  stanzaOf "message" [("type", "groupchat"), ("to", "room1@conference.localhost")]
    [stanzaOf "body" [] [] slashBody] ""

/-- Session 1 (`alice@localhost/game`) and session 2 (`bob@localhost/game`) are both
members of `room1@conference.localhost`. -/
def demoRoom : World :=
  ⟨fun x => if x = 1 then ⟨true, true, "alice@localhost/game", false⟩
      else if x = 2 then ⟨true, true, "bob@localhost/game", false⟩ else XmppClient.fresh,
    ⟨[1, 2], [⟨"room1@conference.localhost", [1, 2]⟩], "localhost", demoDB⟩, []⟩

/-- Sessions 1 (`sbrw.100@localhost/game`) and 2 (`sbrw.200@localhost/game`) are both
members of `room1@conference.localhost`. -/
def demoPlayers : World :=
  ⟨fun x => if x = 1 then ⟨true, true, "sbrw.100@localhost/game", false⟩
      else if x = 2 then ⟨true, true, "sbrw.200@localhost/game", false⟩ else XmppClient.fresh,
    ⟨[1, 2], [⟨"room1@conference.localhost", [1, 2]⟩], "localhost", demoDB⟩, []⟩

/-- The outcome of the room search of a join: the room list afterwards and the joined
room (a new one-member room when no room matches). -/
def joinResult (fold : Char → Char) (toBare : String) (c : ClientRef) (rooms : List XmppRoom) :
    List XmppRoom × XmppRoom :=
  match joinRooms fold toBare c rooms with
  | some p => p
  | none => (rooms ++ [⟨toBare, [c]⟩], ⟨toBare, [c]⟩)

/-- Session 1 (`alice@localhost/game`) is the only member of
`room1@conference.localhost`; session 2 (`bob@localhost/game`) is online. -/
def demoAliceRoom : World :=
  ⟨fun x => if x = 1 then ⟨true, true, "alice@localhost/game", false⟩
      else if x = 2 then ⟨true, true, "bob@localhost/game", false⟩ else XmppClient.fresh,
    ⟨[1, 2], [⟨"room1@conference.localhost", [1]⟩], "localhost", demoDB⟩, []⟩

/-- A credential store holding `alice → hunter2` and `bob → pw`. -/
def demoUsers : DB :=
  ⟨false, fun n => if n = "alice" then some (bytesOf "hunter2")
    else if n = "bob" then some (bytesOf "pw") else none⟩

/-- Session 1 logs in as `alice@localhost/game`, sends its initial presence and joins
`room1@conference.localhost`; session 2 logs in as `bob@localhost/game` and sends its
initial presence. -/
def roomSceneEvents : List Event :=
  [.stanza 1 starttls demoConn, .stanza 1 (authSet "a1" "alice" "hunter2" "game") demoConn,
    .stanza 1 (stanzaOf "presence" [] [] "") demoConn, .stanza 1 joinRoom1 demoConn,
    .stanza 2 starttls demoConn, .stanza 2 (authSet "b1" "bob" "pw" "game") demoConn,
    .stanza 2 (stanzaOf "presence" [] [] "") demoConn]

/-- The state after `roomSceneEvents` on a fresh server. -/
def roomScene : World := run demoEnv (World.init "localhost" demoUsers) roomSceneEvents

/-- The join presence `<presence to='Room1@conference.localhost'/>`, with a capital. -/
def joinRoom1Upper : Element :=
  stanzaOf "presence" [("to", "Room1@conference.localhost")] [] ""

/-- The join presence `<presence to='room1@conference.localhost/bob'/>`. -/
def joinRoom1Bob : Element :=
  stanzaOf "presence" [("to", "room1@conference.localhost/bob")] [] ""

/-- No two rooms have JIDs that are equal under case folding. -/
def World.RoomsDistinct (fold : Char → Char) (w : World) : Prop :=
  (w.server.Rooms.map (fun r => r.JID)).Pairwise (fun a b => EqualFold fold a b = false)

/-- The leave presence `<presence to='room1@conference.localhost' type='unavailable'/>`. -/
def leaveRoom1 : Element :=
  stanzaOf "presence" [("to", "room1@conference.localhost"), ("type", "unavailable")] [] ""

/-! ## `xmlstream2`: tokens, serialising and reading back -/

/-- Go `xml.Token`, as far as the streamer tells the kinds apart: start tag, character
data, end tag, and anything else (comment, processing instruction, directive). -/
inductive Token where
  | start (name : Name) (attr : List Attr)
  | charData (s : String)
  | endElement (name : Name)
  | other
deriving DecidableEq, Repr

/-- The attribute filter of `writeToEncoder`. -/
def keptAttrs (attrs : List Attr) : List Attr :=
  attrs.filter (fun a => a.Name.Space != "" || a.Name.Local != "xmlns")

mutual
/-- The method `Element.writeToEncoder`: the tokens the encoder accepted, in order, and
whether the returned error is nil. Go's `EncodeToken` refuses a start tag whose local
name is empty, and the method returns at the first error; the other tokens emitted here
are accepted. -/
def writeToEncoder : Element → List Token × Bool
  | ⟨name, attr, children, text⟩ =>
    if name.Local = "" then ([], false)
    else
      let r := writeChildren children
      if r.2 = false then (Token.start name (keptAttrs attr) :: r.1, false)
      else
        (Token.start name (keptAttrs attr) :: r.1 ++
          (if text ≠ "" then [Token.charData text] else []) ++ [Token.endElement name], true)
/-- The loop over `e.Children` in `writeToEncoder`, which stops at the first error. -/
def writeChildren : List Element → List Token × Bool
  | [] => ([], true)
  | child :: rest =>
    let r := writeToEncoder child
    if r.2 = false then r
    else ((r.1 ++ (writeChildren rest).1), (writeChildren rest).2)
end

/-- The errors of the streamer: `NoMoreChildrenError`, or the decoder's error when its
input is exhausted. -/
inductive StreamError where
  | noMoreChildren
  | decoder
deriving DecidableEq, Repr

/-- The method `Element.readFromDecoder` on the tokens the decoder still delivers: the
element read so far, the outcome, and the tokens left. The first argument bounds the
number of tokens read; `none` means the bound was reached. -/
def readFromDecoder : Nat → Element → List Token → Option (Except StreamError Element × List Token)
  | 0, _, _ => none
  | _ + 1, _, [] => some (.error .decoder, [])
  | fuel + 1, e, Token.start name attr :: rest =>
    match readFromDecoder fuel ⟨name, attr, [], ""⟩ rest with
    | none => none
    | some (.error err, rest1) => some (.error err, rest1)
    | some (.ok el, rest1) =>
      readFromDecoder fuel { e with Children := e.Children ++ [el] } rest1
  | fuel + 1, e, Token.charData v :: rest => readFromDecoder fuel { e with Text := v } rest
  | _ + 1, e, Token.endElement _ :: rest => some (.ok e, rest)
  | fuel + 1, e, Token.other :: rest => readFromDecoder fuel e rest

/-- The struct `ElementStream`: the tokens its decoder still delivers, and `ended`. -/
structure ElementStream where
  rd : List Token
  ended : Bool

/-- The token loop of `NextChild`, by recursion on the tokens left. -/
def nextChildLoop : List Token → Except StreamError Element × ElementStream
  | [] => (.error .decoder, ⟨[], false⟩)
  | Token.start name attr :: rest =>
    match readFromDecoder (rest.length + 1) ⟨name, attr, [], ""⟩ rest with
    | some (r, rest1) => (r, ⟨rest1, false⟩)
    | none => (.error .decoder, ⟨[], false⟩)
  | Token.endElement _ :: rest => (.error .noMoreChildren, ⟨rest, true⟩)
  | Token.charData _ :: rest => nextChildLoop rest
  | Token.other :: rest => nextChildLoop rest

/-- The method `ElementStream.NextChild`. -/
def ElementStream.NextChild (s : ElementStream) : Except StreamError Element × ElementStream :=
  if s.ended then (.error .noMoreChildren, s)
  else nextChildLoop s.rd

mutual
/-- The element without its un-namespaced `xmlns` attributes, at every level. -/
def stripXmlns : Element → Element
  | ⟨name, attr, children, text⟩ => ⟨name, keptAttrs attr, stripXmlnsAll children, text⟩
/-- The list version of `stripXmlns`. -/
def stripXmlnsAll : List Element → List Element
  | [] => []
  | child :: rest => stripXmlns child :: stripXmlnsAll rest
end

mutual
/-- Whether every element in the tree has a non-empty local name. -/
def allNamed : Element → Bool
  | ⟨name, _, children, _⟩ => name.Local != "" && allNamedList children
/-- The list version of `allNamed`. -/
def allNamedList : List Element → Bool
  | [] => true
  | child :: rest => allNamed child && allNamedList rest
end

/-- The element `<a/>` carrying the attribute `xmlns='urn:x'`. -/
def xmlnsElement : Element := ⟨⟨"", "a"⟩, [⟨⟨"", "xmlns"⟩, "urn:x"⟩], [], ""⟩

/-- The element `<a/>` without attributes. -/
def plainElement : Element := ⟨⟨"", "a"⟩, [], [], ""⟩

/-- A message with a body child, as the admin API builds it. -/
def apiMessage : Element :=
  ⟨⟨"jabber:client", "message"⟩,
    [⟨⟨"", "from"⟩, "admin"⟩, ⟨⟨"", "to"⟩, "alice@localhost"⟩],
    [⟨⟨"jabber:client", "body"⟩, [], [], "hello"⟩], ""⟩

/-- An element `<iq>` whose only child is `<query>`, which holds a `<username>`. -/
def nestedElement : Element :=
  stanzaOf "iq" [("id", "a1")] [stanzaOf "query" [] [stanzaOf "username" [] [] "alice"] ""] ""

/-- An element `<a>` with one child whose name is empty. -/
def namelessChild : Element := ⟨⟨"", "a"⟩, [], [Element.zero], "text"⟩

/-! ## `api/api.go`: user provisioning -/

/-- The characters listed in the `strings.ContainsAny` call of `jidNodeValid`:
`"`, `&`, the apostrophe, `/`, `:`, `<`, `>`, `@`, U+007F, U+FFFE and U+FFFF. -/
def jidNodeForbidden : List Char :=
  [Char.ofNat 0x22, '&', Char.ofNat 0x27, '/', ':', '<', '>', '@', Char.ofNat 0x7F,
    Char.ofNat 0xFFFE, Char.ofNat 0xFFFF]

/-- Go `strings.ContainsAny(s, chars)`. -/
def containsAny (s : String) (chars : List Char) : Bool :=
  s.data.any (fun ch => chars.contains ch)

/-- The function `jidNodeValid`; Go's `len(s)` is the number of bytes. -/
def jidNodeValid (s : String) : Bool :=
  if (bytesOf s).length = 0 ∨ (bytesOf s).length > 256 then false
  else !containsAny s jidNodeForbidden

/-- The method `DB.UpsertUser`: the store afterwards and whether an error is returned;
`updateErr` tells whether the `Update` transaction fails. -/
def DB.UpsertUser (d : DB) (updateErr : Bool) (user : User) : DB × Bool :=
  if updateErr then (d, true)
  else ({ d with users := Function.update d.users user.Name (some user.Password) }, false)

/-- The handler `Server.upsertUser`: the credential store afterwards and the HTTP status
(200 when the handler writes no header). `body` is the decoded JSON body, `none` when
decoding fails. -/
def upsertUser (d : DB) (updateErr : Bool) (body : Option (String × String)) : DB × Nat :=
  match body with
  | none => (d, 500)
  | some (username, password) =>
    if !jidNodeValid username then (d, 400)
    else
      let r := d.UpsertUser updateErr ⟨username, bytesOf password⟩
      if r.2 then (r.1, 500) else (r.1, 200)

/-- An auth set IQ for the unknown user `mallory` without a `<password>` element. -/
def authSetNoPassword : Element :=
  stanzaOf "iq" [("id", "a1"), ("type", "set")]
    [⟨⟨"jabber:iq:auth", "query"⟩, [],
      [stanzaOf "username" [] [] "mallory", stanzaOf "resource" [] [] "game"], ""⟩] ""

/-! ## Well-formed documents, as the decoder reports them -/

/-- A node of a well-formed document: an element with its attributes and content,
character data, or anything else (comment, processing instruction, directive). -/
inductive Node where
  | elem (name : Name) (attr : List Attr) (content : List Node)
  | text (s : String)
  | other

mutual
/-- The tokens the decoder delivers for a node. -/
def nodeTokens : Node → List Token
  | .elem name attr content =>
    Token.start name attr :: (contentTokens content ++ [Token.endElement name])
  | .text s => [Token.charData s]
  | .other => [Token.other]
/-- The tokens the decoder delivers for a sequence of nodes. -/
def contentTokens : List Node → List Token
  | [] => []
  | nd :: rest => nodeTokens nd ++ contentTokens rest
end

/-- The last character data directly in a sequence of nodes, if any. -/
def lastTextOf : List Node → Option String
  | [] => none
  | nd :: rest =>
    match lastTextOf rest with
    | some s => some s
    | none =>
      match nd with
      | .text s => some s
      | _ => none

mutual
/-- The element node with all of its descendants materialised: its name and attributes,
its child elements in document order, and as text the last character data directly
inside it. -/
def materialize : Node → Element
  | .elem name attr content =>
    ⟨name, attr, materializeAll content, (lastTextOf content).getD ""⟩
  | .text _ => Element.zero
  | .other => Element.zero
/-- The child elements among a sequence of nodes, materialised, in document order. -/
def materializeAll : List Node → List Element
  | [] => []
  | nd :: rest =>
    match nd with
    | .elem name attr content => materialize (.elem name attr content) :: materializeAll rest
    | .text _ => materializeAll rest
    | .other => materializeAll rest
end

/-- The results of `k` successive calls of `NextChild`, and the stream afterwards. -/
def nextChildren : Nat → ElementStream → List (Except StreamError Element) × ElementStream
  | 0, s => ([], s)
  | k + 1, s =>
    ((s.NextChild).1 :: (nextChildren k (s.NextChild).2).1, (nextChildren k (s.NextChild).2).2)

/-- The content of the root of the test document `testDoc1`: three `child` elements
between whitespace, the first with three `info` children. -/
def testDoc1 : List Node :=
  [.text "\n\t",
    .elem ⟨"", "child"⟩ [⟨⟨"", "id"⟩, "1"⟩]
      [.text "\n\t\t",
        .elem ⟨"", "info"⟩ [] [.text "\n\t\t\t", .elem ⟨"", "id"⟩ [] [.text "1"], .text "\n\t\t"],
        .text "\n\t\t",
        .elem ⟨"", "info"⟩ [] [.text "\n\t\t\t", .elem ⟨"", "id"⟩ [] [.text "2"], .text "\n\t\t"],
        .text "\n\t\t",
        .elem ⟨"", "info"⟩ [] [.text "\n\t\t\t", .elem ⟨"", "id"⟩ [] [.text "3"], .text "\n\t\t"],
        .text "\n\t"],
    .text "\n\t",
    .elem ⟨"", "child"⟩ [⟨⟨"", "id"⟩, "2"⟩] [.text "\n\t\tHello, world!\n\t"],
    .text "\n\t",
    .elem ⟨"", "child"⟩ [⟨⟨"", "id"⟩, "3"⟩] [.text "\n\t"],
    .text "\n"]

/-- The element `acc` after `readFromDecoder` has read the nodes `cs` into it. -/
def absorbed (acc : Element) (cs : List Node) : Element :=
  { acc with Children := acc.Children ++ materializeAll cs,
             Text := (lastTextOf cs).getD acc.Text }

/-- Session 0 upgrades to TLS and authenticates as `alice@localhost/game`, sending no
presence; then session 1 upgrades to TLS. -/
def aliceThenSession1 : List Event :=
  aliceLogin ++ [.stanza 1 starttls demoConn]

/-- After `aliceThenSession1`, session 1 authenticates as `alice@localhost/game2`. -/
def aliceTwice : List Event :=
  aliceThenSession1 ++ [.stanza 1 (authSet "a2" "alice" "hunter2" "game2") demoConn]

/-- After `aliceTwice`, both sessions send their initial presence. -/
def aliceTwiceOnline : List Event :=
  aliceTwice ++ [.stanza 0 (stanzaOf "presence" [] [] "") demoConn,
    .stanza 1 (stanzaOf "presence" [] [] "") demoConn]

/-! ## Go `encoding/xml`: the bytes the encoder writes, the tokens the decoder reads -/

/-- What the model takes from Go's `encoding/xml` as given: the part above U+007F of its
range tables `first` and `second` (the runes that may start, and continue, an XML name),
and the name that `createAttrPrefix` picks for a namespace without a binding in scope,
from the URL, the bindings in scope and the encoder's counter, with the counter
afterwards. -/
structure XmlLib where
  first : Char → Bool
  second : Char → Bool
  pickName : String → List (String × String) → Nat → String × Nat

/-- Membership in Go's table `first`: below U+0080 it holds `:`, `_` and the letters. -/
def inFirst (lib : XmlLib) (c : Char) : Bool :=
  if c.toNat < 128 then
    c.toNat = 58 || c.toNat = 95 || (65 ≤ c.toNat && c.toNat ≤ 90) ||
      (97 ≤ c.toNat && c.toNat ≤ 122)
  else lib.first c

/-- Membership in Go's table `second`: below U+0080 it holds `-`, `.` and the digits. -/
def inSecond (lib : XmlLib) (c : Char) : Bool :=
  if c.toNat < 128 then
    c.toNat = 45 || c.toNat = 46 || (48 ≤ c.toNat && c.toNat ≤ 57)
  else lib.second c

/-- Go `encoding/xml` `isName`. -/
def isName (lib : XmlLib) : List Char → Bool
  | [] => false
  | c :: rest => inFirst lib c && rest.all (fun r => inFirst lib r || inSecond lib r)

/-- The bytes that `readName` takes into a name: Go's `isNameByte`, and every byte of a
multi-byte rune. -/
def isNameByte (c : Char) : Bool :=
  (65 ≤ c.toNat && c.toNat ≤ 90) || (97 ≤ c.toNat && c.toNat ≤ 122) ||
    (48 ≤ c.toNat && c.toNat ≤ 57) || c.toNat = 95 || c.toNat = 58 || c.toNat = 46 ||
    c.toNat = 45 || 128 ≤ c.toNat

/-- One rune of the character data written by `EncodeToken`: as `escapeRune`, but a
newline is written as it is. -/
def escapeCharDataRune (r : Char) : String :=
  if r.toNat = 10 then String.singleton r else escapeRune r

/-- The state of the encoder's printer: the bytes written, the open tags, the
prefix to URL bindings in scope, the stack of prefixes with one empty mark per open tag,
and the counter for invented prefixes. -/
structure Printer where
  out : List Char
  tags : List Name
  attrNS : List (String × String)
  prefixes : List String
  seq : Nat

/-- A new encoder. -/
def Printer.init : Printer := ⟨[], [], [], [], 0⟩

/-- The namespace that is bound to the prefix `xml` from the start. -/
def xmlURL : String := "http://www.w3.org/XML/1998/namespace"

/-- The printer's `createAttrPrefix`: the prefix for the namespace `url`, declared on
the spot when none is in scope. -/
def Printer.createAttrPrefix (lib : XmlLib) (p : Printer) (url : String) : Printer × String :=
  match p.attrNS.find? (fun b => b.2 == url) with
  | some b => (p, b.1)
  | none =>
    if url = xmlURL then (p, "xml")
    else
      let r := lib.pickName url p.attrNS p.seq
      ({ p with
          attrNS := (r.1, url) :: p.attrNS
          seq := r.2
          prefixes := r.1 :: p.prefixes
          out := p.out ++ ("xmlns:".data ++ (r.1.data ++ ("=\"".data ++
            ((XMLEscape url).data ++ "\" ".data)))) }, r.1)

/-- One pass of the attribute loop of the printer's `writeStart`. -/
def Printer.writeAttr (lib : XmlLib) (p : Printer) (a : Attr) : Printer :=
  if a.Name.Local = "" then p
  else
    let p1 : Printer := { p with out := p.out ++ [' '] }
    let p2 : Printer :=
      if a.Name.Space ≠ "" then
        let r := p1.createAttrPrefix lib a.Name.Space
        { r.1 with out := r.1.out ++ (r.2.data ++ [':']) }
      else p1
    { p2 with out := p2.out ++ (a.Name.Local.data ++ ("=\"".data ++
        ((XMLEscape a.Value).data ++ ['"']))) }

/-- The printer's `writeStart`; the second component tells whether the error is nil. -/
def Printer.writeStart (lib : XmlLib) (p : Printer) (name : Name) (attrs : List Attr) :
    Printer × Bool :=
  if name.Local = "" then (p, false)
  else
    let p1 : Printer :=
      { p with
        tags := name :: p.tags
        prefixes := "" :: p.prefixes
        out := p.out ++ ('<' :: (name.Local.data ++
          (if name.Space ≠ "" then " xmlns=\"".data ++ ((XMLEscape name.Space).data ++ ['"'])
            else []))) }
    let p2 := attrs.foldl (Printer.writeAttr lib) p1
    ({ p2 with out := p2.out ++ ['>'] }, true)

/-- The printer's `popPrefix`: forget the prefixes declared since the last mark. -/
def popPrefixes (attrNS : List (String × String)) :
    List String → List (String × String) × List String
  | [] => (attrNS, [])
  | pfx :: rest =>
    if pfx = "" then (attrNS, rest)
    else popPrefixes (attrNS.filter (fun b => b.1 != pfx)) rest

/-- The printer's `writeEnd`; the second component tells whether the error is nil. -/
def Printer.writeEnd (p : Printer) (name : Name) : Printer × Bool :=
  if name.Local = "" then (p, false)
  else
    match p.tags with
    | [] => (p, false)
    | top :: tags =>
      if top.Local = "" ∨ top ≠ name then (p, false)
      else
        let r := popPrefixes p.attrNS p.prefixes
        ({ p with
            tags := tags
            out := p.out ++ ('<' :: '/' :: (name.Local.data ++ ['>']))
            attrNS := r.1
            prefixes := r.2 }, true)

/-- Go `Encoder.EncodeToken` on the tokens `writeToEncoder` passes to it; the second
component tells whether the error is nil. -/
def EncodeToken (lib : XmlLib) (p : Printer) : Token → Printer × Bool
  | .start name attrs => p.writeStart lib name attrs
  | .endElement name => p.writeEnd name
  | .charData s =>
    ({ p with out := p.out ++ (String.join (s.data.map escapeCharDataRune)).data }, true)
  | .other => (p, false)

/-- The encoder after the tokens `toks`, each passed to `EncodeToken`; a refused token
leaves the state as it is. -/
def encodeTokens (lib : XmlLib) (p : Printer) (toks : List Token) : Printer :=
  toks.foldl (fun q t => (EncodeToken lib q t).1) p

/-- The method `Element.AsString`: the bytes in the buffer of a new encoder after
`writeToEncoder`, whatever error it returned. -/
def Element.AsString (lib : XmlLib) (e : Element) : String :=
  ⟨(encodeTokens lib Printer.init (writeToEncoder e).1).out⟩

/-- The kinds of entries on the decoder's stack. -/
inductive StackKind where
  | start
  | ns
deriving DecidableEq, Repr

/-- An entry of the decoder's stack: an open element, or a namespace binding to restore
(`ok` tells whether the prefix `name.Local` was bound, to `name.Space`, before). -/
structure StackEntry where
  kind : StackKind
  name : Name
  ok : Bool
deriving DecidableEq, Repr

/-- The state of a strict `xml.Decoder`: the input left, the pending end of a
self-closing tag, the stack, and the namespace bindings in scope by prefix. -/
structure Decoder where
  input : List Char
  needClose : Bool
  toClose : Name
  stk : List StackEntry
  ns : String → Option String

/-- A new decoder on the input `s`. -/
def Decoder.init (s : List Char) : Decoder := ⟨s, false, ⟨"", ""⟩, [], fun _ => none⟩

/-- The decoder's `space`: skip blanks. -/
def skipSpace : List Char → List Char
  | [] => []
  | c :: rest =>
    if c = ' ' ∨ c = '\r' ∨ c = '\n' ∨ c = '\t' then skipSpace rest else c :: rest

/-- The loop of the decoder's `readName`: the longest run of name bytes, and the input
from the first other byte on. -/
def readNameLoop : List Char → List Char × List Char
  | [] => ([], [])
  | c :: rest =>
    if isNameByte c then ((c :: (readNameLoop rest).1), (readNameLoop rest).2)
    else ([], c :: rest)

/-- The decoder's `name`: a non-empty run of name bytes that is an XML name and is
followed by some byte; `none` is a syntax error. -/
def readXmlName (lib : XmlLib) (input : List Char) : Option (List Char × List Char) :=
  let r := readNameLoop input
  if r.1 = [] ∨ r.2 = [] then none
  else if isName lib r.1 then some r else none

/-- The split of `nsname`: at the only colon when both sides are non-empty; more than
one colon is an error. -/
def splitNsName (s : List Char) : Option Name :=
  if s.count ':' > 1 then none
  else
    let sp := s.takeWhile (fun c => c != ':')
    let loc := (s.dropWhile (fun c => c != ':')).drop 1
    if s.contains ':' ∧ sp ≠ [] ∧ loc ≠ [] then some ⟨⟨sp⟩, ⟨loc⟩⟩
    else some ⟨"", ⟨s⟩⟩

/-- The decoder's `nsname`. -/
def nsname (lib : XmlLib) (input : List Char) : Option (Name × List Char) :=
  match readXmlName lib input with
  | none => none
  | some (s, rest) =>
    match splitNsName s with
    | none => none
    | some n => some (n, rest)

/-- The value of a run of digits in the given base. -/
def digitsValue (base : Nat) (ds : List Char) : Nat :=
  ds.foldl (fun acc c =>
    acc * base +
      (if 48 ≤ c.toNat ∧ c.toNat ≤ 57 then c.toNat - 48
       else if 97 ≤ c.toNat ∧ c.toNat ≤ 102 then c.toNat - 87
       else c.toNat - 55)) 0

/-- Whether the byte is a digit of the base (10 or 16). -/
def isDigitOf (base : Nat) (c : Char) : Bool :=
  (48 ≤ c.toNat && c.toNat ≤ 57) ||
    (base == 16 && ((97 ≤ c.toNat && c.toNat ≤ 102) || (65 ≤ c.toNat && c.toNat ≤ 70)))

/-- Go `string(rune(n))` for `n` up to `unicode.MaxRune`: a surrogate becomes U+FFFD. -/
def runeOf (n : Nat) : Char :=
  if 0xD800 ≤ n ∧ n ≤ 0xDFFF then Char.ofNat 0xFFFD else Char.ofNat n

/-- The five entities every parser knows. -/
def entityOf (name : List Char) : Option Char :=
  if name = "lt".data then some '<'
  else if name = "gt".data then some '>'
  else if name = "amp".data then some '&'
  else if name = "apos".data then some (Char.ofNat 39)
  else if name = "quot".data then some '"'
  else none

/-- The entity branch of the decoder's `text`, on the input after `&`: the rune it
stands for and the input after the semicolon; `none` is a syntax error (a strict decoder
accepts no other form). -/
def readEntity (lib : XmlLib) : List Char → Option (Char × List Char)
  | [] => none
  | '#' :: rest =>
    let base := if rest.head? = some 'x' then 16 else 10
    let body := if rest.head? = some 'x' then rest.drop 1 else rest
    let ds := body.takeWhile (isDigitOf base)
    match body.dropWhile (isDigitOf base) with
    | ';' :: after =>
      if ds ≠ [] ∧ digitsValue base ds ≤ 0x10FFFF then some (runeOf (digitsValue base ds), after)
      else none
    | _ => none
  | c :: rest =>
    let r := readNameLoop (c :: rest)
    match r.2 with
    | ';' :: after =>
      if isName lib r.1 then (entityOf r.1).map (fun ch => (ch, after)) else none
    | _ => none

/-- The loop of the decoder's `text` outside CDATA: `quote` is the closing quote of an
attribute value, if any; `b0` and `b1` are the two bytes read before; `acc` is the text
so far. The result is the text and the input left; `none` is a syntax error. The first
argument bounds the number of turns. -/
def textLoop (lib : XmlLib) (quote : Option Char) :
    Nat → Char → Char → List Char → List Char → Option (List Char × List Char)
  | 0, _, _, _, _ => none
  | _ + 1, _, _, acc, [] => some (acc, [])
  | fuel + 1, b0, b1, acc, b :: rest =>
    if b0 = ']' ∧ b1 = ']' ∧ b = '>' then none
    else if b = '<' then
      if quote.isSome then none else some (acc, b :: rest)
    else if quote = some b then some (acc, rest)
    else if b = '&' then
      match readEntity lib rest with
      | none => none
      | some (ch, after) => textLoop lib quote fuel (Char.ofNat 0) (Char.ofNat 0) (acc ++ [ch]) after
    else if b = '\r' then textLoop lib quote fuel b1 b (acc ++ ['\n']) rest
    else if b1 = '\r' ∧ b = '\n' then textLoop lib quote fuel b1 b acc rest
    else textLoop lib quote fuel b1 b (acc ++ [b]) rest

/-- The decoder's `text` outside CDATA, with its final check that every rune is in the
character range. -/
def readText (lib : XmlLib) (quote : Option Char) (input : List Char) :
    Option (List Char × List Char) :=
  match textLoop lib quote (input.length + 1) (Char.ofNat 0) (Char.ofNat 0) [] input with
  | none => none
  | some (data, rest) => if data.all isInCharacterRange then some (data, rest) else none

/-- The decoder's `attrval` when strict: a quoted value. -/
def attrval (lib : XmlLib) : List Char → Option (List Char × List Char)
  | [] => none
  | b :: rest =>
    if b = '"' ∨ b = Char.ofNat 39 then readText lib (some b) rest else none

/-- The attribute loop of the decoder's `rawToken`, after the element name: the
attributes, whether the tag closes itself, and the input after `>`; `none` is a syntax
error. The first argument bounds the number of turns. -/
def readAttrs (lib : XmlLib) :
    Nat → List Attr → List Char → Option (List Attr × Bool × List Char)
  | 0, _, _ => none
  | fuel + 1, acc, input =>
    match skipSpace input with
    | [] => none
    | '/' :: rest =>
      match rest with
      | '>' :: after => some (acc, true, after)
      | _ => none
    | '>' :: after => some (acc, false, after)
    | b :: rest =>
      match nsname lib (b :: rest) with
      | none => none
      | some (n, r1) =>
        match skipSpace r1 with
        | '=' :: r2 =>
          match attrval lib (skipSpace r2) with
          | none => none
          | some (v, r3) => readAttrs lib fuel (acc ++ [⟨n, ⟨v⟩⟩]) r3
        | _ => none

/-- The decoder's `rawToken` for the markup the encoder can write: character data, an
end tag, a start tag. The result is the token, whether a start tag closes itself, and
the input left; `none` stands for a syntax error, the end of the input, and also for
`<?` and `<!`, which are not modelled. -/
def rawToken (lib : XmlLib) : List Char → Option (Token × Bool × List Char)
  | [] => none
  | '<' :: rest =>
    match rest with
    | [] => none
    | '/' :: r1 =>
      match nsname lib r1 with
      | none => none
      | some (n, r2) =>
        match skipSpace r2 with
        | '>' :: r3 => some (.endElement n, false, r3)
        | _ => none
    | '?' :: _ => none
    | '!' :: _ => none
    | b :: r1 =>
      match nsname lib (b :: r1) with
      | none => none
      | some (n, r2) =>
        match readAttrs lib (r2.length + 1) [] r2 with
        | none => none
        | some (attrs, empty, r3) => some (.start n attrs, empty, r3)
  | b :: rest =>
    match readText lib none (b :: rest) with
    | none => none
    | some (data, r1) => some (.charData ⟨data⟩, false, r1)

/-- The decoder's `translate`: the namespace of a prefix. -/
def translate (ns : String → Option String) (n : Name) (isElementName : Bool) : Name :=
  if n.Space = "xmlns" then n
  else if n.Space = "" ∧ isElementName = false then n
  else if n.Space = "" ∧ n.Local = "xmlns" then n
  else
    match ns (if n.Space = "xml" then xmlURL else n.Space) with
    | some v => ⟨v, n.Local⟩
    | none => ⟨if n.Space = "xml" then xmlURL else n.Space, n.Local⟩

/-- The first loop of `Token` on a start tag: every `xmlns:p` attribute and every
`xmlns` attribute binds a prefix, the old binding going to the stack. -/
def pushBindings (d : Decoder) : List Attr → Decoder
  | [] => d
  | a :: rest =>
    let d1 : Decoder :=
      if a.Name.Space = "xmlns" then
        { d with
          stk := ⟨.ns, ⟨(d.ns a.Name.Local).getD "", a.Name.Local⟩,
            (d.ns a.Name.Local).isSome⟩ :: d.stk
          ns := Function.update d.ns a.Name.Local (some a.Value) }
      else d
    let d2 : Decoder :=
      if a.Name.Space = "" ∧ a.Name.Local = "xmlns" then
        { d1 with
          stk := ⟨.ns, ⟨(d1.ns "").getD "", ""⟩, (d1.ns "").isSome⟩ :: d1.stk
          ns := Function.update d1.ns "" (some a.Value) }
      else d1
    pushBindings d2 rest

/-- The loop at the end of the decoder's `popElement`: undo the bindings of the element
just closed. -/
def popBindings (ns : String → Option String) :
    List StackEntry → (String → Option String) × List StackEntry
  | [] => (ns, [])
  | s :: rest =>
    if s.kind = .start then (ns, s :: rest)
    else popBindings (Function.update ns s.name.Local (if s.ok then some s.name.Space else none)) rest

/-- The method `Decoder.Token` of a strict decoder: the next token and the decoder
afterwards; `none` stands for an error or the end of the input. -/
def Decoder.Token (lib : XmlLib) (d : Decoder) : Option (Sbrwxmpp.Token × Decoder) :=
  let raw : Option (Sbrwxmpp.Token × Bool × List Char) :=
    if d.needClose then some (.endElement d.toClose, false, d.input)
    else rawToken lib d.input
  match raw with
  | none => none
  | some (.start n attrs, empty, rest) =>
    let d1 : Decoder :=
      { d with input := rest, needClose := empty, toClose := if empty then n else d.toClose }
    let d2 := pushBindings d1 attrs
    let d3 : Decoder := { d2 with stk := ⟨.start, n, false⟩ :: d2.stk }
    some (.start (translate d3.ns n true)
      (attrs.map (fun a => ⟨translate d3.ns a.Name false, a.Value⟩)), d3)
  | some (.endElement n, _, rest) =>
    match d.stk with
    | [] => none
    | s :: below =>
      if s.kind ≠ .start ∨ s.name.Local ≠ n.Local ∨ s.name.Space ≠ n.Space then none
      else
        let r := popBindings d.ns below
        some (.endElement (translate d.ns n true),
          { d with input := rest, needClose := false, ns := r.1, stk := r.2 })
  | some (t, _, rest) => some (t, { d with input := rest, needClose := false })

/-- The first `n` tokens the decoder delivers, fewer when it stops before. -/
def Decoder.tokens (lib : XmlLib) : Nat → Decoder → List Sbrwxmpp.Token
  | 0, _ => []
  | n + 1, d =>
    match d.Token lib with
    | none => []
    | some (t, d1) => t :: Decoder.tokens lib n d1
/-- The decoder `d` reading the input `s`. -/
def Decoder.withInput (d : Decoder) (s : List Char) : Decoder := { d with input := s }

/-- One rune of a text after the encoder and the decoder: a rune outside the XML
character range has become U+FFFD. -/
def cleanRune (c : Char) : Char :=
  if isInCharacterRange c then c else Char.ofNat 0xFFFD

/-- A text after the encoder and the decoder. -/
def cleanText (s : String) : String := ⟨s.data.map cleanRune⟩

/-- An XML name without a colon. -/
def plainName (lib : XmlLib) (s : String) : Bool :=
  isName lib s.data && !s.data.contains ':'

mutual
/-- Every element of the tree is named by an XML name without a colon, and so is every
attribute that `writeToEncoder` keeps, none of which has a namespace. -/
def wireSafe (lib : XmlLib) : Element → Bool
  | ⟨name, attr, children, _⟩ =>
    plainName lib name.Local &&
      (keptAttrs attr).all (fun a => a.Name.Space == "" && plainName lib a.Name.Local) &&
      wireSafeList lib children
/-- The list version of `wireSafe`. -/
def wireSafeList (lib : XmlLib) : List Element → Bool
  | [] => true
  | child :: rest => wireSafe lib child && wireSafeList lib rest
end

/-- The `xmlns` attribute that the encoder writes for a non-empty `Name.Space`. -/
def xmlnsAttrs (space : String) : List Attr :=
  if space ≠ "" then [⟨⟨"", "xmlns"⟩, space⟩] else []

/-- The default namespace inside an element: its own `Name.Space` when that is not
empty, else the one around it. -/
def scopeOf (dflt : Option String) (name : Name) : Option String :=
  if name.Space ≠ "" then some (cleanText name.Space) else dflt

/-- The namespace the decoder gives to an un-prefixed element name: the default
namespace in scope, if any; the name `xmlns` gets none. -/
def elementSpace (dflt : Option String) (loc : String) : String :=
  if loc = "xmlns" then "" else dflt.getD ""

mutual
/-- The element that comes back for `e` when the default namespace around it is `dflt`:
the `xmlns` attribute for its `Name.Space` first, then the attributes `writeToEncoder`
keeps; the namespace of each element is its own or, when that is empty, the default in
scope; runes outside the XML character range have become U+FFFD. -/
def readBack (dflt : Option String) : Element → Element
  | ⟨name, attr, children, text⟩ =>
    ⟨⟨elementSpace (scopeOf dflt name) name.Local, name.Local⟩,
      (xmlnsAttrs name.Space ++ keptAttrs attr).map (fun a => ⟨a.Name, cleanText a.Value⟩),
      readBackAll (scopeOf dflt name) children, cleanText text⟩
/-- The list version of `readBack`. -/
def readBackAll (dflt : Option String) : List Element → List Element
  | [] => []
  | child :: rest => readBack dflt child :: readBackAll dflt rest
end

mutual
/-- The document node the decoder reports for the bytes of `e`. -/
def wireNode (dflt : Option String) : Element → Node
  | ⟨name, attr, children, text⟩ =>
    .elem ⟨elementSpace (scopeOf dflt name) name.Local, name.Local⟩
      ((xmlnsAttrs name.Space ++ keptAttrs attr).map (fun a => ⟨a.Name, cleanText a.Value⟩))
      (wireNodes (scopeOf dflt name) children ++
        (if text ≠ "" then [.text (cleanText text)] else []))
/-- The list version of `wireNode`. -/
def wireNodes (dflt : Option String) : List Element → List Node
  | [] => []
  | child :: rest => wireNode dflt child :: wireNodes dflt rest
end

/-- The bytes of one attribute in a start tag. -/
def renderAttr (a : Attr) : List Char :=
  ' ' :: (a.Name.Local.data ++ ('=' :: '"' :: ((XMLEscape a.Value).data ++ ['"'])))

/-- The bytes of the attributes of a start tag. -/
def renderAttrs : List Attr → List Char
  | [] => []
  | a :: rest => renderAttr a ++ renderAttrs rest

/-- The bytes of a character data token. -/
def renderText (s : String) : List Char :=
  (String.join (s.data.map escapeCharDataRune)).data

mutual
/-- The bytes of an element whose names are plain: start tag, children, text, end tag. -/
def render : Element → List Char
  | ⟨name, attr, children, text⟩ =>
    '<' :: (name.Local.data ++ (renderAttrs (xmlnsAttrs name.Space ++ keptAttrs attr) ++
      ('>' :: (renderAll children ++ (renderText text ++
        ('<' :: '/' :: (name.Local.data ++ ['>'])))))))
/-- The list version of `render`. -/
def renderAll : List Element → List Char
  | [] => []
  | child :: rest => render child ++ renderAll rest
end

/-- The decoder is between two tokens of a document: no end tag is pending, and the top
of its stack, if any, is an open element. -/
def Decoder.ready (d : Decoder) : Bool :=
  !d.needClose && (match d.stk with
    | [] => true
    | s :: _ => s.kind == .start)

/-- The tables with nothing above U+007F, and `_` as the invented prefix (Go's pick for
a URL such as `urn:x` while `_` is free); for running the model on ASCII input. -/
def asciiLib : XmlLib := ⟨fun _ => false, fun _ => false, fun _ _ seq => ("_", seq)⟩
/-- The decoder `d` after the start tag of an element named `name`, with `rest` left to
read: the element is on the stack, above the binding of the default namespace that its
`xmlns` attribute replaces, if it has one. -/
def Decoder.opened (d : Decoder) (name : Name) (rest : List Char) : Decoder :=
  { input := rest
    needClose := false
    toClose := d.toClose
    stk := ⟨.start, ⟨"", name.Local⟩, false⟩ ::
      ((if name.Space ≠ "" then [⟨.ns, ⟨(d.ns "").getD "", ""⟩, (d.ns "").isSome⟩] else []) ++
        d.stk)
    ns := if name.Space ≠ "" then Function.update d.ns "" (some (cleanText name.Space))
      else d.ns }
mutual
/-- No element of the tree has a namespace or is named `xmlns`, and every rune of the
texts and of the values of the kept attributes is in the XML character range. -/
def bareElement : Element → Bool
  | ⟨name, attr, children, text⟩ =>
    name.Space == "" && name.Local != "xmlns" && text.data.all isInCharacterRange &&
      (keptAttrs attr).all (fun a => a.Value.data.all isInCharacterRange) &&
      bareElements children
/-- The list version of `bareElement`. -/
def bareElements : List Element → Bool
  | [] => true
  | child :: rest => bareElement child && bareElements rest
end

/-- The client's stream header, as far as the decoder's state depends on it. -/
def streamHeader : String :=
  "<stream:stream xmlns='jabber:client' xmlns:stream='http://etherx.jabber.org/streams'>"

/-- The decoder of a connection after `NewStream` has read the stream header. -/
def streamDecoder : Decoder :=
  match (Decoder.init streamHeader.data).Token asciiLib with
  | some r => r.2
  | none => Decoder.init []

/-- The element returned by `NextChild`, if any. -/
def childOf (r : Except StreamError Element × ElementStream) : Option Element :=
  match r.1 with
  | .ok e => some e
  | .error _ => none

/-- What `NextChild` returns on a new decoder that reads `e.AsString()`. -/
def reparse (e : Element) : Option Element :=
  childOf (ElementStream.NextChild
    ⟨Decoder.tokens asciiLib 16 (Decoder.init (e.AsString asciiLib).data), false⟩)

/-- An element `a` in the namespace `urn:p` with a child `b` that has none. -/
def nsParent : Element := ⟨⟨"urn:p", "a"⟩, [], [⟨⟨"", "b"⟩, [], [], ""⟩], ""⟩

/-- An element whose text is the rune U+0001. -/
def controlText : Element := ⟨⟨"", "a"⟩, [], [], String.singleton (Char.ofNat 1)⟩

/-- An element with the attribute `k` in the namespace `urn:x`. -/
def nsAttr : Element := ⟨⟨"", "a"⟩, [⟨⟨"urn:x", "k"⟩, "v"⟩], [], ""⟩

/-- An element whose local name holds a blank. -/
def blankName : Element := ⟨⟨"", "a b"⟩, [], [], ""⟩

/-- An element whose local name holds a colon. -/
def colonName : Element := ⟨⟨"", "a:b"⟩, [], [], ""⟩

/-- An element with an attribute whose local name is empty. -/
def namelessAttr : Element := ⟨⟨"", "a"⟩, [⟨⟨"", ""⟩, "v"⟩], [], ""⟩

/-! ## Theorems -/

theorem evictStep_server (env : Env) (c : ClientRef) (w : World) (cl : ClientRef) :
    (evictStep env c w cl).server = w.server := by
  unfold evictStep
  split <;> rfl

theorem evictStep_heap (env : Env) (c : ClientRef) (w : World) (cl x : ClientRef) :
    (evictStep env c w cl).heap x =
      if x = cl ∧ BareJidMatch env.fold (w.heap cl).JID (w.heap c).JID = true then
        { w.heap x with streamClosed := true } else w.heap x := by
  unfold evictStep
  by_cases hm : BareJidMatch env.fold (w.heap cl).JID (w.heap c).JID = true
  · simp only [hm, if_true, and_true]
    by_cases hx : x = cl
    · subst hx
      simp [World.CloseError, World.Close, World.write, World.setClient]
    · simp [World.CloseError, World.Close, World.write, World.setClient, Function.update, hx]
  · simp [hm]

theorem evictStep_sent (env : Env) (c : ClientRef) (w : World) (cl : ClientRef) :
    (evictStep env c w cl).sent = w.sent ++ evictions env w.heap c [cl] := by
  unfold evictStep evictions
  by_cases hm : BareJidMatch env.fold (w.heap cl).JID (w.heap c).JID = true
  · simp [hm, World.CloseError, World.Close, World.write, World.setClient]
  · simp [hm]

theorem evictStep_JID (env : Env) (c : ClientRef) (w : World) (cl x : ClientRef) :
    ((evictStep env c w cl).heap x).JID = (w.heap x).JID := by
  rw [evictStep_heap]
  split <;> rfl

theorem evictions_congr (env : Env) (h1 h2 : ClientRef → XmppClient) (c : ClientRef)
    (l : List ClientRef) (h : ∀ x, (h1 x).JID = (h2 x).JID) :
    evictions env h1 c l = evictions env h2 c l := by
  unfold evictions
  simp only [h]

theorem evictions_cons (env : Env) (heap : ClientRef → XmppClient) (c cl : ClientRef)
    (l : List ClientRef) :
    evictions env heap c (cl :: l) = evictions env heap c [cl] ++ evictions env heap c l := by
  unfold evictions
  by_cases hm : BareJidMatch env.fold (heap cl).JID (heap c).JID = true
  · simp [List.filter_cons, hm]
  · simp [List.filter_cons, hm]

theorem evictLoop_spec (env : Env) (c : ClientRef) (l : List ClientRef) (w : World) :
    (l.foldl (evictStep env c) w).server = w.server ∧
    (l.foldl (evictStep env c) w).sent = w.sent ++ evictions env w.heap c l ∧
    (∀ x, ((l.foldl (evictStep env c) w).heap x).JID = (w.heap x).JID) ∧
    (∀ x, ((l.foldl (evictStep env c) w).heap x).authenticated = (w.heap x).authenticated) ∧
    (∀ x, ((l.foldl (evictStep env c) w).heap x).tlsConn = (w.heap x).tlsConn) ∧
    (∀ x, (w.heap x).streamClosed = true →
      ((l.foldl (evictStep env c) w).heap x).streamClosed = true) ∧
    (∀ x, x ∈ l → BareJidMatch env.fold (w.heap x).JID (w.heap c).JID = true →
      ((l.foldl (evictStep env c) w).heap x).streamClosed = true) := by
  induction l generalizing w with
  | nil => simp [evictions]
  | cons cl rest ih =>
    obtain ⟨h1, h2, h3, h4, h5, h6, h7⟩ := ih (evictStep env c w cl)
    simp only [List.foldl_cons]
    refine ⟨by rw [h1, evictStep_server], ?_, ?_, ?_, ?_, ?_, ?_⟩
    · rw [h2, evictStep_sent, List.append_assoc,
        evictions_congr env (evictStep env c w cl).heap w.heap c rest (evictStep_JID env c w cl),
        ← evictions_cons]
    · intro x; rw [h3, evictStep_JID]
    · intro x; rw [h4, evictStep_heap]; split <;> rfl
    · intro x; rw [h5, evictStep_heap]; split <;> rfl
    · intro x hx
      apply h6
      rw [evictStep_heap]
      split
      · rfl
      · exact hx
    · intro x hx hm
      rcases List.mem_cons.mp hx with rfl | hr
      · apply h6
        rw [evictStep_heap]
        simp [hm]
      · apply h7 x hr
        rw [evictStep_JID, evictStep_JID]
        exact hm

theorem handleIq_single (env : Env) (w : World) (c : ClientRef) (e el : Element)
    (hid : e.GetAttr "id" ≠ "") (htyp : e.GetAttr "type" = "set") (hch : e.Children = [el]) :
    handleIq env w c e = handleIqChild env c (e.GetAttr "id") "set" w el := by
  unfold handleIq
  simp [hid, htyp, hch]

theorem iqResult_ne_notAuthorized (a b : String) : iqResult a ≠ iqNotAuthorized b := by
  intro h
  have := congrArg String.data h
  simp [iqResult, iqNotAuthorized] at this

theorem handleIqChild_bad (env : Env) (w : World) (c : ClientRef) (id : String) (el : Element)
    (user : User) (hq : el.Name = ⟨"jabber:iq:auth", "query"⟩)
    (hdb : w.server.DB.GetUser (el.GetChild "username").1.Text = .ok user)
    (hpw : user.Password ≠ bytesOf (el.GetChild "password").1.Text) :
    handleIqChild env c id "set" w el = w.write c (iqNotAuthorized id) := by
  unfold handleIqChild
  simp [hq, hdb, hpw]

/-- The successful branch of `handleIq`: the state `w3` before the flag is set. -/
theorem handleIqChild_ok (env : Env) (w : World) (c : ClientRef) (id : String) (el : Element)
    (user : User) (hq : el.Name = ⟨"jabber:iq:auth", "query"⟩)
    (hdb : w.server.DB.GetUser (el.GetChild "username").1.Text = .ok user)
    (hpw : user.Password = bytesOf (el.GetChild "password").1.Text) :
    ∃ w3 : World,
      handleIqChild env c id "set" w el =
        w3.setClient c { w3.heap c with authenticated := true } ∧
      w3.server = w.server ∧
      w3.sent = w.sent ++ evictions env w3.heap c w.server.Clients ++
        [(c, Wire.text (iqResult id))] ∧
      (w3.heap c).JID = (el.GetChild "username").1.Text ++ "@" ++ w.server.Domain ++ "/" ++
        (el.GetChild "resource").1.Text ∧
      (∀ x, x ≠ c → (w3.heap x).JID = (w.heap x).JID) ∧
      (∀ x, (w3.heap x).authenticated = (w.heap x).authenticated) ∧
      (∀ x, x ∈ w.server.Clients →
        BareJidMatch env.fold (w3.heap x).JID (w3.heap c).JID = true →
        (w3.heap x).streamClosed = true) := by
  let w1 := w.setClient c { w.heap c with JID := (el.GetChild "username").1.Text ++ "@" ++
    w.server.Domain ++ "/" ++ (el.GetChild "resource").1.Text }
  obtain ⟨h1, h2, h3, h4, _, _, h7⟩ := evictLoop_spec env c w1.server.Clients w1
  refine ⟨(w1.server.Clients.foldl (evictStep env c) w1).write c (iqResult id), ?_, ?_, ?_, ?_,
    ?_, ?_, ?_⟩
  · unfold handleIqChild
    simp [hq, hdb, hpw, w1]
  · show (w1.server.Clients.foldl (evictStep env c) w1).server = w.server
    rw [h1]; rfl
  · show (w1.server.Clients.foldl (evictStep env c) w1).sent ++ _ = _
    rw [h2]
    have : evictions env w1.heap c w1.server.Clients =
        evictions env (w1.server.Clients.foldl (evictStep env c) w1).heap c w.server.Clients :=
      (evictions_congr env _ _ c _ h3).symm
    rw [this]; rfl
  · show ((w1.server.Clients.foldl (evictStep env c) w1).heap c).JID = _
    rw [h3]; simp [w1, World.setClient]
  · intro x hx
    show ((w1.server.Clients.foldl (evictStep env c) w1).heap x).JID = _
    rw [h3]; simp [w1, World.setClient, Function.update, hx]
  · intro x
    show ((w1.server.Clients.foldl (evictStep env c) w1).heap x).authenticated = _
    rw [h4]
    by_cases hx : x = c
    · subst hx; simp [w1, World.setClient]
    · simp [w1, World.setClient, Function.update, hx]
  · intro x hx hm
    show ((w1.server.Clients.foldl (evictStep env c) w1).heap x).streamClosed = true
    apply h7 x hx
    have e1 : ((w1.server.Clients.foldl (evictStep env c) w1).write c (iqResult id)).heap =
      (w1.server.Clients.foldl (evictStep env c) w1).heap := rfl
    rw [e1, h3, h3] at hm
    exact hm

theorem mem_evictions (env : Env) (heap : ClientRef → XmppClient) (c : ClientRef)
    (l : List ClientRef) (p : ClientRef × Wire) (hp : p ∈ evictions env heap c l) :
    p.1 ∈ l ∧ BareJidMatch env.fold (heap p.1).JID (heap c).JID = true ∧
      (p.2 = Wire.text ("<stream:error>" ++ conflictCondition ++ "</stream:error>") ∨
        p.2 = Wire.text "</stream:stream>") := by
  unfold evictions at hp
  rw [List.mem_flatMap] at hp
  obtain ⟨cl, hcl, hp⟩ := hp
  rw [List.mem_filter] at hcl
  simp only [List.mem_cons, List.mem_singleton, List.not_mem_nil, or_false] at hp
  rcases hp with rfl | rfl
  · exact ⟨hcl.1, hcl.2, Or.inl rfl⟩
  · exact ⟨hcl.1, hcl.2, Or.inr rfl⟩

theorem BareJidMatch_refl (fold : Char → Char) (a : String) : BareJidMatch fold a a = true := by
  simp [BareJidMatch, EqualFold]

theorem conflict_text :
    "<stream:error>" ++ conflictCondition ++ "</stream:error>" =
      "<stream:error><conflict xmlns='urn:ietf:params:xml:ns:xmpp-streams'/></stream:error>" := by
  decide

/-- C1: for an auth `iq type='set'` with a non-empty id and a single `jabber:iq:auth`
query child whose credential lookup succeeds, `handleIq` sets `authenticated`, sets the
JID to `username@domain/resource` and writes `<iq type='result' id='…'/>` exactly when
the stored password bytes equal the supplied ones; otherwise it writes one
not-authorized (code 401) error IQ and leaves the client objects and the registry
unchanged. -/
theorem handleIq_auth_set (env : Env) (w : World) (c : ClientRef) (e el : Element) (user : User)
    (hid : e.GetAttr "id" ≠ "") (htyp : e.GetAttr "type" = "set")
    (hch : e.Children = [el]) (hq : el.Name = ⟨"jabber:iq:auth", "query"⟩)
    (hdb : w.server.DB.GetUser (el.GetChild "username").1.Text = .ok user) :
    (user.Password = bytesOf (el.GetChild "password").1.Text →
      ((handleIq env w c e).heap c).authenticated = true ∧
      ((handleIq env w c e).heap c).JID =
        (el.GetChild "username").1.Text ++ "@" ++ w.server.Domain ++ "/" ++
          (el.GetChild "resource").1.Text ∧
      ∃ kicks, (handleIq env w c e).sent =
        w.sent ++ kicks ++ [(c, Wire.text ("<iq type='result' id='" ++ e.GetAttr "id" ++ "'/>"))]) ∧
    (user.Password ≠ bytesOf (el.GetChild "password").1.Text →
      (handleIq env w c e).sent = w.sent ++ [(c, Wire.text (iqNotAuthorized (e.GetAttr "id")))] ∧
      (handleIq env w c e).heap = w.heap ∧ (handleIq env w c e).server = w.server) ∧
    ((c, Wire.text ("<iq type='result' id='" ++ e.GetAttr "id" ++ "'/>")) ∈
        (handleIq env w c e).sent.drop w.sent.length ↔
      user.Password = bytesOf (el.GetChild "password").1.Text) := by
  rw [handleIq_single env w c e el hid htyp hch]
  have hgood : user.Password = bytesOf (el.GetChild "password").1.Text →
      ((handleIqChild env c (e.GetAttr "id") "set" w el).heap c).authenticated = true ∧
      ((handleIqChild env c (e.GetAttr "id") "set" w el).heap c).JID =
        (el.GetChild "username").1.Text ++ "@" ++ w.server.Domain ++ "/" ++
          (el.GetChild "resource").1.Text ∧
      ∃ kicks, (handleIqChild env c (e.GetAttr "id") "set" w el).sent =
        w.sent ++ kicks ++
          [(c, Wire.text ("<iq type='result' id='" ++ e.GetAttr "id" ++ "'/>"))] := by
    intro hpw
    obtain ⟨w3, h0, _, h2, h3, _, _, _⟩ := handleIqChild_ok env w c (e.GetAttr "id") el user hq hdb hpw
    rw [h0]
    refine ⟨by simp [World.setClient], ?_, evictions env w3.heap c w.server.Clients, ?_⟩
    · simpa [World.setClient] using h3
    · simpa [World.setClient, iqResult] using h2
  have hbad : user.Password ≠ bytesOf (el.GetChild "password").1.Text →
      handleIqChild env c (e.GetAttr "id") "set" w el = w.write c (iqNotAuthorized (e.GetAttr "id")) :=
    handleIqChild_bad env w c (e.GetAttr "id") el user hq hdb
  refine ⟨hgood, ?_, ?_⟩
  · intro hpw
    rw [hbad hpw]
    exact ⟨rfl, rfl, rfl⟩
  · constructor
    · intro hmem
      by_contra hpw
      rw [hbad hpw] at hmem
      simp only [World.write, List.drop_left, List.mem_singleton, Prod.mk.injEq, Wire.text.injEq,
        true_and] at hmem
      exact iqResult_ne_notAuthorized (e.GetAttr "id") (e.GetAttr "id") hmem
    · intro hpw
      obtain ⟨_, _, kicks, hs⟩ := hgood hpw
      rw [hs, List.append_assoc, List.drop_left]
      simp

/-- C1 at `alice`/`hunter2` on a fresh server: the session is authenticated as
`alice@localhost/game` and the only write is the result IQ. -/
theorem handleIq_auth_set_witness :
    ((handleIq demoEnv (World.init "localhost" demoDB) 0
        (authSet "a1" "alice" "hunter2" "game")).heap 0).authenticated = true ∧
    ((handleIq demoEnv (World.init "localhost" demoDB) 0
        (authSet "a1" "alice" "hunter2" "game")).heap 0).JID = "alice@localhost/game" :=
  have h := (handleIq_auth_set demoEnv (World.init "localhost" demoDB) 0
    (authSet "a1" "alice" "hunter2" "game") (authQuery "alice" "hunter2" "game")
    ⟨"alice", bytesOf "hunter2"⟩ (by decide) (by decide) rfl rfl rfl).1 (by decide)
  ⟨h.1, h.2.1⟩

/-- C2: on a successful auth set, every session in `server.Clients` whose JID
bare-matches the new JID is written the conflict stream error followed by
`</stream:stream>`, in `Clients` order; all of these writes precede the
`<iq type='result'/>` reply, which is written while the `authenticated` flag of the new
session still has its old value (`w3`); sessions that do not bare-match receive
nothing. -/
theorem handleIq_evicts_before_reply (env : Env) (w : World) (c : ClientRef) (e el : Element)
    (user : User) (hid : e.GetAttr "id" ≠ "") (htyp : e.GetAttr "type" = "set")
    (hch : e.Children = [el]) (hq : el.Name = ⟨"jabber:iq:auth", "query"⟩)
    (hdb : w.server.DB.GetUser (el.GetChild "username").1.Text = .ok user)
    (hpw : user.Password = bytesOf (el.GetChild "password").1.Text) :
    ∃ w3 : World,
      handleIq env w c e = w3.setClient c { w3.heap c with authenticated := true } ∧
      (w3.heap c).authenticated = (w.heap c).authenticated ∧
      w3.sent = (handleIq env w c e).sent ∧
      (handleIq env w c e).sent =
        w.sent ++
        (w.server.Clients.filter (fun cl =>
            BareJidMatch env.fold ((handleIq env w c e).heap cl).JID
              ((el.GetChild "username").1.Text ++ "@" ++ w.server.Domain ++ "/" ++
                (el.GetChild "resource").1.Text))).flatMap
          (fun cl =>
            [(cl, Wire.text
                "<stream:error><conflict xmlns='urn:ietf:params:xml:ns:xmpp-streams'/></stream:error>"),
              (cl, Wire.text "</stream:stream>")]) ++
        [(c, Wire.text ("<iq type='result' id='" ++ e.GetAttr "id" ++ "'/>"))] ∧
      ∀ cl, BareJidMatch env.fold ((handleIq env w c e).heap cl).JID
            ((el.GetChild "username").1.Text ++ "@" ++ w.server.Domain ++ "/" ++
              (el.GetChild "resource").1.Text) = false →
        ∀ p ∈ (handleIq env w c e).sent.drop w.sent.length, p.1 ≠ cl := by
  rw [handleIq_single env w c e el hid htyp hch]
  obtain ⟨w3, h0, _, h2, h3, _, h5, _⟩ :=
    handleIqChild_ok env w c (e.GetAttr "id") el user hq hdb hpw
  have hheap : ∀ x, ((w3.setClient c { w3.heap c with authenticated := true }).heap x).JID =
      (w3.heap x).JID := by
    intro x
    by_cases hx : x = c
    · subst hx; simp [World.setClient]
    · simp [World.setClient, Function.update, hx]
  have hsent : (w3.setClient c { w3.heap c with authenticated := true }).sent = w3.sent := rfl
  refine ⟨w3, h0, h5 c, ?_, ?_, ?_⟩
  · rw [h0]; rfl
  · rw [h0, hsent, h2]
    simp only [hheap, ← h3, ← conflict_text]
    rfl
  · intro cl hcl p hp
    rw [h0, hsent, h2, List.append_assoc, List.drop_left] at hp
    rw [h0, hheap, ← h3] at hcl
    rcases List.mem_append.mp hp with hp | hp
    · obtain ⟨_, hm, _⟩ := mem_evictions env w3.heap c _ p hp
      intro hpc
      rw [hpc, hcl] at hm
      exact Bool.noConfusion hm
    · rw [List.mem_singleton] at hp
      intro hpc
      rw [hp] at hpc
      rw [← hpc, BareJidMatch_refl] at hcl
      exact Bool.noConfusion hcl

/-- C2 on a server where session 1 already holds `alice@localhost/game`: session 1 gets
the conflict error and the end tag before session 0 gets its result. -/
theorem handleIq_evicts_before_reply_witness :
    (handleIq demoEnv demoTaken 0 (authSet "a2" "alice" "hunter2" "game2")).sent =
      [(1, Wire.text
          "<stream:error><conflict xmlns='urn:ietf:params:xml:ns:xmpp-streams'/></stream:error>"),
        (1, Wire.text "</stream:stream>"),
        (0, Wire.text "<iq type='result' id='a2'/>")] := by
  obtain ⟨_, _, _, _, h, _⟩ := handleIq_evicts_before_reply demoEnv demoTaken 0
    (authSet "a2" "alice" "hunter2" "game2") (authQuery "alice" "hunter2" "game2") ⟨"alice", bytesOf "hunter2"⟩
    (by decide) (by decide) rfl rfl rfl (by decide)
  rw [h]
  rfl

theorem swapRemove_not_mem (c : ClientRef) (xs : List ClientRef) (h : c ∉ xs) :
    swapRemove c xs = xs := by
  unfold swapRemove
  have : xs.indexOf c = xs.length := List.indexOf_eq_length.mpr h
  simp [this]

theorem swapRemove_cons_self (c : ClientRef) (rest : List ClientRef) :
    swapRemove c (c :: rest) = rest.getLast?.toList ++ rest.dropLast := by
  unfold swapRemove swapRemoveAt
  cases rest with
  | nil => simp
  | cons y ys =>
    simp [List.dropLast_eq_take, List.getLast?_eq_getElem?, List.getD_eq_getElem?_getD]

theorem swapRemove_cons_ne (c x : ClientRef) (rest : List ClientRef) (h : x ≠ c) :
    swapRemove c (x :: rest) = x :: swapRemove c rest := by
  unfold swapRemove swapRemoveAt
  have hi : (x :: rest).indexOf c = rest.indexOf c + 1 := by
    simp [List.indexOf_cons, h]
  rw [hi]
  by_cases hlt : rest.indexOf c < rest.length
  · have hpos : rest.length = (rest.length - 1) + 1 := by omega
    simp only [List.length_cons, Nat.add_lt_add_iff_right, hlt, if_true, Nat.add_sub_cancel,
      List.set_cons_succ]
    rw [hpos]
    simp [List.getD_eq_getElem?_getD]
  · simp [hlt]

theorem swapRemove_perm (c : ClientRef) (xs : List ClientRef) :
    (swapRemove c xs).Perm (xs.erase c) := by
  induction xs with
  | nil => simp [swapRemove, swapRemoveAt]
  | cons x rest ih =>
    by_cases h : x = c
    · subst h
      rw [swapRemove_cons_self, List.erase_cons_head]
      rcases List.eq_nil_or_concat rest with hnil | ⟨ys, y, hys⟩
      · subst hnil; simp
      · subst hys
        rw [List.concat_eq_append, List.getLast?_concat, List.dropLast_concat]
        exact List.perm_append_comm
    · rw [swapRemove_cons_ne c x rest h, List.erase_cons_tail (by simpa using h)]
      exact List.Perm.cons x ih

theorem swapRemove_nodup (c : ClientRef) (xs : List ClientRef) (h : xs.Nodup) :
    (swapRemove c xs).Nodup :=
  (swapRemove_perm c xs).nodup_iff.mpr (h.erase c)

theorem mem_swapRemove_of_ne (c d : ClientRef) (xs : List ClientRef) (hd : d ≠ c) :
    d ∈ swapRemove c xs ↔ d ∈ xs := by
  rw [(swapRemove_perm c xs).mem_iff]
  exact List.mem_erase_of_ne hd

theorem mem_of_mem_swapRemove (c d : ClientRef) (xs : List ClientRef)
    (h : d ∈ swapRemove c xs) : d ∈ xs :=
  List.mem_of_mem_erase ((swapRemove_perm c xs).mem_iff.mp h)

theorem not_mem_swapRemove (c : ClientRef) (xs : List ClientRef) (h : xs.Nodup) :
    c ∉ swapRemove c xs := by
  rw [(swapRemove_perm c xs).mem_iff, h.mem_erase_iff]
  simp

theorem handleIqChild_server (env : Env) (c : ClientRef) (id typ : String) (w : World)
    (el : Element) : (handleIqChild env c id typ w el).server = w.server := by
  unfold handleIqChild
  split
  · split
    · rfl
    · dsimp only
      split
      · rfl
      · split
        · rfl
        · exact (evictLoop_spec env c _ _).1
  · rfl

theorem handleIq_server (env : Env) (w : World) (c : ClientRef) (e : Element) :
    (handleIq env w c e).server = w.server := by
  unfold handleIq
  dsimp only
  split
  · rfl
  · generalize e.Children = l
    induction l generalizing w with
    | nil => rfl
    | cons el rest ih => rw [List.foldl_cons, ih, handleIqChild_server]

theorem roomRoute_fold (members : List ClientRef) (w : World) (m : Element) :
    (members.foldl (fun (st : World × Element) member =>
        (st.1.SendXML member (st.2.SetAttr "to" (st.1.heap member).JID),
          st.2.SetAttr "to" (st.1.heap member).JID)) (w, m)).1.server = w.server ∧
    (members.foldl (fun (st : World × Element) member =>
        (st.1.SendXML member (st.2.SetAttr "to" (st.1.heap member).JID),
          st.2.SetAttr "to" (st.1.heap member).JID)) (w, m)).1.heap = w.heap := by
  induction members generalizing w m with
  | nil => exact ⟨rfl, rfl⟩
  | cons x rest ih =>
    rw [List.foldl_cons]
    obtain ⟨h1, h2⟩ := ih (w.SendXML x (m.SetAttr "to" (w.heap x).JID))
      (m.SetAttr "to" (w.heap x).JID)
    exact ⟨h1, h2⟩

theorem roomRouteMessage_frame (r : XmppRoom) (w : World) (msg : Element) :
    (r.RouteMessage w msg).server = w.server ∧ (r.RouteMessage w msg).heap = w.heap := by
  unfold XmppRoom.RouteMessage
  exact roomRoute_fold _ _ _

theorem roomDelivery_server (env : Env) (spare : Bool) (w : World) (msg : Element) :
    (roomDelivery env spare w msg).1.server = w.server ∧
      (roomDelivery env spare w msg).1.heap = w.heap := by
  unfold roomDelivery
  split
  · split
    · exact roomRouteMessage_frame _ _ _
    · exact ⟨rfl, rfl⟩
  · exact ⟨rfl, rfl⟩

theorem clientDelivery_server (w : World) (toJid : String) (msg : Element) :
    (clientDelivery w toJid msg).server = w.server ∧ (clientDelivery w toJid msg).heap = w.heap := by
  unfold clientDelivery
  split <;> exact ⟨rfl, rfl⟩

theorem serverRouteMessage_frame (env : Env) (spare : Bool) (w : World) (msg : Element) :
    (XmppServer.RouteMessage env spare w msg).server = w.server ∧
      (XmppServer.RouteMessage env spare w msg).heap = w.heap := by
  unfold XmppServer.RouteMessage
  obtain ⟨h1, h2⟩ := roomDelivery_server env spare w msg
  obtain ⟨h3, h4⟩ := clientDelivery_server (roomDelivery env spare w msg).1 (msg.GetAttr "to")
    (roomDelivery env spare w msg).2
  exact ⟨h3.trans h1, h4.trans h2⟩

theorem handleMessage_server (env : Env) (w : World) (c : ClientRef) (e : Element) :
    (handleMessage env w c e).server = w.server := by
  unfold handleMessage
  dsimp only
  split
  · rfl
  · exact (serverRouteMessage_frame env false w _).1

theorem doTLS_server (w : World) (c : ClientRef) (conn : ConnInput) :
    (doTLS w c conn).1.server = w.server := by
  unfold doTLS handleRootElement sendStreamStart
  split
  · rfl
  · simp only
    split <;> rfl

theorem AddMember_nodup (r : XmppRoom) (c : ClientRef) (h : r.Members.Nodup) :
    (r.AddMember c).Members.Nodup := by
  unfold XmppRoom.AddMember
  split
  · exact h
  · rename_i hc
    show (r.Members ++ [c]).Nodup
    rw [List.nodup_append]
    refine ⟨h, List.nodup_singleton c, ?_⟩
    intro a ha hb
    rw [List.mem_singleton] at hb
    exact hc (hb ▸ ha)

theorem mem_AddMember (r : XmppRoom) (c m : ClientRef) :
    m ∈ (r.AddMember c).Members ↔ m ∈ r.Members ∨ m = c := by
  unfold XmppRoom.AddMember
  split
  · rename_i hc
    constructor
    · exact Or.inl
    · rintro (h | rfl)
      · exact h
      · exact hc
  · simp

/-- Every room after a presence is an old room, an old room after `AddMember(c)` or
`RemoveMember(c)`, or the new one-member room of a join. -/
theorem joinRooms_rooms (fold : Char → Char) (toBare : String) (c : ClientRef)
    (rooms : List XmppRoom) (p : List XmppRoom × XmppRoom)
    (h : joinRooms fold toBare c rooms = some p) :
    ∀ r ∈ p.1, r ∈ rooms ∨ ∃ r0 ∈ rooms, r = r0.AddMember c := by
  induction rooms generalizing p with
  | nil => simp [joinRooms] at h
  | cons room rest ih =>
    unfold joinRooms at h
    split at h
    · cases h
      intro r hr
      rcases List.mem_cons.mp hr with rfl | hr
      · exact Or.inr ⟨room, List.mem_cons_self _ _, rfl⟩
      · exact Or.inl (List.mem_cons_of_mem _ hr)
    · cases hj : joinRooms fold toBare c rest with
      | none => simp [hj] at h
      | some q =>
        simp only [hj, Option.map_some', Option.some.injEq] at h
        subst h
        intro r hr
        rcases List.mem_cons.mp hr with rfl | hr
        · exact Or.inl (List.mem_cons_self _ _)
        · rcases ih q hj r hr with h1 | ⟨r0, h0, h1⟩
          · exact Or.inl (List.mem_cons_of_mem _ h1)
          · exact Or.inr ⟨r0, List.mem_cons_of_mem _ h0, h1⟩

theorem leaveRooms_rooms (heap : ClientRef → XmppClient) (toBare : String) (c : ClientRef)
    (rooms : List XmppRoom) :
    ∀ r ∈ (leaveRooms heap toBare c rooms).1, r ∈ rooms ∨ ∃ r0 ∈ rooms, r = r0.RemoveMember c := by
  induction rooms with
  | nil => simp [leaveRooms]
  | cons room rest ih =>
    unfold leaveRooms
    split
    · intro r hr
      rcases List.mem_cons.mp hr with rfl | hr
      · exact Or.inr ⟨room, List.mem_cons_self _ _, rfl⟩
      · exact Or.inl (List.mem_cons_of_mem _ hr)
    · intro r hr
      rcases List.mem_cons.mp hr with rfl | hr
      · exact Or.inl (List.mem_cons_self _ _)
      · rcases ih r hr with h1 | ⟨r0, h0, h1⟩
        · exact Or.inl (List.mem_cons_of_mem _ h1)
        · exact Or.inr ⟨r0, List.mem_cons_of_mem _ h0, h1⟩

theorem handlePresence_rooms (env : Env) (w : World) (c : ClientRef) (e : Element) :
    ∀ r ∈ (handlePresence env w c e).server.Rooms,
      r ∈ w.server.Rooms ∨
      ((e.GetAttr "to" ≠ "" ∧ e.GetAttr "type" = "") ∧
        ((∃ r0 ∈ w.server.Rooms, r = r0.AddMember c) ∨ r.Members = [c])) ∨
      ∃ r0 ∈ w.server.Rooms, r = r0.RemoveMember c := by
  intro r hr
  unfold handlePresence at hr
  dsimp only at hr
  by_cases hto : e.GetAttr "to" = ""
  · simp only [hto, ne_eq, not_true_eq_false, if_false] at hr
    unfold XmppServer.AddClient at hr
    split at hr <;> exact Or.inl hr
  · simp only [ne_eq, hto, not_false_eq_true, if_true] at hr
    by_cases hty : e.GetAttr "type" = ""
    · have hne : ¬ (e.GetAttr "type" = "unavailable") := by rw [hty]; decide
      simp only [hty] at hr
      simp only [if_true] at hr
      have hu : ("" = "unavailable") = False := by decide
      simp only [hu, if_false] at hr
      cases hj : joinRooms env.fold (splitHead '/' (e.GetAttr "to")) c w.server.Rooms with
      | none =>
        simp only [hj, List.mem_append, List.mem_singleton] at hr
        rcases hr with hr | hr
        · exact Or.inl hr
        · exact Or.inr (Or.inl ⟨⟨hto, hty⟩, Or.inr (by rw [hr])⟩)
      | some p =>
        simp only [hj] at hr
        rcases joinRooms_rooms _ _ _ _ p hj r hr with h1 | h1
        · exact Or.inl h1
        · exact Or.inr (Or.inl ⟨⟨hto, hty⟩, Or.inl h1⟩)
    · simp only [hty, if_false] at hr
      split at hr
      · rcases leaveRooms_rooms w.heap _ c _ r hr with h1 | h1
        · exact Or.inl h1
        · exact Or.inr (Or.inr h1)
      · exact Or.inl hr

theorem handlePresence_clients (env : Env) (w : World) (c : ClientRef) (e : Element) :
    (handlePresence env w c e).server.Clients = w.server.Clients ∨
      (c ∉ w.server.Clients ∧
        (handlePresence env w c e).server.Clients = w.server.Clients ++ [c]) := by
  unfold handlePresence
  dsimp only
  split
  · left
    split <;> split <;> rfl
  · unfold XmppServer.AddClient
    split
    · exact Or.inl rfl
    · rename_i h
      exact Or.inr ⟨h, rfl⟩

theorem handlePresence_NoDup (env : Env) (w : World) (c : ClientRef) (e : Element)
    (h : w.NoDup) : (handlePresence env w c e).NoDup := by
  constructor
  · rcases handlePresence_clients env w c e with hc | ⟨hn, hc⟩
    · rw [hc]; exact h.1
    · rw [hc, List.nodup_append]
      refine ⟨h.1, List.nodup_singleton c, ?_⟩
      intro a ha hb
      rw [List.mem_singleton] at hb
      exact hn (hb ▸ ha)
  · intro r hr
    rcases handlePresence_rooms env w c e r hr with h1 | ⟨_, ⟨r0, h0, rfl⟩ | h1⟩ | ⟨r0, h0, rfl⟩
    · exact h.2 r h1
    · exact AddMember_nodup r0 c (h.2 r0 h0)
    · rw [h1]; exact List.nodup_singleton c
    · exact swapRemove_nodup c _ (h.2 r0 h0)

theorem handlePresence_Enrolled (env : Env) (w : World) (c : ClientRef) (e : Element)
    (h : w.Enrolled)
    (hg : e.GetAttr "to" ≠ "" → e.GetAttr "type" = "" → c ∈ w.server.Clients) :
    (handlePresence env w c e).Enrolled := by
  have hsub : ∀ m, m ∈ w.server.Clients → m ∈ (handlePresence env w c e).server.Clients := by
    intro m hm
    rcases handlePresence_clients env w c e with hc | ⟨_, hc⟩
    · rw [hc]; exact hm
    · rw [hc]; exact List.mem_append_left _ hm
  intro r hr m hm
  apply hsub
  rcases handlePresence_rooms env w c e r hr with h1 | ⟨hj, ⟨r0, h0, rfl⟩ | h1⟩ | ⟨r0, h0, rfl⟩
  · exact h r h1 m hm
  · rcases (mem_AddMember r0 c m).mp hm with h2 | rfl
    · exact h r0 h0 m h2
    · exact hg hj.1 hj.2
  · rw [h1, List.mem_singleton] at hm
    rw [hm]
    exact hg hj.1 hj.2
  · exact h r0 h0 m (mem_of_mem_swapRemove c m _ hm)

theorem RemoveClient_NoDup (w : World) (c : ClientRef) (h : w.NoDup) :
    (XmppServer.RemoveClient w c).NoDup := by
  constructor
  · exact swapRemove_nodup c _ h.1
  · intro r hr
    obtain ⟨r0, h0, rfl⟩ := List.mem_map.mp hr
    exact swapRemove_nodup c _ (h.2 r0 h0)

theorem RemoveClient_Enrolled (w : World) (c : ClientRef) (hn : w.NoDup) (h : w.Enrolled) :
    (XmppServer.RemoveClient w c).Enrolled := by
  intro r hr m hm
  obtain ⟨r0, h0, rfl⟩ := List.mem_map.mp hr
  have hne : m ≠ c := by
    rintro rfl
    exact not_mem_swapRemove m _ (hn.2 r0 h0) hm
  exact (mem_swapRemove_of_ne c m _ hne).mpr (h r0 h0 m (mem_of_mem_swapRemove c m _ hm))

theorem handleXmlElement_registry (env : Env) (w : World) (c : ClientRef) (e : Element)
    (conn : ConnInput) :
    (handleXmlElement env w c e conn).1.server = w.server ∨
      (e.Name.Local = "presence" ∧
        (handleXmlElement env w c e conn).1 = handlePresence env w c e) := by
  unfold handleXmlElement
  split
  · split
    · exact Or.inl (doTLS_server w c conn)
    · exact Or.inl rfl
  · split
    · exact Or.inl (handleIq_server env w c e)
    · split
      · rename_i hp
        split
        · exact Or.inr ⟨hp, rfl⟩
        · exact Or.inl rfl
      · split
        · split
          · exact Or.inl (handleMessage_server env w c e)
          · exact Or.inl rfl
        · exact Or.inl rfl

theorem NoDup_of_server (w w1 : World) (hs : w1.server = w.server) (h : w.NoDup) : w1.NoDup := by
  unfold World.NoDup
  rw [hs]; exact h

theorem Enrolled_of_server (w w1 : World) (hs : w1.server = w.server) (h : w.Enrolled) :
    w1.Enrolled := by
  unfold World.Enrolled
  rw [hs]; exact h

theorem step_NoDup (env : Env) (w : World) (ev : Event) (h : w.NoDup) : (step env w ev).NoDup := by
  cases ev with
  | teardown c => exact RemoveClient_NoDup w c h
  | stanza c e conn =>
    have h1 : (handleXmlElement env w c e conn).1.NoDup := by
      rcases handleXmlElement_registry env w c e conn with hs | ⟨_, hs⟩
      · exact NoDup_of_server w _ hs h
      · rw [hs]; exact handlePresence_NoDup env w c e h
    unfold step
    dsimp only
    split
    · exact RemoveClient_NoDup _ c h1
    · exact h1

theorem run_NoDup (env : Env) (evs : List Event) (w : World) (h : w.NoDup) :
    (run env w evs).NoDup := by
  induction evs generalizing w with
  | nil => exact h
  | cons ev rest ih => exact ih _ (step_NoDup env w ev h)

theorem init_NoDup (domain : String) (db : DB) : (World.init domain db).NoDup :=
  ⟨List.nodup_nil, fun _ hr => absurd hr (List.not_mem_nil _)⟩

theorem step_Enrolled (env : Env) (w : World) (ev : Event) (hn : w.NoDup) (h : w.Enrolled)
    (hg : joinGuard w ev = true) : (step env w ev).Enrolled := by
  cases ev with
  | teardown c => exact RemoveClient_Enrolled w c hn h
  | stanza c e conn =>
    have hn1 : (handleXmlElement env w c e conn).1.NoDup := by
      rcases handleXmlElement_registry env w c e conn with hs | ⟨_, hs⟩
      · exact NoDup_of_server w _ hs hn
      · rw [hs]; exact handlePresence_NoDup env w c e hn
    have h1 : (handleXmlElement env w c e conn).1.Enrolled := by
      rcases handleXmlElement_registry env w c e conn with hs | ⟨hp, hs⟩
      · exact Enrolled_of_server w _ hs h
      · rw [hs]
        apply handlePresence_Enrolled env w c e h
        intro hto hty
        simp [joinGuard, hp, hto, hty] at hg
        exact hg
    unfold step
    dsimp only
    split
    · exact RemoveClient_Enrolled _ c hn1 h1
    · exact h1

theorem run_Enrolled (env : Env) (evs : List Event) (w : World) (hn : w.NoDup) (h : w.Enrolled)
    (hg : joinsEnrolled env w evs = true) : (run env w evs).Enrolled := by
  induction evs generalizing w with
  | nil => exact h
  | cons ev rest ih =>
    simp only [joinsEnrolled, Bool.and_eq_true] at hg
    exact ih _ (step_NoDup env w ev hn) (step_Enrolled env w ev hn h hg.1) hg.2

theorem run_append (env : Env) (w : World) (xs ys : List Event) :
    run env w (xs ++ ys) = run env (run env w xs) ys := by
  unfold run
  rw [List.foldl_append]

theorem step_iq (env : Env) (w : World) (c : ClientRef) (e : Element) (conn : ConnInput)
    (h : e.Name.Local = "iq") : step env w (.stanza c e conn) = handleIq env w c e := by
  have hne : ¬ ("iq" = "starttls") := by decide
  simp [step, handleXmlElement, h, hne]

/-- C3, as stated, fails in both halves. After session 0 authenticates as
`alice@localhost/game` on a fresh server the registry holds no session at all, so not
exactly one with that bare JID. When session 1 then authenticates as
`alice@localhost/game2` before session 0 has sent a presence, the only write is the
result IQ to session 1: session 0, a prior session with the same bare JID, is sent no
conflict and is not closed; after both have sent their presence the registry holds two
sessions with that bare JID. -/
theorem auth_registry_counterexample :
    ((run demoEnv (World.init "localhost" demoDB) aliceLogin).heap 0).authenticated = true ∧
    ((run demoEnv (World.init "localhost" demoDB) aliceLogin).heap 0).JID =
      "alice@localhost/game" ∧
    (run demoEnv (World.init "localhost" demoDB) aliceLogin).server.Clients = [] ∧
    ((run demoEnv (World.init "localhost" demoDB) aliceLogin).server.Clients.filter
      (fun cl => BareJidMatch demoEnv.fold
        ((run demoEnv (World.init "localhost" demoDB) aliceLogin).heap cl).JID
        "alice@localhost")).length ≠ 1 ∧
    ((run demoEnv (World.init "localhost" demoDB) aliceTwice).heap 1).authenticated = true ∧
    ((run demoEnv (World.init "localhost" demoDB) aliceTwice).heap 1).JID =
      "alice@localhost/game2" ∧
    ((run demoEnv (World.init "localhost" demoDB) aliceTwice).heap 0).authenticated = true ∧
    BareJidMatch demoEnv.fold
      ((run demoEnv (World.init "localhost" demoDB) aliceTwice).heap 0).JID
      ((run demoEnv (World.init "localhost" demoDB) aliceTwice).heap 1).JID = true ∧
    (run demoEnv (World.init "localhost" demoDB) aliceTwice).sent.drop
      (run demoEnv (World.init "localhost" demoDB) aliceThenSession1).sent.length =
        [(1, Wire.text "<iq type='result' id='a2'/>")] ∧
    ((run demoEnv (World.init "localhost" demoDB) aliceTwice).heap 0).streamClosed = false ∧
    (run demoEnv (World.init "localhost" demoDB) aliceTwiceOnline).server.Clients = [0, 1] ∧
    ((run demoEnv (World.init "localhost" demoDB) aliceTwiceOnline).heap 0).streamClosed = false ∧
    ((run demoEnv (World.init "localhost" demoDB) aliceTwiceOnline).heap 1).streamClosed = false ∧
    ((run demoEnv (World.init "localhost" demoDB) aliceTwiceOnline).server.Clients.filter
      (fun cl => BareJidMatch demoEnv.fold
        ((run demoEnv (World.init "localhost" demoDB) aliceTwiceOnline).heap cl).JID
        "alice@localhost")).length = 2 :=
  ⟨by decide, by decide, by decide, by decide, by decide, by decide, by decide, by decide,
    by rfl, by decide, by decide, by decide, by decide, by decide⟩

/-- C3, amended: after any sequence of connection events, a successful authentication
sets the flag and the JID `username@domain/resource` of the authenticating session and
leaves `server.Clients` and `server.Rooms` as they were (the session is not added by
it), and every session that is in `server.Clients` at that moment and whose JID
bare-matches the authenticated JID has been sent the conflict stream error and has its
closed flag set. -/
theorem auth_evicts_registered (env : Env) (domain : String) (db : DB) (evs : List Event)
    (c : ClientRef) (e el : Element) (conn : ConnInput) (user : User)
    (hiq : e.Name.Local = "iq")
    (hid : e.GetAttr "id" ≠ "") (htyp : e.GetAttr "type" = "set")
    (hch : e.Children = [el]) (hq : el.Name = ⟨"jabber:iq:auth", "query"⟩)
    (hdb : (run env (World.init domain db) evs).server.DB.GetUser
      (el.GetChild "username").1.Text = .ok user)
    (hpw : user.Password = bytesOf (el.GetChild "password").1.Text) :
    ((run env (World.init domain db) (evs ++ [.stanza c e conn])).heap c).authenticated = true ∧
    ((run env (World.init domain db) (evs ++ [.stanza c e conn])).heap c).JID =
      (el.GetChild "username").1.Text ++ "@" ++
        (run env (World.init domain db) evs).server.Domain ++ "/" ++
        (el.GetChild "resource").1.Text ∧
    (run env (World.init domain db) (evs ++ [.stanza c e conn])).server.Clients =
      (run env (World.init domain db) evs).server.Clients ∧
    (run env (World.init domain db) (evs ++ [.stanza c e conn])).server.Rooms =
      (run env (World.init domain db) evs).server.Rooms ∧
    ∀ cl ∈ (run env (World.init domain db) (evs ++ [.stanza c e conn])).server.Clients,
      BareJidMatch env.fold
        ((run env (World.init domain db) (evs ++ [.stanza c e conn])).heap cl).JID
        ((run env (World.init domain db) (evs ++ [.stanza c e conn])).heap c).JID = true →
      (cl, Wire.text
        "<stream:error><conflict xmlns='urn:ietf:params:xml:ns:xmpp-streams'/></stream:error>") ∈
        (run env (World.init domain db) (evs ++ [.stanza c e conn])).sent ∧
      ((run env (World.init domain db) (evs ++ [.stanza c e conn])).heap cl).streamClosed =
        true := by
  have hrun : run env (World.init domain db) (evs ++ [.stanza c e conn]) =
      handleIq env (run env (World.init domain db) evs) c e := by
    rw [run_append]
    exact step_iq env _ c e conn hiq
  rw [hrun]
  generalize run env (World.init domain db) evs = w at hdb ⊢
  rw [handleIq_single env w c e el hid htyp hch]
  obtain ⟨w3, h0, h1, h2, h3, _, _, h7⟩ :=
    handleIqChild_ok env w c (e.GetAttr "id") el user hq hdb hpw
  have hJ : ∀ x, ((w3.setClient c { w3.heap c with authenticated := true }).heap x).JID =
      (w3.heap x).JID := by
    intro x
    by_cases hx : x = c
    · subst hx; simp [World.setClient]
    · simp [World.setClient, Function.update, hx]
  have hC : ∀ x, (w3.heap x).streamClosed = true →
      ((w3.setClient c { w3.heap c with authenticated := true }).heap x).streamClosed = true := by
    intro x hx1
    by_cases hx : x = c
    · subst hx; simpa [World.setClient] using hx1
    · simpa [World.setClient, Function.update, hx] using hx1
  rw [h0]
  have hsrv : (w3.setClient c { w3.heap c with authenticated := true }).server = w.server := h1
  refine ⟨by simp [World.setClient], by rw [hJ, h3], by rw [hsrv], by rw [hsrv], ?_⟩
  intro cl hcl hm
  rw [hsrv] at hcl
  rw [hJ, hJ] at hm
  refine ⟨?_, hC cl (h7 cl hcl hm)⟩
  show _ ∈ w3.sent
  rw [h2, ← conflict_text]
  apply List.mem_append_left
  apply List.mem_append_right
  unfold evictions
  rw [List.mem_flatMap]
  exact ⟨cl, List.mem_filter.mpr ⟨hcl, hm⟩, List.mem_cons_self _ _⟩

/-- C3, amended, with session 1 online as `alice@localhost/game` when session 0
authenticates as `alice@localhost/game2`: session 0 gets that JID, the registry still
lists only session 1, and session 1 has been sent the conflict and is closed. -/
theorem auth_evicts_registered_witness :
    ((run demoEnv (World.init "localhost" demoDB)
      (aliceOnline ++ [.stanza 0 (authSet "a2" "alice" "hunter2" "game2") demoConn])).heap 0).JID
      = "alice@localhost/game2" ∧
    (run demoEnv (World.init "localhost" demoDB)
      (aliceOnline ++ [.stanza 0 (authSet "a2" "alice" "hunter2" "game2") demoConn])).server.Clients
      = [1] ∧
    ((run demoEnv (World.init "localhost" demoDB)
      (aliceOnline ++ [.stanza 0 (authSet "a2" "alice" "hunter2" "game2") demoConn])).heap
        1).streamClosed = true :=
  have h := auth_evicts_registered demoEnv "localhost" demoDB aliceOnline 0
    (authSet "a2" "alice" "hunter2" "game2") (authQuery "alice" "hunter2" "game2") demoConn
    ⟨"alice", bytesOf "hunter2"⟩ rfl (by decide) (by decide) rfl rfl rfl (by decide)
  ⟨h.2.1.trans (by decide), h.2.2.1.trans (by decide),
    (h.2.2.2.2 1 (by rw [h.2.2.1]; decide) (by decide)).2⟩

/-- C4, as stated, fails: session 0 authenticates and joins `room1@conference.localhost`
without ever sending a presence without `to`; it is then a member of the room and
absent from `server.Clients`. -/
theorem members_not_enrolled_counterexample :
    (run demoEnv (World.init "localhost" demoDB)
      (aliceLogin ++ [.stanza 0 joinRoom1 demoConn])).server.Rooms =
        [⟨"room1@conference.localhost", [0]⟩] ∧
    (run demoEnv (World.init "localhost" demoDB)
      (aliceLogin ++ [.stanza 0 joinRoom1 demoConn])).server.Clients = [] ∧
    ¬ ∀ r ∈ (run demoEnv (World.init "localhost" demoDB)
        (aliceLogin ++ [.stanza 0 joinRoom1 demoConn])).server.Rooms,
      ∀ m ∈ r.Members, m ∈ (run demoEnv (World.init "localhost" demoDB)
        (aliceLogin ++ [.stanza 0 joinRoom1 demoConn])).server.Clients := by
  decide

/-- C4, amended: in every registry state reached from the empty registry by stanza
handling and `RemoveClient`, provided every join presence is sent by a client that is
in `server.Clients` at that moment, every member of every room is in
`server.Clients`. -/
theorem members_enrolled (env : Env) (domain : String) (db : DB) (evs : List Event)
    (hg : joinsEnrolled env (World.init domain db) evs = true) :
    ∀ r ∈ (run env (World.init domain db) evs).server.Rooms,
      ∀ m ∈ r.Members, m ∈ (run env (World.init domain db) evs).server.Clients :=
  run_Enrolled env evs (World.init domain db) (init_NoDup domain db)
    (fun _ hr => absurd hr (List.not_mem_nil _)) hg

/-- C4, amended, on a run where session 1 sends its plain presence before joining:
the guard holds and every member of every room is in `server.Clients`. -/
theorem members_enrolled_witness :
    joinsEnrolled demoEnv (World.init "localhost" demoDB) aliceInRoom = true ∧
    (run demoEnv (World.init "localhost" demoDB) aliceInRoom).Enrolled :=
  ⟨by decide, members_enrolled demoEnv "localhost" demoDB aliceInRoom (by decide)⟩

theorem joinRooms_none (fold : Char → Char) (toBare : String) (c : ClientRef)
    (rooms : List XmppRoom) (h : ∀ r ∈ rooms, EqualFold fold r.JID toBare = false) :
    joinRooms fold toBare c rooms = none := by
  induction rooms with
  | nil => rfl
  | cons room rest ih =>
    unfold joinRooms
    rw [h room (List.mem_cons_self _ _)]
    simp [ih (fun r hr => h r (List.mem_cons_of_mem _ hr))]

/-- C5: `AddMember` and `RemoveMember` keep a duplicate-free `Members` list
duplicate-free, a join to a room that does not exist yet appends a room whose
`Members` is `[c]`, and so every room of every reachable registry has duplicate-free
`Members`. -/
theorem members_nodup :
    (∀ (r : XmppRoom) (c : ClientRef), r.Members.Nodup → (r.AddMember c).Members.Nodup) ∧
    (∀ (r : XmppRoom) (c : ClientRef), r.Members.Nodup → (r.RemoveMember c).Members.Nodup) ∧
    (∀ (env : Env) (w : World) (c : ClientRef) (e : Element),
      e.GetAttr "to" ≠ "" → e.GetAttr "type" = "" →
      (∀ r ∈ w.server.Rooms,
        EqualFold env.fold r.JID (splitHead '/' (e.GetAttr "to")) = false) →
      (handlePresence env w c e).server.Rooms =
        w.server.Rooms ++ [⟨splitHead '/' (e.GetAttr "to"), [c]⟩]) ∧
    (∀ (env : Env) (domain : String) (db : DB) (evs : List Event),
      ∀ r ∈ (run env (World.init domain db) evs).server.Rooms, r.Members.Nodup) := by
  refine ⟨AddMember_nodup, fun r c h => swapRemove_nodup c _ h, ?_, ?_⟩
  · intro env w c e hto hty hno
    have hu : ¬ ("" = "unavailable") := by decide
    unfold handlePresence
    simp [hto, hty, hu, joinRooms_none env.fold _ c _ hno]
  · intro env domain db evs
    exact (run_NoDup env evs _ (init_NoDup domain db)).2

/-- C5 on the room `[1, 2]`: adding member 2 again keeps the list duplicate-free. -/
theorem members_nodup_witness :
    ((⟨"room1@conference.localhost", [1, 2]⟩ : XmppRoom).AddMember 2).Members.Nodup :=
  members_nodup.1 ⟨"room1@conference.localhost", [1, 2]⟩ 2 (by decide)

/-- C6: in every reachable registry state, after `RemoveClient(c)` the reference `c` is
in no room's `Members` and not in `server.Clients`; every other reference that was in
`Clients` is still there, and every room keeps its place, its JID and every member
other than `c`. -/
theorem RemoveClient_removes_only (env : Env) (domain : String) (db : DB) (evs : List Event)
    (c : ClientRef) :
    c ∉ (XmppServer.RemoveClient (run env (World.init domain db) evs) c).server.Clients ∧
    (∀ r ∈ (XmppServer.RemoveClient (run env (World.init domain db) evs) c).server.Rooms,
      c ∉ r.Members) ∧
    (∀ d, d ≠ c → d ∈ (run env (World.init domain db) evs).server.Clients →
      d ∈ (XmppServer.RemoveClient (run env (World.init domain db) evs) c).server.Clients) ∧
    (XmppServer.RemoveClient (run env (World.init domain db) evs) c).server.Rooms.length =
      (run env (World.init domain db) evs).server.Rooms.length ∧
    (∀ (i : Nat) (r : XmppRoom),
      (run env (World.init domain db) evs).server.Rooms[i]? = some r →
      ∃ r1, (XmppServer.RemoveClient (run env (World.init domain db) evs) c).server.Rooms[i]?
          = some r1 ∧ r1.JID = r.JID ∧
        ∀ d, d ≠ c → d ∈ r.Members → d ∈ r1.Members) := by
  have hn := run_NoDup env evs _ (init_NoDup domain db)
  generalize run env (World.init domain db) evs = w at hn ⊢
  refine ⟨not_mem_swapRemove c _ hn.1, ?_, ?_, ?_, ?_⟩
  · intro r hr
    obtain ⟨r0, h0, rfl⟩ := List.mem_map.mp hr
    exact not_mem_swapRemove c _ (hn.2 r0 h0)
  · intro d hd hm
    exact (mem_swapRemove_of_ne c d _ hd).mpr hm
  · simp [XmppServer.RemoveClient]
  · intro i r hr
    refine ⟨r.RemoveMember c, ?_, rfl, ?_⟩
    · simp [XmppServer.RemoveClient, List.getElem?_map, hr]
    · intro d hd hm
      exact (mem_swapRemove_of_ne c d _ hd).mpr hm

/-- C6 on a run where session 1 is online and in `room1`: after its teardown it is in
neither list. -/
theorem RemoveClient_removes_only_witness :
    (1 : ClientRef) ∉ (XmppServer.RemoveClient
      (run demoEnv (World.init "localhost" demoDB) aliceInRoom) 1).server.Clients ∧
    ∀ r ∈ (XmppServer.RemoveClient
      (run demoEnv (World.init "localhost" demoDB) aliceInRoom) 1).server.Rooms,
      (1 : ClientRef) ∉ r.Members :=
  have h := RemoveClient_removes_only demoEnv "localhost" demoDB aliceInRoom 1
  ⟨h.1, h.2.1⟩

/-- C7, the code at the failing input: before TLS the server announces
`<starttls><required/></starttls>` as its only stream feature (the iq-auth feature is
announced after the upgrade only), yet for a session that has not upgraded
`handleXmlElement` answers the auth set IQ with the result IQ and sets the flag and the
JID, where the claim has it write nothing and change nothing. -/
theorem preTLS_auth_served :
    ((World.init "localhost" demoDB).heap 0).tlsConn = false ∧
    (handleRootElement (World.init "localhost" demoDB) 0 "abcdefghij").sent.drop 1 =
      [(0, Wire.text ("<stream:features>" ++
        "<starttls xmlns='urn:ietf:params:xml:ns:xmpp-tls'><required/></starttls>" ++
        "</stream:features>"))] ∧
    (authSet "a1" "alice" "hunter2" "game").Name.Local ≠ "starttls" ∧
    (handleXmlElement demoEnv (World.init "localhost" demoDB) 0
      (authSet "a1" "alice" "hunter2" "game") demoConn).1.sent =
        [(0, Wire.text "<iq type='result' id='a1'/>")] ∧
    ((handleXmlElement demoEnv (World.init "localhost" demoDB) 0
      (authSet "a1" "alice" "hunter2" "game") demoConn).1.heap 0).authenticated = true ∧
    ((handleXmlElement demoEnv (World.init "localhost" demoDB) 0
      (authSet "a1" "alice" "hunter2" "game") demoConn).1.heap 0).JID = "alice@localhost/game" :=
  ⟨by decide, by rfl, by decide, by rfl, by decide, by decide⟩

/-- The dispatcher on the other element names: an element whose local name is neither
`starttls` nor `iq`, and not `presence` or `message` when the client is authenticated,
makes `handleXmlElement` return the state untouched; an `iq` element is passed to
`handleIq`. The TLS state of the client plays no part in either. -/
theorem handleXmlElement_other_names (env : Env) (w : World) (c : ClientRef) (e : Element)
    (conn : ConnInput) (hs : e.Name.Local ≠ "starttls") :
    (e.Name.Local = "iq" → handleXmlElement env w c e conn = (handleIq env w c e, none)) ∧
    (e.Name.Local ≠ "iq" →
      ((w.heap c).authenticated = false ∨
        (e.Name.Local ≠ "presence" ∧ e.Name.Local ≠ "message")) →
      handleXmlElement env w c e conn = (w, none)) := by
  constructor
  · intro hiq
    simp [handleXmlElement, hs, hiq]
  · intro hiq hc
    rcases hc with ha | ⟨hp, hm⟩
    · unfold handleXmlElement
      simp [hs, hiq, ha]
    · unfold handleXmlElement
      simp [hs, hiq, hp, hm]

/-- C8: for a client with `authenticated = false`, an element named `presence` or
`message` makes `handleXmlElement` return the state untouched: nothing is written to
any connection, and `server.Clients`, `server.Rooms` and every client object are as
before. -/
theorem unauthenticated_dropped (env : Env) (w : World) (c : ClientRef) (e : Element)
    (conn : ConnInput) (ha : (w.heap c).authenticated = false)
    (hn : e.Name.Local = "presence" ∨ e.Name.Local = "message") :
    handleXmlElement env w c e conn = (w, none) := by
  have h1 : ¬ ("presence" = "starttls") := by decide
  have h2 : ¬ ("presence" = "iq") := by decide
  have h3 : ¬ ("message" = "starttls") := by decide
  have h4 : ¬ ("message" = "iq") := by decide
  have h5 : ¬ ("message" = "presence") := by decide
  rcases hn with hn | hn
  · simp [handleXmlElement, hn, ha, h1, h2]
  · simp [handleXmlElement, hn, ha, h3, h4, h5]

/-- C8 on a session that went through TLS but did not authenticate: its groupchat
message is dropped. -/
theorem unauthenticated_dropped_witness :
    handleXmlElement demoEnv (run demoEnv (World.init "localhost" demoDB)
        [.stanza 0 starttls demoConn]) 0
      (stanzaOf "message" [("type", "groupchat"), ("to", "room1@conference.localhost")] [] "")
      demoConn =
      (run demoEnv (World.init "localhost" demoDB) [.stanza 0 starttls demoConn], none) :=
  unauthenticated_dropped demoEnv _ 0 _ demoConn (by decide) (Or.inr rfl)

theorem find_setAttrList_same (name value : String) (l : List Attr) :
    ((setAttrList name value l).find? (fun a => a.Name.Local == name)).map (fun a => a.Value) =
      some value := by
  induction l with
  | nil => simp [setAttrList]
  | cons a rest ih =>
    unfold setAttrList
    by_cases h : a.Name.Local = name
    · simp [h]
    · simp [h, List.find?_cons, ih]

theorem GetAttr_SetAttr_same (e : Element) (name value : String) :
    (e.SetAttr name value).GetAttr name = value := by
  have h := find_setAttrList_same name value e.Attr
  unfold Element.GetAttr Element.SetAttr
  dsimp only
  cases hf : (setAttrList name value e.Attr).find? (fun a => a.Name.Local == name) with
  | none => rw [hf] at h; simp at h
  | some a => rw [hf] at h; simpa using h

theorem find_setAttrList_ne (name other value : String) (l : List Attr) (hne : name ≠ other) :
    ((setAttrList name value l).find? (fun a => a.Name.Local == other)).map (fun a => a.Value) =
      (l.find? (fun a => a.Name.Local == other)).map (fun a => a.Value) := by
  induction l with
  | nil => simp [setAttrList, hne]
  | cons a rest ih =>
    unfold setAttrList
    by_cases h : a.Name.Local = name
    · have h2 : ¬ (a.Name.Local = other) := by rw [h]; exact hne
      simp [h, List.find?_cons, hne]
    · rw [if_neg h]
      by_cases h2 : a.Name.Local = other
      · simp [h2]
      · simp [h2, List.find?_cons, ih]

theorem GetAttr_SetAttr_ne (e : Element) (name other value : String) (hne : name ≠ other) :
    (e.SetAttr name value).GetAttr other = e.GetAttr other := by
  have h := find_setAttrList_ne name other value e.Attr hne
  unfold Element.GetAttr Element.SetAttr
  dsimp only
  cases hf : (setAttrList name value e.Attr).find? (fun a => a.Name.Local == other) with
  | none =>
    rw [hf] at h
    cases hg : e.Attr.find? (fun a => a.Name.Local == other) with
    | none => rfl
    | some b => rw [hg] at h; simp at h
  | some a =>
    rw [hf] at h
    cases hg : e.Attr.find? (fun a => a.Name.Local == other) with
    | none => rw [hg] at h; simp at h
    | some b => rw [hg] at h; simpa using h

theorem setAttrList_twice (name v1 v2 : String) (l : List Attr) :
    setAttrList name v2 (setAttrList name v1 l) = setAttrList name v2 l := by
  induction l with
  | nil => simp [setAttrList]
  | cons a rest ih =>
    by_cases h : a.Name.Local = name
    · simp [setAttrList, h]
    · simp [setAttrList, h, ih]

theorem SetAttr_twice (e : Element) (name v1 v2 : String) :
    (e.SetAttr name v1).SetAttr name v2 = e.SetAttr name v2 := by
  unfold Element.SetAttr
  simp [setAttrList_twice]

theorem roomRoute_sent (heap : ClientRef → XmppClient) (members : List ClientRef) (w : World)
    (m0 m : Element) (hw : w.heap = heap)
    (hm : ∀ v, m.SetAttr "to" v = m0.SetAttr "to" v) :
    (members.foldl (fun (st : World × Element) member =>
        (st.1.SendXML member (st.2.SetAttr "to" (st.1.heap member).JID),
          st.2.SetAttr "to" (st.1.heap member).JID)) (w, m)).1.sent =
      w.sent ++ members.map (fun member =>
        (member, Wire.xml (m0.SetAttr "to" (heap member).JID))) := by
  induction members generalizing w m with
  | nil => simp
  | cons x rest ih =>
    rw [List.foldl_cons]
    rw [ih (w.SendXML x (m.SetAttr "to" (w.heap x).JID)) (m.SetAttr "to" (w.heap x).JID) hw]
    · simp [World.SendXML, hm, hw]
    · intro v
      rw [SetAttr_twice, hm]

/-- C10: `XmppRoom.RouteMessage` performs one send per member, in membership order; the
stanza sent to member `m` is the message with `from` set to room JID + `/` + (the part
of the incoming `from` before its first `@`) and `to` set to the full JID of `m`, and
`GetAttr` reads these two values back. Nothing else in the state changes. -/
theorem XmppRoom_RouteMessage_sends (r : XmppRoom) (w : World) (msg : Element) :
    (r.RouteMessage w msg).sent =
      w.sent ++ r.Members.map (fun m =>
        (m, Wire.xml ((msg.SetAttr "from"
          (r.JID ++ "/" ++ splitHead '@' (msg.GetAttr "from"))).SetAttr "to" (w.heap m).JID))) ∧
    ((r.RouteMessage w msg).sent.drop w.sent.length).length = r.Members.length ∧
    (∀ m : ClientRef,
      ((msg.SetAttr "from" (r.JID ++ "/" ++ splitHead '@' (msg.GetAttr "from"))).SetAttr "to"
          (w.heap m).JID).GetAttr "from" =
        r.JID ++ "/" ++ splitHead '@' (msg.GetAttr "from") ∧
      ((msg.SetAttr "from" (r.JID ++ "/" ++ splitHead '@' (msg.GetAttr "from"))).SetAttr "to"
          (w.heap m).JID).GetAttr "to" = (w.heap m).JID) ∧
    (r.RouteMessage w msg).server = w.server ∧ (r.RouteMessage w msg).heap = w.heap := by
  have hs : (r.RouteMessage w msg).sent =
      w.sent ++ r.Members.map (fun m =>
        (m, Wire.xml ((msg.SetAttr "from"
          (r.JID ++ "/" ++ splitHead '@' (msg.GetAttr "from"))).SetAttr "to" (w.heap m).JID))) := by
    unfold XmppRoom.RouteMessage
    exact roomRoute_sent w.heap r.Members w _ _ rfl (fun _ => rfl)
  refine ⟨hs, ?_, ?_, roomRouteMessage_frame r w msg⟩
  · rw [hs, List.drop_left, List.length_map]
  · intro m
    constructor
    · rw [GetAttr_SetAttr_ne _ "to" "from" _ (by decide), GetAttr_SetAttr_same]
    · rw [GetAttr_SetAttr_same]

/-- C9: whatever the stanza's type, after the room delivery `XmppServer.RouteMessage`
sends the stanza to exactly one client, the first entry of `server.Clients` whose JID
satisfies `jidMatches(to, JID)`, and to no client when none matches; clients after the
first match receive nothing. Without `type='groupchat'` there is no room delivery and
the stanza sent is the one received. -/
theorem RouteMessage_first_match (env : Env) (spare : Bool) (w : World) (msg : Element) :
    ((∃ pre cl post, w.server.Clients = pre ++ cl :: post ∧
        (∀ x ∈ pre, jidMatches (msg.GetAttr "to") (w.heap x).JID = false) ∧
        jidMatches (msg.GetAttr "to") (w.heap cl).JID = true ∧
        (XmppServer.RouteMessage env spare w msg).sent =
          (roomDelivery env spare w msg).1.sent ++
            [(cl, Wire.xml (roomDelivery env spare w msg).2)]) ∨
      ((∀ x ∈ w.server.Clients, jidMatches (msg.GetAttr "to") (w.heap x).JID = false) ∧
        (XmppServer.RouteMessage env spare w msg).sent =
          (roomDelivery env spare w msg).1.sent)) ∧
    (msg.GetAttr "type" ≠ "groupchat" → roomDelivery env spare w msg = (w, msg)) ∧
    (XmppServer.RouteMessage env spare w msg).server = w.server ∧
    (XmppServer.RouteMessage env spare w msg).heap = w.heap := by
  obtain ⟨hsrv, hheap⟩ := roomDelivery_server env spare w msg
  refine ⟨?_, ?_, serverRouteMessage_frame env spare w msg⟩
  · unfold XmppServer.RouteMessage clientDelivery
    dsimp only
    rw [hsrv, hheap]
    cases hf : w.server.Clients.find? (fun client =>
        jidMatches (msg.GetAttr "to") (w.heap client).JID) with
    | none =>
      right
      rw [List.find?_eq_none] at hf
      exact ⟨fun x hx => by simpa using hf x hx, rfl⟩
    | some cl =>
      left
      rw [List.find?_eq_some] at hf
      obtain ⟨hcl, pre, post, hsplit, hpre⟩ := hf
      exact ⟨pre, cl, post, hsplit, fun x hx => by simpa using hpre x hx, hcl, rfl⟩
  · intro hty
    unfold roomDelivery
    rw [if_neg hty]

/-- C9 on a registry holding sessions 2 (`bob`) and 1 (`alice`): a chat message to
`alice@localhost` is sent to session 1 only. -/
theorem RouteMessage_first_match_witness :
    (XmppServer.RouteMessage demoEnv false demoTaken
      (stanzaOf "message" [("to", "alice@localhost")] [] "")).sent =
      [(1, Wire.xml (stanzaOf "message" [("to", "alice@localhost")] [] ""))] := by
  have h := (RouteMessage_first_match demoEnv false demoTaken
    (stanzaOf "message" [("to", "alice@localhost")] [] "")).2.1 (by decide)
  unfold XmppServer.RouteMessage
  rw [h]
  rfl

theorem hasAttr_setAttrList (name value : String) (l : List Attr) :
    (setAttrList name value l).any (fun a => a.Name.Local == name) = true := by
  induction l with
  | nil => simp [setAttrList]
  | cons a rest ih =>
    unfold setAttrList
    by_cases h : a.Name.Local = name
    · simp [h]
    · simp [h, ih]

/-- The message `handleMessage` hands to the router carries a `from` slot, so the
capacity flag has no influence on the routing. -/
theorem handleMessage_spare_idle (env : Env) (spare : Bool) (w : World) (e : Element)
    (jid : String) :
    XmppServer.RouteMessage env spare w (e.SetAttr "from" jid) =
      XmppServer.RouteMessage env false w (e.SetAttr "from" jid) := by
  have h : (e.SetAttr "from" jid).hasAttr "from" = true := hasAttr_setAttrList "from" jid e.Attr
  unfold XmppServer.RouteMessage roomDelivery XmppRoom.callerView
  simp [h]

theorem takeWhile_ne_eq_iff (sep : Char) (a b : List Char) (ha : sep ∉ a) :
    b.takeWhile (fun ch => ch != sep) = a ↔ (b = a ∨ ∃ rest, b = a ++ sep :: rest) := by
  induction a generalizing b with
  | nil =>
    cases b with
    | nil => simp
    | cons y ys =>
      by_cases h : y = sep
      · subst h; simp
      · simp [List.takeWhile_cons, h]
  | cons x xs ih =>
    have hx : x ≠ sep := fun h => ha (h ▸ List.mem_cons_self _ _)
    have hxs : sep ∉ xs := fun h => ha (List.mem_cons_of_mem _ h)
    cases b with
    | nil => simp
    | cons y ys =>
      by_cases h : y = sep
      · subst h
        simp [List.takeWhile_cons]
        constructor
        · intro h1; exact absurd h1.symm hx
        · intro h1; exact absurd h1.symm hx
      · simp only [List.takeWhile_cons, bne_iff_ne, ne_eq, h, not_false_eq_true, decide_True,
          if_true, List.cons.injEq, List.cons_append]
        constructor
        · rintro ⟨rfl, h2⟩
          rcases (ih ys hxs).mp h2 with h3 | ⟨rest, h3⟩
          · exact Or.inl ⟨rfl, h3⟩
          · exact Or.inr ⟨rest, rfl, h3⟩
        · rintro (⟨rfl, h2⟩ | ⟨rest, rfl, h2⟩)
          · exact ⟨rfl, (ih ys hxs).mpr (Or.inl h2)⟩
          · exact ⟨rfl, (ih ys hxs).mpr (Or.inr ⟨rest, h2⟩)⟩

theorem splitHead_eq_iff (sep : Char) (a b : String) (ha : sep ∉ a.data) :
    a = splitHead sep b ↔ (b = a ∨ ∃ rest : String, b = a ++ String.singleton sep ++ rest) := by
  have h := takeWhile_ne_eq_iff sep a.data b.data ha
  unfold splitHead
  constructor
  · intro h1
    have h2 : b.data.takeWhile (fun ch => ch != sep) = a.data := by rw [h1]
    rcases h.mp h2 with h3 | ⟨rest, h3⟩
    · exact Or.inl (String.ext h3)
    · exact Or.inr ⟨⟨rest⟩, String.ext (by simpa [String.singleton] using h3)⟩
  · intro h1
    apply String.ext
    apply Eq.symm
    apply h.mpr
    rcases h1 with rfl | ⟨rest, rfl⟩
    · exact Or.inl rfl
    · exact Or.inr ⟨rest.data, by simp [String.singleton]⟩

/-- C12: `jidMatches(to, jid)`: when `to` contains `/` it holds exactly when `to = jid`;
otherwise exactly when `to` is, case-sensitively, the part of `jid` before its first `/`
(all of `jid` when it has none), that is, when `jid` is `to` or `to` followed by `/` and
anything. -/
theorem jidMatches_rule (toJid jid : String) :
    (jidMatches toJid jid = true ↔
      if '/' ∈ toJid.data then toJid = jid
      else toJid = splitHead '/' jid) ∧
    (toJid = splitHead '/' jid ↔
      '/' ∉ toJid.data ∧ (jid = toJid ∨ ∃ rest : String, jid = toJid ++ "/" ++ rest)) := by
  constructor
  · unfold jidMatches containsChar
    by_cases h : '/' ∈ toJid.data
    · simp [h]
    · simp [h]
  · constructor
    · intro h
      have hno : '/' ∉ toJid.data := by
        rw [h]
        unfold splitHead
        intro hm
        have := List.mem_takeWhile_imp hm
        simp at this
      exact ⟨hno, (splitHead_eq_iff '/' toJid jid hno).mp h⟩
    · rintro ⟨hno, h⟩
      exact (splitHead_eq_iff '/' toJid jid hno).mpr h

/-- C14: `jidMatches` is reflexive, for strings with or without a `/` and for the empty
string. -/
theorem jidMatches_refl (a : String) : jidMatches a a = true := by
  unfold jidMatches containsChar
  by_cases h : '/' ∈ a.data
  · simp [h]
  · have : splitHead '/' a = a := ((splitHead_eq_iff '/' a a h).mpr (Or.inl rfl)).symm
    simp [h, this]

theorem splitHead_append_slash (p rest : String) (hp : '/' ∉ p.data) :
    splitHead '/' (p ++ "/" ++ rest) = p :=
  ((splitHead_eq_iff '/' p (p ++ "/" ++ rest) hp).mpr (Or.inr ⟨rest, rfl⟩)).symm

/-- C13: `BareJidMatch(a, b)` holds exactly when the parts of `a` and `b` before their
first `/` are equal rune by rune under case folding. It is reflexive and symmetric, it
does not depend on the resources, and replacing a bare part by one that differs only in
letter case does not change the verdict. -/
theorem BareJidMatch_rule (fold : Char → Char) :
    (∀ a b : String, BareJidMatch fold a b = true ↔
      (splitHead '/' a).data.map fold = (splitHead '/' b).data.map fold) ∧
    (∀ a : String, BareJidMatch fold a a = true) ∧
    (∀ a b : String, BareJidMatch fold a b = BareJidMatch fold b a) ∧
    (∀ p q r1 r2 : String, '/' ∉ p.data → '/' ∉ q.data →
      BareJidMatch fold (p ++ "/" ++ r1) (q ++ "/" ++ r2) = BareJidMatch fold p q) ∧
    (∀ p q b : String, '/' ∉ p.data → '/' ∉ q.data → p.data.map fold = q.data.map fold →
      BareJidMatch fold p b = BareJidMatch fold q b) := by
  refine ⟨?_, BareJidMatch_refl fold, ?_, ?_, ?_⟩
  · intro a b
    simp [BareJidMatch, EqualFold]
  · intro a b
    simp only [BareJidMatch, EqualFold]
    rw [Bool.eq_iff_iff]
    simp only [beq_iff_eq]
    exact eq_comm
  · intro p q r1 r2 hp hq
    have h1 : splitHead '/' p = p := ((splitHead_eq_iff '/' p p hp).mpr (Or.inl rfl)).symm
    have h2 : splitHead '/' q = q := ((splitHead_eq_iff '/' q q hq).mpr (Or.inl rfl)).symm
    simp only [BareJidMatch, splitHead_append_slash p r1 hp, splitHead_append_slash q r2 hq, h1, h2]
  · intro p q b hp hq hpq
    have h1 : splitHead '/' p = p := ((splitHead_eq_iff '/' p p hp).mpr (Or.inl rfl)).symm
    have h2 : splitHead '/' q = q := ((splitHead_eq_iff '/' q q hq).mpr (Or.inl rfl)).symm
    simp only [BareJidMatch, EqualFold, h1, h2, hpq]

/-- C13 with ASCII folding: `Alice@LocalHost/a` and `alice@localhost/b` bare-match. -/
theorem BareJidMatch_rule_witness :
    BareJidMatch asciiFold "Alice@LocalHost/a" "alice@localhost/b" = true :=
  ((BareJidMatch_rule asciiFold).2.2.2.1 "Alice@LocalHost" "alice@localhost" "a" "b"
    (by decide) (by decide)).trans
    (((BareJidMatch_rule asciiFold).2.2.2.2 "Alice@LocalHost" "alice@localhost"
      "alice@localhost" (by decide) (by decide) (by decide)).trans
      ((BareJidMatch_rule asciiFold).2.1 "alice@localhost"))

theorem splitChars_length (sep : Char) (l : List Char) :
    (splitChars sep l).length = l.count sep + 1 := by
  induction l with
  | nil => rfl
  | cons ch rest ih =>
    unfold splitChars
    by_cases h : ch = sep
    · subst h
      simp [ih]
    · rw [if_neg h]
      have hc : (ch :: rest).count sep = rest.count sep := by
        rw [List.count_cons]
        simp [h]
      cases hs : splitChars sep rest with
      | nil => rw [hs] at ih; simp at ih
      | cons hd tl =>
        rw [hs] at ih
        simp only [List.length_cons] at ih ⊢
        rw [hc, ← ih]

theorem splitAll_length_lt_two (s : String) :
    (splitAll '.' s).length < 2 ↔ '.' ∉ s.data := by
  unfold splitAll
  rw [List.length_map, splitChars_length]
  constructor
  · intro h hm
    have := List.count_pos_iff.mpr hm
    omega
  · intro h
    rw [List.count_eq_zero_of_not_mem h]
    omega

/-- C11, as stated, fails: the webhook is configured and the body parses to `/help`, but
the sender `alice@localhost/game` has no `.` in its node; `ProcessMessage` returns
false and the stanza is sent to both room members. -/
theorem webhook_counterexample :
    demoHook.Target ≠ "" ∧
    demoHookInput.unmarshal slashBody = some "/help" ∧
    hasSlashPrefix "/help" = true ∧
    (demoRoom.heap 1).JID = "alice@localhost/game" ∧
    (CmdHook.ProcessMessage demoHook demoHookInput "alice@localhost/game" slashBody).1 = false ∧
    ((handleMessage (hookEnv asciiFold demoHook demoHookInput) demoRoom 1 slashMessage).sent.map
      Prod.fst) = [1, 2] := by
  decide

/-- C11, amended: with a webhook target configured, a body that parses as a ChatMsg
whose Msg text begins with `/`, and a sender JID whose node (the part before the first
`@`) contains a `.`, `ProcessMessage` returns true whatever happens to the HTTP request,
and `handleMessage` leaves the state as it was: the router is not invoked and nobody is
written to. When the node has no `.`, it returns false and the stanza is routed. -/
theorem webhook_suppresses (fold : Char → Char) (cfg : WebhookConfig) (inp : HookInput)
    (w : World) (c : ClientRef) (e bodyEl : Element) (message : String)
    (hT : cfg.Target ≠ "") (hb : e.GetChild "body" = (bodyEl, true))
    (hu : inp.unmarshal bodyEl.Text = some message) (hs : hasSlashPrefix message = true) :
    ('.' ∈ (splitHead '@' (w.heap c).JID).data →
      (CmdHook.ProcessMessage cfg inp (w.heap c).JID bodyEl.Text).1 = true ∧
      handleMessage (hookEnv fold cfg inp) w c e = w) ∧
    ('.' ∉ (splitHead '@' (w.heap c).JID).data →
      (CmdHook.ProcessMessage cfg inp (w.heap c).JID bodyEl.Text).1 = false ∧
      handleMessage (hookEnv fold cfg inp) w c e =
        XmppServer.RouteMessage (hookEnv fold cfg inp) false w
          (e.SetAttr "from" (w.heap c).JID)) := by
  constructor
  · intro hdot
    have hlen : ¬ (splitAll '.' (splitHead '@' (w.heap c).JID)).length < 2 := by
      rw [splitAll_length_lt_two]; exact fun h => h hdot
    have hp : (CmdHook.ProcessMessage cfg inp (w.heap c).JID bodyEl.Text).1 = true := by
      unfold CmdHook.ProcessMessage
      simp only [hT, if_false, hu, hs, Bool.not_true, Bool.false_eq_true, hlen]
      split
      · rfl
      · split <;> rfl
    refine ⟨hp, ?_⟩
    unfold handleMessage
    simp [hb, hookEnv, hp]
  · intro hdot
    have hlen : (splitAll '.' (splitHead '@' (w.heap c).JID)).length < 2 := by
      rw [splitAll_length_lt_two]; exact hdot
    have hp : (CmdHook.ProcessMessage cfg inp (w.heap c).JID bodyEl.Text).1 = false := by
      unfold CmdHook.ProcessMessage
      simp [hT, hu, hs, hlen]
    refine ⟨hp, ?_⟩
    unfold handleMessage
    simp [hb, hookEnv, hp]

/-- C11, amended, for the sender `sbrw.100@localhost/game`: the command is taken by the
webhook and the state is untouched. -/
theorem webhook_suppresses_witness :
    (CmdHook.ProcessMessage demoHook demoHookInput (demoPlayers.heap 1).JID
      (stanzaOf "body" [] [] slashBody).Text).1 = true ∧
    handleMessage (hookEnv asciiFold demoHook demoHookInput) demoPlayers 1 slashMessage =
      demoPlayers :=
  (webhook_suppresses asciiFold demoHook demoHookInput demoPlayers 1 slashMessage
    (stanzaOf "body" [] [] slashBody) "/help" (by decide) rfl (by decide) (by decide)).1
    (by decide)

theorem handleXmlElement_presence (env : Env) (w : World) (c : ClientRef) (e : Element)
    (conn : ConnInput) (ha : (w.heap c).authenticated = true) (hp : e.Name.Local = "presence") :
    handleXmlElement env w c e conn = (handlePresence env w c e, none) := by
  have h1 : ¬ ("presence" = "starttls") := by decide
  have h2 : ¬ ("presence" = "iq") := by decide
  simp [handleXmlElement, hp, ha, h1, h2]

theorem handlePresence_join (env : Env) (w : World) (c : ClientRef) (e : Element)
    (hto : e.GetAttr "to" ≠ "") (hty : e.GetAttr "type" = "") :
    handlePresence env w c e =
      { w with
        server := { w.server with
          Rooms := (joinResult env.fold (splitHead '/' (e.GetAttr "to")) c w.server.Rooms).1 }
        sent := w.sent ++ joinNotices w.heap (e.GetAttr "to") (splitHead '/' (e.GetAttr "to")) c
          (joinResult env.fold (splitHead '/' (e.GetAttr "to")) c w.server.Rooms).2 } := by
  have hu : ¬ ("" = "unavailable") := by decide
  unfold handlePresence joinResult
  simp only [hto, hty, hu, ne_eq, not_false_eq_true, if_true, if_false]

theorem joinRooms_split (fold : Char → Char) (toBare : String) (c : ClientRef)
    (pre : List XmppRoom) (r : XmppRoom) (post : List XmppRoom)
    (hpre : ∀ x ∈ pre, EqualFold fold x.JID toBare = false)
    (hr : EqualFold fold r.JID toBare = true) :
    joinRooms fold toBare c (pre ++ r :: post) =
      some (pre ++ r.AddMember c :: post, r.AddMember c) := by
  induction pre with
  | nil => simp [joinRooms, hr]
  | cons x xs ih =>
    have hx := hpre x (List.mem_cons_self _ _)
    have := ih (fun y hy => hpre y (List.mem_cons_of_mem _ hy))
    simp [joinRooms, hx, this]

theorem AddMember_JID (r : XmppRoom) (c : ClientRef) : (r.AddMember c).JID = r.JID := by
  unfold XmppRoom.AddMember
  split <;> rfl

/-- C15: for an authenticated client `c` and a join presence (non-empty `to`, no `type`)
with bare part `toBare`: if a room's JID equals `toBare` under case folding, the first
such room gets `c` as a member (keeping its JID and its members), the number of rooms
and all other rooms are unchanged; otherwise exactly one room is appended, with JID
`toBare` and `Members = [c]`. `Clients` and the client objects are unchanged. -/
theorem join_rooms (env : Env) (w : World) (c : ClientRef) (e : Element) (conn : ConnInput)
    (ha : (w.heap c).authenticated = true) (hp : e.Name.Local = "presence")
    (hto : e.GetAttr "to" ≠ "") (hty : e.GetAttr "type" = "") :
    (∀ (pre : List XmppRoom) (r : XmppRoom) (post : List XmppRoom),
      w.server.Rooms = pre ++ r :: post →
      (∀ x ∈ pre, EqualFold env.fold x.JID (splitHead '/' (e.GetAttr "to")) = false) →
      EqualFold env.fold r.JID (splitHead '/' (e.GetAttr "to")) = true →
      (handleXmlElement env w c e conn).1.server.Rooms = pre ++ r.AddMember c :: post ∧
      (handleXmlElement env w c e conn).1.server.Rooms.length = w.server.Rooms.length ∧
      c ∈ (r.AddMember c).Members ∧ (r.AddMember c).JID = r.JID ∧
      (∀ m, m ∈ (r.AddMember c).Members ↔ m ∈ r.Members ∨ m = c)) ∧
    ((∀ r ∈ w.server.Rooms,
        EqualFold env.fold r.JID (splitHead '/' (e.GetAttr "to")) = false) →
      (handleXmlElement env w c e conn).1.server.Rooms =
        w.server.Rooms ++ [⟨splitHead '/' (e.GetAttr "to"), [c]⟩]) ∧
    (handleXmlElement env w c e conn).1.server.Clients = w.server.Clients ∧
    (handleXmlElement env w c e conn).1.heap = w.heap := by
  rw [handleXmlElement_presence env w c e conn ha hp, handlePresence_join env w c e hto hty]
  refine ⟨?_, ?_, rfl, rfl⟩
  · intro pre r post hsplit hpre hr
    have hj := joinRooms_split env.fold _ c pre r post hpre hr
    refine ⟨?_, ?_, (mem_AddMember r c c).mpr (Or.inr rfl), AddMember_JID r c,
      mem_AddMember r c⟩
    · simp only [joinResult, hsplit, hj]
    · simp only [joinResult, hsplit, hj, List.length_append, List.length_cons]
  · intro hno
    simp only [joinResult, joinRooms_none env.fold _ c _ hno]

/-- C15 with session 2 joining `room1`, which exists and holds session 1. -/
theorem join_rooms_witness :
    (handleXmlElement demoEnv demoAliceRoom 2 joinRoom1 demoConn).1.server.Rooms =
      [⟨"room1@conference.localhost", [1, 2]⟩] :=
  ((join_rooms demoEnv demoAliceRoom 2 joinRoom1 demoConn (by decide) (by decide) (by decide)
    (by decide)).1 [] ⟨"room1@conference.localhost", [1]⟩ [] rfl
    (fun _ hx => absurd hx (List.not_mem_nil _)) (by decide)).1

theorem EqualFold_refl (fold : Char → Char) (s : String) : EqualFold fold s s = true := by
  simp [EqualFold]

theorem joinRooms_some_props (fold : Char → Char) (toBare : String) (c : ClientRef)
    (rooms : List XmppRoom) (p : List XmppRoom × XmppRoom)
    (h : joinRooms fold toBare c rooms = some p) :
    p.2 ∈ p.1 ∧ ∃ r0 ∈ rooms, p.2 = r0.AddMember c ∧ EqualFold fold r0.JID toBare = true := by
  induction rooms generalizing p with
  | nil => simp [joinRooms] at h
  | cons room rest ih =>
    unfold joinRooms at h
    split at h
    · rename_i hm
      cases h
      exact ⟨List.mem_cons_self _ _, room, List.mem_cons_self _ _, rfl, hm⟩
    · cases hj : joinRooms fold toBare c rest with
      | none => simp [hj] at h
      | some q =>
        simp only [hj, Option.map_some', Option.some.injEq] at h
        subst h
        obtain ⟨h1, r0, h2, h3, h4⟩ := ih q hj
        exact ⟨List.mem_cons_of_mem _ h1, r0, List.mem_cons_of_mem _ h2, h3, h4⟩

theorem joinResult_props (fold : Char → Char) (toBare : String) (c : ClientRef)
    (rooms : List XmppRoom) (hn : ∀ r ∈ rooms, r.Members.Nodup) :
    (joinResult fold toBare c rooms).2 ∈ (joinResult fold toBare c rooms).1 ∧
    (joinResult fold toBare c rooms).2.Members.Nodup ∧
    c ∈ (joinResult fold toBare c rooms).2.Members ∧
    EqualFold fold (joinResult fold toBare c rooms).2.JID toBare = true := by
  unfold joinResult
  cases hj : joinRooms fold toBare c rooms with
  | none =>
    exact ⟨by simp, List.nodup_singleton c, List.mem_singleton.mpr rfl, EqualFold_refl fold toBare⟩
  | some p =>
    obtain ⟨h1, r0, h2, h3, h4⟩ := joinRooms_some_props fold toBare c rooms p hj
    refine ⟨h1, ?_, ?_, ?_⟩
    · show p.2.Members.Nodup
      rw [h3]; exact AddMember_nodup r0 c (hn r0 h2)
    · show c ∈ p.2.Members
      rw [h3]; exact (mem_AddMember r0 c c).mpr (Or.inr rfl)
    · show EqualFold fold p.2.JID toBare = true
      rw [h3, AddMember_JID]; exact h4

theorem filter_joinNotices (heap : ClientRef → XmppClient) (toJid toBare : String)
    (c : ClientRef) (joined : XmppRoom) :
    (joinNotices heap toJid toBare c joined).filter (fun p => p.1 == c) =
      joined.Members.map (fun member =>
        (c, Wire.text (presenceJoin (member == c)
          (XMLEscape (toBare ++ "/" ++ splitHead '@' (heap member).JID))
          (XMLEscape (heap c).JID)))) ∧
    (joinNotices heap toJid toBare c joined).filter (fun p => p.1 != c) =
      (joined.Members.filter (fun member => member != c)).map (fun member =>
        (member, Wire.text (presenceJoin false (XMLEscape toJid)
          (XMLEscape (heap member).JID)))) := by
  unfold joinNotices
  constructor
  · rw [List.filter_append, List.filter_map, List.filter_map]
    have h1 : ∀ l : List ClientRef, l.filter ((fun p : ClientRef × Wire => p.1 == c) ∘
        (fun member => (c, Wire.text (presenceJoin (member == c)
          (XMLEscape (toBare ++ "/" ++ splitHead '@' (heap member).JID))
          (XMLEscape (heap c).JID))))) = l := by
      intro l
      apply List.filter_eq_self.mpr
      intro a _
      simp
    have h2 : ∀ l : List ClientRef, (l.filter (fun member => member != c)).filter
        ((fun p : ClientRef × Wire => p.1 == c) ∘
        (fun member => (member, Wire.text (presenceJoin false (XMLEscape toJid)
          (XMLEscape (heap member).JID))))) = [] := by
      intro l
      apply List.filter_eq_nil_iff.mpr
      intro a ha
      have := (List.mem_filter.mp ha).2
      simpa using this
    rw [h1, h2]
    simp
  · rw [List.filter_append, List.filter_map, List.filter_map]
    have h1 : ∀ l : List ClientRef, l.filter ((fun p : ClientRef × Wire => p.1 != c) ∘
        (fun member => (c, Wire.text (presenceJoin (member == c)
          (XMLEscape (toBare ++ "/" ++ splitHead '@' (heap member).JID))
          (XMLEscape (heap c).JID))))) = [] := by
      intro l
      apply List.filter_eq_nil_iff.mpr
      intro a _
      simp
    have h2 : ∀ l : List ClientRef, (l.filter (fun member => member != c)).filter
        ((fun p : ClientRef × Wire => p.1 != c) ∘
        (fun member => (member, Wire.text (presenceJoin false (XMLEscape toJid)
          (XMLEscape (heap member).JID))))) = l.filter (fun member => member != c) := by
      intro l
      apply List.filter_eq_self.mpr
      intro a ha
      have := (List.mem_filter.mp ha).2
      simpa using this
    rw [h1, h2]
    simp

theorem handlePresence_join_sent (env : Env) (w : World) (c : ClientRef) (e : Element)
    (hto : e.GetAttr "to" ≠ "") (hty : e.GetAttr "type" = "") :
    (handlePresence env w c e).sent.drop w.sent.length =
      joinNotices w.heap (e.GetAttr "to") (splitHead '/' (e.GetAttr "to")) c
        (joinResult env.fold (splitHead '/' (e.GetAttr "to")) c w.server.Rooms).2 ∧
    (handlePresence env w c e).server.Rooms =
      (joinResult env.fold (splitHead '/' (e.GetAttr "to")) c w.server.Rooms).1 := by
  rw [handlePresence_join env w c e hto hty]
  exact ⟨List.drop_left _ _, rfl⟩

/-- C16, as stated, fails: `room1@conference.localhost` holds `alice`; `bob` joins with
`to='Room1@conference.localhost'`. He is added to that room, and the presences written
to him carry `from='Room1@conference.localhost/…'`, not the room's JID. -/
theorem join_from_counterexample :
    roomScene.server.Rooms = [⟨"room1@conference.localhost", [1]⟩] ∧
    (roomScene.heap 2).authenticated = true ∧
    (handlePresence demoEnv roomScene 2 joinRoom1Upper).server.Rooms =
      [⟨"room1@conference.localhost", [1, 2]⟩] ∧
    ((handlePresence demoEnv roomScene 2 joinRoom1Upper).sent.drop roomScene.sent.length).take 2 =
      [(2, Wire.text ("<presence from='Room1@conference.localhost/alice' to='bob@localhost/game'>" ++
          "<x xmlns='http://jabber.org/protocol/muc#user'>" ++
          "<item affiliation='member' role='participant'/></x></presence>")),
        (2, Wire.text ("<presence from='Room1@conference.localhost/bob' to='bob@localhost/game'>" ++
          "<x xmlns='http://jabber.org/protocol/muc#user'>" ++
          "<item affiliation='member' role='participant'/><status code='110'/></x></presence>"))] :=
  ⟨by decide, by decide, by decide, by rfl⟩

/-- C16, amended: on a join in a reachable state, the writes to the joining client are
exactly one presence per member of the joined room after the join, in membership order,
each with `from` = the XML-escaped `toBare/nick` of that member (`toBare` is the bare
part of the `to` the joiner sent, equal to the room's JID under case folding; `nick` is
the part of the member's JID before the first `@`), `to` = the joiner's XML-escaped full
JID, affiliation member and role participant; the joiner occurs exactly once among the
members, and exactly the presence for it carries `<status code='110'/>`. -/
theorem join_notices_to_joiner (env : Env) (domain : String) (db : DB) (evs : List Event)
    (w : World) (c : ClientRef) (e : Element)
    (hw : w = run env (World.init domain db) evs)
    (hto : e.GetAttr "to" ≠ "") (hty : e.GetAttr "type" = "") :
    ∃ joined : XmppRoom,
      joined ∈ (handlePresence env w c e).server.Rooms ∧
      EqualFold env.fold joined.JID (splitHead '/' (e.GetAttr "to")) = true ∧
      joined.Members.count c = 1 ∧
      ((handlePresence env w c e).sent.drop w.sent.length).filter (fun p => p.1 == c) =
        joined.Members.map (fun m =>
          (c, Wire.text ("<presence from='" ++
            XMLEscape (splitHead '/' (e.GetAttr "to") ++ "/" ++ splitHead '@' (w.heap m).JID) ++
            "' to='" ++ XMLEscape (w.heap c).JID ++ "'>" ++
            "<x xmlns='http://jabber.org/protocol/muc#user'>" ++
            "<item affiliation='member' role='participant'/>" ++
            (if m = c then "<status code='110'/>" else "") ++ "</x></presence>"))) := by
  have hn : w.NoDup := by rw [hw]; exact run_NoDup env evs _ (init_NoDup domain db)
  obtain ⟨h1, h2, h3, h4⟩ :=
    joinResult_props env.fold (splitHead '/' (e.GetAttr "to")) c w.server.Rooms hn.2
  obtain ⟨hs, hr⟩ := handlePresence_join_sent env w c e hto hty
  refine ⟨(joinResult env.fold (splitHead '/' (e.GetAttr "to")) c w.server.Rooms).2, ?_, h4,
    List.count_eq_one_of_mem h2 h3, ?_⟩
  · rw [hr]; exact h1
  · rw [hs, (filter_joinNotices _ _ _ _ _).1]
    apply List.map_congr_left
    intro m _
    simp [presenceJoin]

/-- C16, amended, for `bob` (session 2) joining `room1`, which holds `alice`. -/
theorem join_notices_to_joiner_witness :
    ∃ joined : XmppRoom,
      joined ∈ (handlePresence demoEnv roomScene 2 joinRoom1).server.Rooms ∧
      EqualFold demoEnv.fold joined.JID (splitHead '/' (joinRoom1.GetAttr "to")) = true ∧
      joined.Members.count 2 = 1 ∧
      ((handlePresence demoEnv roomScene 2 joinRoom1).sent.drop roomScene.sent.length).filter
          (fun p => p.1 == 2) =
        joined.Members.map (fun m =>
          (2, Wire.text ("<presence from='" ++
            XMLEscape (splitHead '/' (joinRoom1.GetAttr "to") ++ "/" ++
              splitHead '@' (roomScene.heap m).JID) ++
            "' to='" ++ XMLEscape (roomScene.heap 2).JID ++ "'>" ++
            "<x xmlns='http://jabber.org/protocol/muc#user'>" ++
            "<item affiliation='member' role='participant'/>" ++
            (if m = 2 then "<status code='110'/>" else "") ++ "</x></presence>"))) :=
  join_notices_to_joiner demoEnv "localhost" demoUsers roomSceneEvents roomScene 2 joinRoom1 rfl
    (by decide) (by decide)

/-- C17, the code at the failing input: `bob` joins `room1`, which holds `alice`, with
the bare `to='room1@conference.localhost'`. The first loop tells `bob` that he is
`room1@conference.localhost/bob`, while the second loop writes to the other member
`alice` a presence with `from='room1@conference.localhost'`, without `/bob`, where the
claim has `from` = the room JID, `/`, the node of the joiner. -/
theorem join_notice_without_nick :
    (handlePresence demoEnv roomScene 2 joinRoom1).server.Rooms =
      [⟨"room1@conference.localhost", [1, 2]⟩] ∧
    ((handlePresence demoEnv roomScene 2 joinRoom1).sent.drop roomScene.sent.length).take 2 =
      [(2, Wire.text ("<presence from='room1@conference.localhost/alice' to='bob@localhost/game'>" ++
          "<x xmlns='http://jabber.org/protocol/muc#user'>" ++
          "<item affiliation='member' role='participant'/></x></presence>")),
        (2, Wire.text ("<presence from='room1@conference.localhost/bob' to='bob@localhost/game'>" ++
          "<x xmlns='http://jabber.org/protocol/muc#user'>" ++
          "<item affiliation='member' role='participant'/><status code='110'/></x></presence>"))] ∧
    ((handlePresence demoEnv roomScene 2 joinRoom1).sent.drop roomScene.sent.length).drop 2 =
      [(1, Wire.text ("<presence from='room1@conference.localhost' to='alice@localhost/game'>" ++
          "<x xmlns='http://jabber.org/protocol/muc#user'>" ++
          "<item affiliation='member' role='participant'/></x></presence>"))] :=
  ⟨by decide, by rfl, by rfl⟩

/-- The second write loop of a join, in a reachable state: the writes to clients other
than the joiner are exactly one presence per other member of the joined room, in
membership order, whose `from` is the XML-escaped `to` attribute of the join presence
as received, whose `to` is that member's XML-escaped full JID, and which carries no
status code 110. -/
theorem join_second_loop (env : Env) (domain : String) (db : DB) (evs : List Event)
    (w : World) (c : ClientRef) (e : Element)
    (hw : w = run env (World.init domain db) evs)
    (hto : e.GetAttr "to" ≠ "") (hty : e.GetAttr "type" = "") :
    ∃ joined : XmppRoom,
      joined ∈ (handlePresence env w c e).server.Rooms ∧
      EqualFold env.fold joined.JID (splitHead '/' (e.GetAttr "to")) = true ∧
      joined.Members.Nodup ∧
      ((handlePresence env w c e).sent.drop w.sent.length).filter (fun p => p.1 != c) =
        (joined.Members.filter (fun m => m != c)).map (fun m =>
          (m, Wire.text ("<presence from='" ++ XMLEscape (e.GetAttr "to") ++
            "' to='" ++ XMLEscape (w.heap m).JID ++ "'>" ++
            "<x xmlns='http://jabber.org/protocol/muc#user'>" ++
            "<item affiliation='member' role='participant'/>" ++ "</x></presence>"))) := by
  have hn : w.NoDup := by rw [hw]; exact run_NoDup env evs _ (init_NoDup domain db)
  obtain ⟨h1, h2, _, h4⟩ :=
    joinResult_props env.fold (splitHead '/' (e.GetAttr "to")) c w.server.Rooms hn.2
  obtain ⟨hs, hr⟩ := handlePresence_join_sent env w c e hto hty
  refine ⟨(joinResult env.fold (splitHead '/' (e.GetAttr "to")) c w.server.Rooms).2, ?_, h4,
    h2, ?_⟩
  · rw [hr]; exact h1
  · rw [hs, (filter_joinNotices _ _ _ _ _).2]
    apply List.map_congr_left
    intro m _
    simp [presenceJoin]

/-- The same join addressed to `room1@conference.localhost/bob`: here the second loop
writes to `alice` a presence from `room1@conference.localhost/bob`. -/
theorem join_second_loop_full_address :
    ((handlePresence demoEnv roomScene 2 joinRoom1Bob).sent.drop roomScene.sent.length).drop 2 =
      [(1, Wire.text ("<presence from='room1@conference.localhost/bob' to='alice@localhost/game'>" ++
          "<x xmlns='http://jabber.org/protocol/muc#user'>" ++
          "<item affiliation='member' role='participant'/></x></presence>"))] := by
  rfl

theorem joinRooms_JIDs (fold : Char → Char) (toBare : String) (c : ClientRef)
    (rooms : List XmppRoom) (p : List XmppRoom × XmppRoom)
    (h : joinRooms fold toBare c rooms = some p) :
    p.1.map (fun r => r.JID) = rooms.map (fun r => r.JID) := by
  induction rooms generalizing p with
  | nil => simp [joinRooms] at h
  | cons room rest ih =>
    unfold joinRooms at h
    split at h
    · cases h
      simp [AddMember_JID]
    · cases hj : joinRooms fold toBare c rest with
      | none => simp [hj] at h
      | some q =>
        simp only [hj, Option.map_some', Option.some.injEq] at h
        subst h
        simp [ih q hj]

theorem joinRooms_none_all (fold : Char → Char) (toBare : String) (c : ClientRef)
    (rooms : List XmppRoom) (h : joinRooms fold toBare c rooms = none) :
    ∀ r ∈ rooms, EqualFold fold r.JID toBare = false := by
  induction rooms with
  | nil => intro r hr; exact absurd hr (List.not_mem_nil _)
  | cons room rest ih =>
    unfold joinRooms at h
    split at h
    · cases h
    · rename_i hm
      have hrest : joinRooms fold toBare c rest = none := by
        cases hj : joinRooms fold toBare c rest with
        | none => rfl
        | some q => simp [hj] at h
      intro r hr
      rcases List.mem_cons.mp hr with rfl | hr
      · simpa using hm
      · exact ih hrest r hr

theorem leaveRooms_JIDs (heap : ClientRef → XmppClient) (toBare : String) (c : ClientRef)
    (rooms : List XmppRoom) :
    (leaveRooms heap toBare c rooms).1.map (fun r => r.JID) = rooms.map (fun r => r.JID) := by
  induction rooms with
  | nil => rfl
  | cons room rest ih =>
    unfold leaveRooms
    split
    · simp [XmppRoom.RemoveMember]
    · simp [ih]

theorem handlePresence_JIDs (env : Env) (w : World) (c : ClientRef) (e : Element) :
    (handlePresence env w c e).server.Rooms.map (fun r => r.JID) =
        w.server.Rooms.map (fun r => r.JID) ∨
      ((handlePresence env w c e).server.Rooms.map (fun r => r.JID) =
          w.server.Rooms.map (fun r => r.JID) ++ [splitHead '/' (e.GetAttr "to")] ∧
        ∀ r ∈ w.server.Rooms,
          EqualFold env.fold r.JID (splitHead '/' (e.GetAttr "to")) = false) := by
  by_cases hto : e.GetAttr "to" = ""
  · left
    unfold handlePresence XmppServer.AddClient
    simp only [hto, ne_eq, not_true_eq_false, if_false]
    split <;> rfl
  · by_cases hty : e.GetAttr "type" = ""
    · rw [handlePresence_join env w c e hto hty]
      unfold joinResult
      cases hj : joinRooms env.fold (splitHead '/' (e.GetAttr "to")) c w.server.Rooms with
      | none =>
        right
        exact ⟨by simp, joinRooms_none_all _ _ _ _ hj⟩
      | some p =>
        left
        exact joinRooms_JIDs _ _ _ _ p hj
    · left
      unfold handlePresence
      simp only [ne_eq, hto, not_false_eq_true, if_true, hty, if_false]
      split
      · exact leaveRooms_JIDs _ _ _ _
      · rfl

theorem handlePresence_RoomsDistinct (env : Env) (w : World) (c : ClientRef) (e : Element)
    (h : w.RoomsDistinct env.fold) : (handlePresence env w c e).RoomsDistinct env.fold := by
  unfold World.RoomsDistinct at h ⊢
  rcases handlePresence_JIDs env w c e with hj | ⟨hj, hno⟩
  · rw [hj]; exact h
  · rw [hj, List.pairwise_append]
    refine ⟨h, List.pairwise_singleton _ _, ?_⟩
    intro a ha b hb
    rw [List.mem_singleton] at hb
    obtain ⟨r, hr, rfl⟩ := List.mem_map.mp ha
    rw [hb]
    exact hno r hr

theorem RemoveClient_RoomsDistinct (fold : Char → Char) (w : World) (c : ClientRef)
    (h : w.RoomsDistinct fold) : (XmppServer.RemoveClient w c).RoomsDistinct fold := by
  unfold World.RoomsDistinct at h ⊢
  have : (XmppServer.RemoveClient w c).server.Rooms.map (fun r => r.JID) =
      w.server.Rooms.map (fun r => r.JID) := by
    simp [XmppServer.RemoveClient, XmppRoom.RemoveMember, List.map_map, Function.comp_def]
  rw [this]; exact h

theorem step_RoomsDistinct (env : Env) (w : World) (ev : Event) (h : w.RoomsDistinct env.fold) :
    (step env w ev).RoomsDistinct env.fold := by
  cases ev with
  | teardown c => exact RemoveClient_RoomsDistinct env.fold w c h
  | stanza c e conn =>
    have h1 : (handleXmlElement env w c e conn).1.RoomsDistinct env.fold := by
      rcases handleXmlElement_registry env w c e conn with hs | ⟨_, hs⟩
      · unfold World.RoomsDistinct
        rw [hs]; exact h
      · rw [hs]; exact handlePresence_RoomsDistinct env w c e h
    unfold step
    dsimp only
    split
    · exact RemoveClient_RoomsDistinct env.fold _ c h1
    · exact h1

theorem run_RoomsDistinct (env : Env) (evs : List Event) (w : World)
    (h : w.RoomsDistinct env.fold) : (run env w evs).RoomsDistinct env.fold := by
  induction evs generalizing w with
  | nil => exact h
  | cons ev rest ih => exact ih _ (step_RoomsDistinct env w ev h)

theorem init_RoomsDistinct (fold : Char → Char) (domain : String) (db : DB) :
    (World.init domain db).RoomsDistinct fold :=
  List.Pairwise.nil

theorem leaveRooms_split (heap : ClientRef → XmppClient) (toBare : String) (c : ClientRef)
    (pre : List XmppRoom) (r : XmppRoom) (post : List XmppRoom)
    (hpre : ∀ x ∈ pre, x.JID ≠ toBare) (hr : r.JID = toBare) :
    leaveRooms heap toBare c (pre ++ r :: post) =
      (pre ++ r.RemoveMember c :: post, r.leaveNotices heap c) := by
  induction pre with
  | nil => simp [leaveRooms, hr]
  | cons x xs ih =>
    have hx := hpre x (List.mem_cons_self _ _)
    have := ih (fun y hy => hpre y (List.mem_cons_of_mem _ hy))
    simp [leaveRooms, hx, this]

theorem leaveRooms_none (heap : ClientRef → XmppClient) (toBare : String) (c : ClientRef)
    (rooms : List XmppRoom) (h : ∀ x ∈ rooms, x.JID ≠ toBare) :
    leaveRooms heap toBare c rooms = (rooms, []) := by
  induction rooms with
  | nil => rfl
  | cons x xs ih =>
    have hx := h x (List.mem_cons_self _ _)
    have := ih (fun y hy => h y (List.mem_cons_of_mem _ hy))
    simp [leaveRooms, hx, this]

theorem handlePresence_leave (env : Env) (w : World) (c : ClientRef) (e : Element)
    (hto : e.GetAttr "to" ≠ "") (hty : e.GetAttr "type" = "unavailable") :
    handlePresence env w c e =
      { w with
        server := { w.server with
          Rooms := (leaveRooms w.heap (splitHead '/' (e.GetAttr "to")) c w.server.Rooms).1 }
        sent := w.sent ++
          (leaveRooms w.heap (splitHead '/' (e.GetAttr "to")) c w.server.Rooms).2 } := by
  have hu : ¬ ("unavailable" = "") := by decide
  unfold handlePresence
  simp only [hto, hty, hu, ne_eq, not_false_eq_true, if_true, if_false]

theorem EqualFold_symm (fold : Char → Char) (a b : String) :
    EqualFold fold a b = EqualFold fold b a := by
  simp only [EqualFold]
  rw [Bool.eq_iff_iff]
  simp only [beq_iff_eq]
  exact eq_comm

/-- C18: in a reachable state, for a leave presence (non-empty `to`,
`type='unavailable'`) whose bare `to` equals, case-sensitively, the JID of a room `r`
containing `c`: afterwards that room, in its place and with its JID, has lost `c` and
kept every other member; every member of `r` (each occurring once) is written exactly
one unavailable presence with `from` = XML-escaped `roomJID/nick` of `c`, `to` = its own
XML-escaped full JID, affiliation member and role none, and status code 110 is in the
one addressed to `c` only. When the bare `to` equals a room's JID only up to letter case,
no room changes and nothing is written. -/
theorem leave_room (env : Env) (domain : String) (db : DB) (evs : List Event)
    (w : World) (c : ClientRef) (e : Element) (r : XmppRoom)
    (hw : w = run env (World.init domain db) evs)
    (hto : e.GetAttr "to" ≠ "") (hty : e.GetAttr "type" = "unavailable")
    (hr : r ∈ w.server.Rooms) :
    (r.JID = splitHead '/' (e.GetAttr "to") → c ∈ r.Members →
      ∃ pre post, w.server.Rooms = pre ++ r :: post ∧
        (handlePresence env w c e).server.Rooms = pre ++ r.RemoveMember c :: post ∧
        (r.RemoveMember c).JID = r.JID ∧
        c ∉ (r.RemoveMember c).Members ∧
        (∀ d, d ≠ c → (d ∈ (r.RemoveMember c).Members ↔ d ∈ r.Members)) ∧
        r.Members.Nodup ∧
        (handlePresence env w c e).sent.drop w.sent.length =
          r.Members.map (fun m =>
            (m, Wire.text ("<presence from='" ++
              XMLEscape (r.JID ++ "/" ++ splitHead '@' (w.heap c).JID) ++
              "' to='" ++ XMLEscape (w.heap m).JID ++ "' type='unavailable'>" ++
              "<x xmlns='http://jabber.org/protocol/muc#user'>" ++
              "<item affiliation='member' role='none'/>" ++
              (if m = c then "<status code='110'/>" else "") ++ "</x></presence>")))) ∧
    (EqualFold env.fold r.JID (splitHead '/' (e.GetAttr "to")) = true →
      r.JID ≠ splitHead '/' (e.GetAttr "to") →
      (handlePresence env w c e).server.Rooms = w.server.Rooms ∧
      (handlePresence env w c e).sent = w.sent) := by
  have hn : w.NoDup := by rw [hw]; exact run_NoDup env evs _ (init_NoDup domain db)
  have hd : w.RoomsDistinct env.fold := by
    rw [hw]; exact run_RoomsDistinct env evs _ (init_RoomsDistinct env.fold domain db)
  rw [handlePresence_leave env w c e hto hty]
  constructor
  · intro hj hc
    obtain ⟨pre, post, hsplit⟩ := List.append_of_mem hr
    have hpre : ∀ x ∈ pre, x.JID ≠ splitHead '/' (e.GetAttr "to") := by
      intro x hx hxj
      unfold World.RoomsDistinct at hd
      rw [hsplit, List.map_append, List.pairwise_append] at hd
      have := hd.2.2 x.JID (List.mem_map.mpr ⟨x, hx, rfl⟩) r.JID
        (List.mem_map.mpr ⟨r, List.mem_cons_self _ _, rfl⟩)
      rw [hxj, hj, EqualFold_refl] at this
      exact Bool.noConfusion this
    have hl := leaveRooms_split w.heap _ c pre r post hpre hj
    refine ⟨pre, post, hsplit, ?_, rfl, not_mem_swapRemove c _ (hn.2 r hr),
      fun d hdc => mem_swapRemove_of_ne c d _ hdc, hn.2 r hr, ?_⟩
    · simp only [hsplit, hl]
    · simp only [hsplit, hl, List.drop_left]
      unfold XmppRoom.leaveNotices
      apply List.map_congr_left
      intro m _
      simp [presenceUnavailable]
  · intro hf hne
    have hall : ∀ x ∈ w.server.Rooms, x.JID ≠ splitHead '/' (e.GetAttr "to") := by
      intro x hx hxj
      unfold World.RoomsDistinct at hd
      have hsym : Symmetric (fun a b : String => EqualFold env.fold a b = false) := by
        intro a b hab
        rw [EqualFold_symm]; exact hab
      have := hd.forall hsym (List.mem_map.mpr ⟨r, hr, rfl⟩) (List.mem_map.mpr ⟨x, hx, rfl⟩)
        (by rw [hxj]; exact hne)
      rw [hxj, hf] at this
      exact Bool.noConfusion this
    rw [leaveRooms_none w.heap _ c _ hall]
    simp

/-- C18 for `alice` (session 1) leaving `room1`, of which she is the only member. -/
theorem leave_room_witness :
    ∃ pre post,
      roomScene.server.Rooms = pre ++ (⟨"room1@conference.localhost", [1]⟩ : XmppRoom) :: post ∧
      (handlePresence demoEnv roomScene 1 leaveRoom1).server.Rooms =
        pre ++ (⟨"room1@conference.localhost", [1]⟩ : XmppRoom).RemoveMember 1 :: post := by
  obtain ⟨pre, post, h1, h2, _⟩ := (leave_room demoEnv "localhost" demoUsers roomSceneEvents
    roomScene 1 leaveRoom1 ⟨"room1@conference.localhost", [1]⟩ rfl (by decide) (by decide)
    (by decide)).1 (by decide) (by decide)
  exact ⟨pre, post, h1, h2⟩

theorem handleIq_others_fold (env : Env) (c : ClientRef) (id typ : String)
    (l : List Element) (w : World)
    (hne : ∀ el ∈ l, ¬ (el.Name.Local = "query" ∧ el.Name.Space = "jabber:iq:auth")) :
    l.foldl (handleIqChild env c id typ) w =
      { w with sent := (w.sent ++
        l.map (fun _ => (c, Wire.text (iqServiceUnavailable id w.server.Domain)))) } := by
  induction l generalizing w with
  | nil => simp
  | cons el rest ih =>
    have h1 : handleIqChild env c id typ w el =
        w.write c (iqServiceUnavailable id w.server.Domain) := by
      unfold handleIqChild
      rw [if_neg (hne el (List.mem_cons_self _ _))]
    rw [List.foldl_cons, h1, ih _ (fun x hx => hne x (List.mem_cons_of_mem _ hx))]
    simp [World.write]

/-- C19, as stated, fails: an `iq` with id `q1`, type `get` and no child gets no reply. -/
theorem iq_no_child_counterexample :
    (stanzaOf "iq" [("id", "q1"), ("type", "get")] [] "").GetAttr "id" = "q1" ∧
    (stanzaOf "iq" [("id", "q1"), ("type", "get")] [] "").Children = [] ∧
    (handleIq demoEnv (World.init "localhost" demoDB) 0
      (stanzaOf "iq" [("id", "q1"), ("type", "get")] [] "")).sent = [] :=
  ⟨by decide, rfl, by rfl⟩

/-- C19, amended: for an `iq` with a non-empty id and type `get` or `set` none of whose
children is a `jabber:iq:auth` query, `handleIq` writes one service-unavailable error IQ
per child, each with `from` = the server domain and `id` = the request's id, and changes
nothing else; with no child nothing is written. -/
theorem iq_service_unavailable (env : Env) (w : World) (c : ClientRef) (e : Element)
    (hid : e.GetAttr "id" ≠ "")
    (htyp : e.GetAttr "type" = "get" ∨ e.GetAttr "type" = "set")
    (hne : ∀ el ∈ e.Children,
      ¬ (el.Name.Local = "query" ∧ el.Name.Space = "jabber:iq:auth")) :
    (handleIq env w c e).sent = w.sent ++
      e.Children.map (fun _ => (c, Wire.text ("<iq type='error' id='" ++ e.GetAttr "id" ++
        "' from='" ++ w.server.Domain ++ "'><error type='cancel'>" ++
        "<service-unavailable xmlns='urn:ietf:params:xml:ns:xmpp-stanzas'/></error></iq>"))) ∧
    (handleIq env w c e).heap = w.heap ∧ (handleIq env w c e).server = w.server := by
  have hguard : ¬ (e.GetAttr "id" = "" ∨
      (e.GetAttr "type" ≠ "get" ∧ e.GetAttr "type" ≠ "set")) := by
    rintro (h | ⟨h1, h2⟩)
    · exact hid h
    · rcases htyp with h | h
      · exact h1 h
      · exact h2 h
  unfold handleIq
  dsimp only
  rw [if_neg hguard, handleIq_others_fold env c _ _ e.Children w hne]
  refine ⟨?_, rfl, rfl⟩
  simp [iqServiceUnavailable, String.append_assoc]

/-- C19, amended, for a roster query sent to a fresh server. -/
theorem iq_service_unavailable_witness :
    (handleIq demoEnv (World.init "localhost" demoDB) 0
      (stanzaOf "iq" [("id", "r1"), ("type", "get")]
        [⟨⟨"jabber:iq:roster", "query"⟩, [], [], ""⟩] "")).heap =
      (World.init "localhost" demoDB).heap :=
  (iq_service_unavailable demoEnv (World.init "localhost" demoDB) 0
    (stanzaOf "iq" [("id", "r1"), ("type", "get")]
      [⟨⟨"jabber:iq:roster", "query"⟩, [], [], ""⟩] "")
    (by decide) (Or.inl (by decide)) (by decide)).2.1

theorem readFromDecoder_mono (fuel : Nat) :
    ∀ (e : Element) (toks : List Token) (r : Except StreamError Element × List Token),
      readFromDecoder fuel e toks = some r →
      ∀ fuel1, fuel ≤ fuel1 → readFromDecoder fuel1 e toks = some r := by
  induction fuel with
  | zero => intro e toks r h; simp [readFromDecoder] at h
  | succ n ih =>
    intro e toks r h fuel1 hle
    obtain ⟨m, rfl⟩ : ∃ m, fuel1 = m + 1 := ⟨fuel1 - 1, by omega⟩
    have hnm : n ≤ m := by omega
    cases toks with
    | nil => simpa [readFromDecoder] using h
    | cons tok rest =>
      cases tok with
      | start name attr =>
        simp only [readFromDecoder] at h ⊢
        cases hc : readFromDecoder n ⟨name, attr, [], ""⟩ rest with
        | none => simp [hc] at h
        | some res =>
          rw [ih _ _ _ hc m hnm]
          rw [hc] at h
          obtain ⟨out, rest1⟩ := res
          cases out with
          | error err => simpa using h
          | ok el =>
            simp only at h ⊢
            exact ih _ _ _ h m hnm
      | charData v =>
        simp only [readFromDecoder] at h ⊢
        exact ih _ _ _ h m hnm
      | endElement nm => simpa [readFromDecoder] using h
      | other =>
        simp only [readFromDecoder] at h ⊢
        exact ih _ _ _ h m hnm

theorem readFromDecoder_total (fuel : Nat) :
    ∀ (e : Element) (toks : List Token), toks.length < fuel →
      ∃ out rest1, readFromDecoder fuel e toks = some (out, rest1) ∧
        rest1.length ≤ toks.length := by
  induction fuel with
  | zero => intro e toks h; omega
  | succ n ih =>
    intro e toks h
    cases toks with
    | nil => exact ⟨.error .decoder, [], by simp [readFromDecoder], le_refl _⟩
    | cons tok rest =>
      have hr : rest.length < n := by simp at h; omega
      cases tok with
      | start name attr =>
        obtain ⟨out, rest1, h1, h2⟩ := ih ⟨name, attr, [], ""⟩ rest hr
        cases out with
        | error err =>
          exact ⟨.error err, rest1, by simp [readFromDecoder, h1], by simp; omega⟩
        | ok el =>
          obtain ⟨out2, rest2, h3, h4⟩ :=
            ih { e with Children := e.Children ++ [el] } rest1 (by omega)
          exact ⟨out2, rest2, by simp [readFromDecoder, h1, h3], by simp; omega⟩
      | charData v =>
        obtain ⟨out, rest1, h1, h2⟩ := ih { e with Text := v } rest hr
        exact ⟨out, rest1, by simp [readFromDecoder, h1], by simp; omega⟩
      | endElement nm => exact ⟨.ok e, rest, by simp [readFromDecoder], by simp⟩
      | other =>
        obtain ⟨out, rest1, h1, h2⟩ := ih e rest hr
        exact ⟨out, rest1, by simp [readFromDecoder, h1], by simp; omega⟩

mutual
theorem writeToEncoder_named : ∀ (e : Element), allNamed e = true →
    writeToEncoder e =
      (Token.start e.Name (keptAttrs e.Attr) :: (writeChildren e.Children).1 ++
        (if e.Text ≠ "" then [Token.charData e.Text] else []) ++ [Token.endElement e.Name], true)
  | ⟨name, attr, children, text⟩, h => by
    simp only [allNamed, Bool.and_eq_true, bne_iff_ne, ne_eq] at h
    have hc := writeChildren_named children h.2
    simp only [writeToEncoder, h.1, if_false, hc]
    simp
theorem writeChildren_named : ∀ (cs : List Element), allNamedList cs = true →
    (writeChildren cs).2 = true
  | [], _ => rfl
  | child :: rest, h => by
    simp only [allNamedList, Bool.and_eq_true] at h
    have h1 := writeToEncoder_named child h.1
    have h2 := writeChildren_named rest h.2
    simp only [writeChildren, h1, h2]
    simp
end

theorem nextChildLoop_start (name : Name) (attr : List Attr) (toks : List Token)
    (out : Except StreamError Element) (rest : List Token) (fuel : Nat)
    (hf : readFromDecoder fuel ⟨name, attr, [], ""⟩ toks = some (out, rest)) :
    nextChildLoop (Token.start name attr :: toks) = (out, ⟨rest, false⟩) := by
  obtain ⟨out1, rest1, ht, _⟩ := readFromDecoder_total (toks.length + 1)
    ⟨name, attr, [], ""⟩ toks (Nat.lt_succ_self _)
  have h1 := readFromDecoder_mono _ _ _ _ hf (max fuel (toks.length + 1)) (le_max_left _ _)
  have h2 := readFromDecoder_mono _ _ _ _ ht (max fuel (toks.length + 1)) (le_max_right _ _)
  rw [h1] at h2
  have h3 := Option.some.inj h2
  simp only [nextChildLoop, ht]
  rw [Prod.mk.injEq] at h3
  rw [h3.1, h3.2]

/-- C23: `GetAttr(name)` returns the value of the first attribute of `e.Attr` whose local
name is `name`, whatever its namespace, and the empty string when no attribute has that
local name. -/
theorem GetAttr_first (e : Element) (name : String) :
    (∀ (pre : List Attr) (a : Attr) (post : List Attr), e.Attr = pre ++ a :: post →
      (∀ x ∈ pre, x.Name.Local ≠ name) → a.Name.Local = name → e.GetAttr name = a.Value) ∧
    ((∀ x ∈ e.Attr, x.Name.Local ≠ name) → e.GetAttr name = "") ∧
    (e.GetAttr name ≠ "" → ∃ a ∈ e.Attr, a.Name.Local = name ∧ a.Value = e.GetAttr name) := by
  refine ⟨?_, ?_, ?_⟩
  · intro pre a post hsplit hpre ha
    have hf : e.Attr.find? (fun x => x.Name.Local == name) = some a := by
      rw [List.find?_eq_some]
      exact ⟨by simpa using ha, pre, post, hsplit, fun x hx => by simpa using hpre x hx⟩
    simp [Element.GetAttr, hf]
  · intro hno
    have hf : e.Attr.find? (fun x => x.Name.Local == name) = none := by
      rw [List.find?_eq_none]
      intro x hx
      simpa using hno x hx
    simp [Element.GetAttr, hf]
  · intro hne
    unfold Element.GetAttr at hne ⊢
    cases hf : e.Attr.find? (fun x => x.Name.Local == name) with
    | none => simp [hf] at hne
    | some a =>
      refine ⟨a, List.mem_of_find?_eq_some hf, ?_, by simp⟩
      simpa using List.find?_some hf

/-- C23 on `<iq id='a1' type='set'>`: the attribute `type` is found behind `id`. -/
theorem GetAttr_first_witness :
    (authSet "a1" "alice" "hunter2" "game").GetAttr "type" = "set" :=
  (GetAttr_first (authSet "a1" "alice" "hunter2" "game") "type").1
    [⟨⟨"", "id"⟩, "a1"⟩] ⟨⟨"", "type"⟩, "set"⟩ [] rfl (by decide) rfl

/-- C24: `GetChild(name)` returns `(c, true)` for the first direct child `c` of `e` whose
local name is `name`; it returns `(Element{}, false)` exactly when no direct child has
that local name, whatever the children themselves contain. -/
theorem GetChild_first (e : Element) (name : String) :
    (∀ (pre : List Element) (ch : Element) (post : List Element),
      e.Children = pre ++ ch :: post →
      (∀ x ∈ pre, x.Name.Local ≠ name) → ch.Name.Local = name →
      e.GetChild name = (ch, true)) ∧
    ((e.GetChild name).2 = false ↔ ∀ x ∈ e.Children, x.Name.Local ≠ name) ∧
    ((∀ x ∈ e.Children, x.Name.Local ≠ name) → e.GetChild name = (Element.zero, false)) := by
  have hnone : (∀ x ∈ e.Children, x.Name.Local ≠ name) →
      e.GetChild name = (Element.zero, false) := by
    intro hno
    have hf : e.Children.find? (fun x => x.Name.Local == name) = none := by
      rw [List.find?_eq_none]
      intro x hx
      simpa using hno x hx
    simp [Element.GetChild, hf]
  refine ⟨?_, ⟨?_, ?_⟩, hnone⟩
  · intro pre ch post hsplit hpre hc
    have hf : e.Children.find? (fun x => x.Name.Local == name) = some ch := by
      rw [List.find?_eq_some]
      exact ⟨by simpa using hc, pre, post, hsplit, fun x hx => by simpa using hpre x hx⟩
    simp [Element.GetChild, hf]
  · intro h2 x hx hxn
    unfold Element.GetChild at h2
    cases hf : e.Children.find? (fun x => x.Name.Local == name) with
    | none =>
      rw [List.find?_eq_none] at hf
      exact hf x hx (by simpa using hxn)
    | some c => simp [hf] at h2
  · intro hno
    rw [hnone hno]

/-- C24 on `<iq><query><username/></query></iq>`: `username` is a grandchild only, so
`GetChild("username")` finds nothing. -/
theorem GetChild_first_witness :
    nestedElement.GetChild "username" = (Element.zero, false) :=
  (GetChild_first nestedElement "username").2.2 (by decide)

/-- C26: `AddClient` is idempotent on `Clients`; after it `c` is in `Clients`, the old
list is a prefix of the new one and the entries other than `c` are the same in the same
order, a duplicate-free list stays duplicate-free, rooms, client objects and the write
log are untouched, and a presence without `to` does exactly this. -/
theorem AddClient_idempotent (w : World) (c : ClientRef) :
    (XmppServer.AddClient (XmppServer.AddClient w c) c).server.Clients =
      (XmppServer.AddClient w c).server.Clients ∧
    c ∈ (XmppServer.AddClient w c).server.Clients ∧
    (XmppServer.AddClient w c).server.Clients =
      (if c ∈ w.server.Clients then w.server.Clients else w.server.Clients ++ [c]) ∧
    (XmppServer.AddClient w c).server.Clients.filter (fun x => x != c) =
      w.server.Clients.filter (fun x => x != c) ∧
    (w.server.Clients.Nodup → (XmppServer.AddClient w c).server.Clients.Nodup) ∧
    (XmppServer.AddClient w c).server.Rooms = w.server.Rooms ∧
    (XmppServer.AddClient w c).heap = w.heap ∧
    (XmppServer.AddClient w c).sent = w.sent ∧
    (∀ (env : Env) (e : Element), e.GetAttr "to" = "" →
      handlePresence env w c e = XmppServer.AddClient w c) := by
  by_cases h : c ∈ w.server.Clients
  · have h1 : XmppServer.AddClient w c = w := by simp [XmppServer.AddClient, h]
    refine ⟨by rw [h1, h1], by rw [h1]; exact h, by rw [h1]; simp [h], by rw [h1],
      fun hn => by rw [h1]; exact hn, by rw [h1], by rw [h1], by rw [h1], ?_⟩
    intro env e hto
    simp [handlePresence, hto]
  · have h1 : (XmppServer.AddClient w c).server.Clients = w.server.Clients ++ [c] := by
      simp [XmppServer.AddClient, h]
    have h2 : XmppServer.AddClient (XmppServer.AddClient w c) c = XmppServer.AddClient w c := by
      have hm : c ∈ (XmppServer.AddClient w c).server.Clients := by rw [h1]; simp
      simp only [XmppServer.AddClient, hm, if_true]
      simp [XmppServer.AddClient, h]
    refine ⟨by rw [h2], by rw [h1]; simp, by rw [h1]; simp [h], ?_, ?_, ?_, ?_, ?_, ?_⟩
    · rw [h1, List.filter_append]; simp
    · intro hn
      rw [h1, List.nodup_append]
      refine ⟨hn, List.nodup_singleton c, ?_⟩
      intro a ha hb
      rw [List.mem_singleton] at hb
      exact h (hb ▸ ha)
    · simp [XmppServer.AddClient, h]
    · simp [XmppServer.AddClient, h]
    · simp [XmppServer.AddClient, h]
    · intro env e hto
      simp [handlePresence, hto]

/-- C26 on the registry `[2, 1]`: adding session 3 keeps the list duplicate-free. -/
theorem AddClient_idempotent_witness :
    (XmppServer.AddClient demoTaken 3).server.Clients.Nodup :=
  (AddClient_idempotent demoTaken 3).2.2.2.2.1 (by decide)

theorem writeChildren_flatMap (cs : List Element) (h : allNamedList cs = true) :
    (writeChildren cs).1 = cs.flatMap (fun c => (writeToEncoder c).1) := by
  induction cs with
  | nil => rfl
  | cons child rest ih =>
    simp only [allNamedList, Bool.and_eq_true] at h
    have h1 := writeToEncoder_named child h.1
    have h2 := ih h.2
    simp only [writeChildren, h1, List.flatMap_cons, h2]
    simp

/-- C21, as stated, fails: for an element with an empty local name the encoder refuses
the start tag and nothing is emitted; for an element with such a child the sequence
stops after the own start tag, without character data and end tag. -/
theorem writeToEncoder_counterexample :
    writeToEncoder Element.zero = ([], false) ∧
    namelessChild.Text = "text" ∧
    writeToEncoder namelessChild = ([Token.start ⟨"", "a"⟩ []], false) := by
  decide

/-- C21, amended: for every element all of whose elements have a non-empty local name,
`writeToEncoder` returns no error and emits one start tag named `e.Name` carrying the
attributes of `e.Attr`, in order, except those whose namespace is empty and whose local
name is `xmlns`; then the token sequences of `e.Children` in order; then one
character-data token with `e.Text` exactly when `e.Text` is non-empty; then one end tag
named `e.Name`. -/
theorem writeToEncoder_tokens (e : Element) (h : allNamed e = true) :
    writeToEncoder e =
      (Token.start e.Name
          (e.Attr.filter (fun a => !(a.Name.Space == "" && a.Name.Local == "xmlns"))) ::
        e.Children.flatMap (fun c => (writeToEncoder c).1) ++
        (if e.Text ≠ "" then [Token.charData e.Text] else []) ++
        [Token.endElement e.Name], true) ∧
    (∀ a, a ∈ e.Attr.filter (fun a => !(a.Name.Space == "" && a.Name.Local == "xmlns")) ↔
      a ∈ e.Attr ∧ ¬ (a.Name.Space = "" ∧ a.Name.Local = "xmlns")) ∧
    (∀ c ∈ e.Children, allNamed c = true) := by
  have hk : keptAttrs e.Attr =
      e.Attr.filter (fun a => !(a.Name.Space == "" && a.Name.Local == "xmlns")) := by
    unfold keptAttrs
    apply List.filter_congr
    intro a _
    simp [bne, Bool.not_and]
  have hc : allNamedList e.Children = true := by
    cases e
    simp only [allNamed, Bool.and_eq_true] at h
    exact h.2
  have hall : ∀ (cs : List Element), allNamedList cs = true → ∀ c ∈ cs, allNamed c = true := by
    intro cs
    induction cs with
    | nil => intro _ c hc; exact absurd hc (List.not_mem_nil _)
    | cons x rest ih =>
      intro hx c hc
      simp only [allNamedList, Bool.and_eq_true] at hx
      rcases List.mem_cons.mp hc with rfl | hc
      · exact hx.1
      · exact ih hx.2 c hc
  refine ⟨?_, ?_, hall e.Children hc⟩
  · rw [writeToEncoder_named e h, writeChildren_flatMap e.Children hc, hk]
  · intro a
    simp only [List.mem_filter, Bool.not_eq_true', Bool.and_eq_false_iff, beq_eq_false_iff_ne,
      ne_eq]
    constructor
    · rintro ⟨h1, h2⟩
      exact ⟨h1, fun hc => by rcases h2 with h2 | h2; exact h2 hc.1; exact h2 hc.2⟩
    · rintro ⟨h1, h2⟩
      refine ⟨h1, ?_⟩
      by_cases hs : a.Name.Space = ""
      · exact Or.inr (fun hl => h2 ⟨hs, hl⟩)
      · exact Or.inl hs

/-- C21, amended, on a message as the admin API builds it. -/
theorem writeToEncoder_tokens_witness :
    writeToEncoder apiMessage =
      ([Token.start ⟨"jabber:client", "message"⟩
          [⟨⟨"", "from"⟩, "admin"⟩, ⟨⟨"", "to"⟩, "alice@localhost"⟩],
        Token.start ⟨"jabber:client", "body"⟩ [], Token.charData "hello",
        Token.endElement ⟨"jabber:client", "body"⟩,
        Token.endElement ⟨"jabber:client", "message"⟩], true) :=
  (writeToEncoder_tokens apiMessage (by decide)).1.trans (by decide)

theorem bytesOf_length_eq_zero (s : String) : (bytesOf s).length = 0 ↔ s = "" := by
  constructor
  · intro h
    apply String.ext
    cases hd : s.data with
    | nil => rfl
    | cons ch rest =>
      unfold bytesOf at h
      rw [hd] at h
      simp only [List.flatMap_cons, List.length_append, List.length_map,
        String.length_utf8EncodeChar] at h
      have := Char.utf8Size_pos ch
      omega
  · rintro rfl
    rfl

/-- C25: `jidNodeValid(s)` is true exactly when `s` is non-empty, at most 256 bytes long
and free of the characters `"`, `&`, apostrophe, `/`, `:`, `<`, `>`, `@`, U+007F, U+FFFE
and U+FFFF; when it is false, `upsertUser` leaves the credential store as it was and
answers 400. -/
theorem jidNodeValid_rule (s : String) :
    (jidNodeValid s = true ↔
      s ≠ "" ∧ (bytesOf s).length ≤ 256 ∧
      ∀ ch ∈ [Char.ofNat 0x22, '&', Char.ofNat 0x27, '/', ':', '<', '>', '@', Char.ofNat 0x7F,
        Char.ofNat 0xFFFE, Char.ofNat 0xFFFF], ch ∉ s.data) ∧
    (jidNodeValid s = false → ∀ (d : DB) (updateErr : Bool) (password : String),
      upsertUser d updateErr (some (s, password)) = (d, 400)) := by
  constructor
  · unfold jidNodeValid
    by_cases h0 : (bytesOf s).length = 0
    · have hs := (bytesOf_length_eq_zero s).mp h0
      simp only [h0, true_or, if_true, Bool.false_eq_true, false_iff]
      intro h
      exact h.1 hs
    · have hs : s ≠ "" := fun h => h0 ((bytesOf_length_eq_zero s).mpr h)
      by_cases h1 : (bytesOf s).length > 256
      · simp only [h0, h1, or_true, if_true, Bool.false_eq_true, false_iff]
        intro h
        omega
      · simp only [h0, h1, or_self, if_false, Bool.not_eq_true', ne_eq, hs, not_false_eq_true,
          true_and]
        have hle : (bytesOf s).length ≤ 256 := by omega
        simp only [hle, true_and]
        unfold containsAny jidNodeForbidden
        rw [Bool.eq_false_iff]
        simp only [ne_eq, List.any_eq_true, not_exists, not_and]
        constructor
        · intro h ch hch hmem
          exact h ch hmem (List.contains_iff_exists_mem_beq.mpr ⟨ch, hch, by simp⟩)
        · intro h ch hmem hch
          obtain ⟨x, hx, hb⟩ := List.contains_iff_exists_mem_beq.mp hch
          have : ch = x := by simpa using hb
          exact h ch (this ▸ hx) hmem
  · intro hv d updateErr password
    simp [upsertUser, hv]

/-- C25 on the username `a@b`: it is refused and nothing is stored. -/
theorem jidNodeValid_rule_witness :
    upsertUser demoDB false (some ("a@b", "pw")) = (demoDB, 400) :=
  (jidNodeValid_rule "a@b").2 (by decide) demoDB false "pw"

/-- For a user without entry in the store and a non-empty supplied password, the auth
set IQ is answered with the not-authorized error and changes nothing else. -/
theorem unknown_user_rejected (env : Env) (w : World) (c : ClientRef) (e el : Element)
    (hid : e.GetAttr "id" ≠ "") (htyp : e.GetAttr "type" = "set")
    (hch : e.Children = [el]) (hq : el.Name = ⟨"jabber:iq:auth", "query"⟩)
    (hview : w.server.DB.viewErr = false)
    (hno : w.server.DB.users (el.GetChild "username").1.Text = none)
    (hpw : (el.GetChild "password").1.Text ≠ "") :
    handleIq env w c e = w.write c (iqNotAuthorized (e.GetAttr "id")) := by
  rw [handleIq_single env w c e el hid htyp hch]
  have hdb : w.server.DB.GetUser (el.GetChild "username").1.Text =
      .ok ⟨(el.GetChild "username").1.Text, []⟩ := by
    simp [DB.GetUser, hview, hno]
  apply handleIqChild_bad env w c _ el _ hq hdb
  intro h
  have h0 : (bytesOf (el.GetChild "password").1.Text).length = 0 := by rw [← h]; rfl
  exact hpw ((bytesOf_length_eq_zero _).mp h0)

/-- C27, the code at the failing input: `mallory` has no entry in the store; an auth set
IQ with an empty password, or with no password element at all, is answered with the
result IQ, marks the session authenticated and assigns the JID
`mallory@localhost/game`. -/
theorem unknown_user_authenticates :
    demoDB.users "mallory" = none ∧
    ((handleIq demoEnv (World.init "localhost" demoDB) 0
      (authSet "a1" "mallory" "" "game")).heap 0).authenticated = true ∧
    ((handleIq demoEnv (World.init "localhost" demoDB) 0
      (authSet "a1" "mallory" "" "game")).heap 0).JID = "mallory@localhost/game" ∧
    (handleIq demoEnv (World.init "localhost" demoDB) 0
      (authSet "a1" "mallory" "" "game")).sent = [(0, Wire.text "<iq type='result' id='a1'/>")] ∧
    ((handleIq demoEnv (World.init "localhost" demoDB) 0
      authSetNoPassword).heap 0).authenticated = true ∧
    ((handleIq demoEnv (World.init "localhost" demoDB) 0
      authSetNoPassword).heap 0).JID = "mallory@localhost/game" :=
  ⟨by decide, by decide, by decide, by rfl, by decide, by decide⟩

/-- C28, the code at the failing input: `bob` (session 2) is in no room; his teardown
leaves `room1` as it was, yet its member `alice` is written an unavailable presence from
`room1@conference.localhost/bob`. `RemoveMember` alone behaves the same way. -/
theorem teardown_writes_to_foreign_room :
    roomScene.server.Rooms = [⟨"room1@conference.localhost", [1]⟩] ∧
    (⟨"room1@conference.localhost", [1]⟩ : XmppRoom).RemoveMember 2 =
      ⟨"room1@conference.localhost", [1]⟩ ∧
    (⟨"room1@conference.localhost", [1]⟩ : XmppRoom).leaveNotices roomScene.heap 2 =
      [(1, Wire.text ("<presence from='room1@conference.localhost/bob' " ++
        "to='alice@localhost/game' type='unavailable'>" ++
        "<x xmlns='http://jabber.org/protocol/muc#user'>" ++
        "<item affiliation='member' role='none'/></x></presence>"))] ∧
    (XmppServer.RemoveClient roomScene 2).server.Rooms = roomScene.server.Rooms ∧
    (XmppServer.RemoveClient roomScene 2).sent.drop roomScene.sent.length =
      [(1, Wire.text ("<presence from='room1@conference.localhost/bob' " ++
        "to='alice@localhost/game' type='unavailable'>" ++
        "<x xmlns='http://jabber.org/protocol/muc#user'>" ++
        "<item affiliation='member' role='none'/></x></presence>"))] :=
  ⟨by decide, by decide, by rfl, by decide, by rfl⟩

/-- `RemoveMember(c)` on a room that does not contain `c` leaves the room as it was, and
writes one unavailable presence without status 110 to every member. -/
theorem RemoveMember_absent (r : XmppRoom) (heap : ClientRef → XmppClient) (c : ClientRef)
    (h : c ∉ r.Members) :
    r.RemoveMember c = r ∧
    r.leaveNotices heap c = r.Members.map (fun member =>
      (member, Wire.text (presenceUnavailable false
        (XMLEscape (r.JID ++ "/" ++ splitHead '@' (heap c).JID))
        (XMLEscape (heap member).JID)))) := by
  constructor
  · unfold XmppRoom.RemoveMember
    rw [swapRemove_not_mem c r.Members h]
  · unfold XmppRoom.leaveNotices
    apply List.map_congr_left
    intro m hm
    have : (m == c) = false := by
      rw [beq_eq_false_iff_ne]
      rintro rfl
      exact h hm
    rw [this]

theorem lastTextOf_text (s : String) (rest : List Node) (d : String) :
    (lastTextOf (Node.text s :: rest)).getD d = (lastTextOf rest).getD s := by
  simp only [lastTextOf]
  cases lastTextOf rest <;> rfl

theorem lastTextOf_elem (name : Name) (attr : List Attr) (content rest : List Node) :
    lastTextOf (Node.elem name attr content :: rest) = lastTextOf rest := by
  simp only [lastTextOf]
  cases lastTextOf rest <;> rfl

theorem lastTextOf_other (rest : List Node) :
    lastTextOf (Node.other :: rest) = lastTextOf rest := by
  simp only [lastTextOf]
  cases lastTextOf rest <;> rfl

theorem absorbed_def (acc : Element) (cs : List Node) :
    absorbed acc cs = { acc with Children := acc.Children ++ materializeAll cs,
                                 Text := (lastTextOf cs).getD acc.Text } := rfl

mutual
theorem readBack_node : ∀ (name : Name) (attr : List Attr) (content : List Node)
    (tail : List Token), ∃ fuel,
      readFromDecoder fuel ⟨name, attr, [], ""⟩
        (contentTokens content ++ Token.endElement name :: tail) =
        some (.ok (materialize (.elem name attr content)), tail)
  | name, attr, content, tail => by
    have hend : readFromDecoder 1
        ({ Name := name, Attr := attr, Children := [] ++ materializeAll content,
           Text := (lastTextOf content).getD "" } : Element)
        (Token.endElement name :: tail) =
        some (.ok (materialize (.elem name attr content)), tail) := by
      simp [readFromDecoder, materialize]
    exact readBack_content content ⟨name, attr, [], ""⟩ _ 1 _ hend
theorem readBack_content : ∀ (cs : List Node) (acc : Element) (tail : List Token) (fuel : Nat)
    (r : Except StreamError Element × List Token),
    readFromDecoder fuel
      { acc with Children := acc.Children ++ materializeAll cs,
                 Text := (lastTextOf cs).getD acc.Text } tail = some r →
    ∃ fuel1, readFromDecoder fuel1 acc (contentTokens cs ++ tail) = some r
  | [], acc, tail, fuel, r, hr => by
    refine ⟨fuel, ?_⟩
    have hacc : absorbed acc [] = acc := by
      cases acc; simp [absorbed, materializeAll, lastTextOf]
    rw [← absorbed, hacc] at hr
    simpa [contentTokens] using hr
  | Node.text s :: rest, acc, tail, fuel, r, hr => by
    have hr1 : readFromDecoder fuel
        { ({ acc with Text := s } : Element) with
          Children := ({ acc with Text := s } : Element).Children ++ materializeAll rest,
          Text := (lastTextOf rest).getD ({ acc with Text := s } : Element).Text } tail =
        some r := by
      simpa [materializeAll, lastTextOf_text] using hr
    obtain ⟨fuel1, hf1⟩ := readBack_content rest { acc with Text := s } tail fuel r hr1
    exact ⟨fuel1 + 1, by simpa [contentTokens, nodeTokens, readFromDecoder] using hf1⟩
  | Node.other :: rest, acc, tail, fuel, r, hr => by
    have hr1 : readFromDecoder fuel
        { acc with Children := acc.Children ++ materializeAll rest,
                   Text := (lastTextOf rest).getD acc.Text } tail = some r := by
      simpa [materializeAll, lastTextOf_other] using hr
    obtain ⟨fuel1, hf1⟩ := readBack_content rest acc tail fuel r hr1
    exact ⟨fuel1 + 1, by simpa [contentTokens, nodeTokens, readFromDecoder] using hf1⟩
  | Node.elem name attr content :: rest, acc, tail, fuel, r, hr => by
    have hr1 : readFromDecoder fuel
        { ({ acc with Children := acc.Children ++ [materialize (.elem name attr content)] } :
            Element) with
          Children := ({ acc with
            Children := acc.Children ++ [materialize (.elem name attr content)] } :
              Element).Children ++ materializeAll rest,
          Text := (lastTextOf rest).getD ({ acc with
            Children := acc.Children ++ [materialize (.elem name attr content)] } :
              Element).Text } tail = some r := by
      simpa [materializeAll, lastTextOf_elem, List.append_assoc] using hr
    obtain ⟨fuel1, hf1⟩ := readBack_content rest
      { acc with Children := acc.Children ++ [materialize (.elem name attr content)] }
      tail fuel r hr1
    obtain ⟨fuelA, hfA⟩ := readBack_node name attr content (contentTokens rest ++ tail)
    refine ⟨max fuelA fuel1 + 1, ?_⟩
    have e1 : contentTokens (Node.elem name attr content :: rest) ++ tail =
        Token.start name attr ::
          (contentTokens content ++ Token.endElement name :: (contentTokens rest ++ tail)) := by
      simp [contentTokens, nodeTokens, List.append_assoc]
    rw [e1]
    simp only [readFromDecoder]
    rw [readFromDecoder_mono _ _ _ _ hfA _ (le_max_left _ _)]
    simp only
    exact readFromDecoder_mono _ _ _ _ hf1 _ (le_max_right _ _)
end

theorem nextChildren_ended (k : Nat) (rd : List Token) :
    nextChildren k ⟨rd, true⟩ =
      (List.replicate k (Except.error StreamError.noMoreChildren), ⟨rd, true⟩) := by
  induction k with
  | zero => rfl
  | succ n ih =>
    simp only [nextChildren, ElementStream.NextChild, if_true, ih, List.replicate_succ]

theorem nextChildren_succ (j : Nat) (s : ElementStream) (out : Except StreamError Element)
    (t : ElementStream) (h : s.NextChild = (out, t)) :
    nextChildren (j + 1) s = (out :: (nextChildren j t).1, (nextChildren j t).2) := by
  simp only [nextChildren, h]

theorem nextChildren_content (cs : List Node) (root : Name) (trailing : List Token) (k : Nat) :
    nextChildren ((materializeAll cs).length + (k + 1))
        ⟨contentTokens cs ++ Token.endElement root :: trailing, false⟩ =
      ((materializeAll cs).map Except.ok ++
        List.replicate (k + 1) (Except.error StreamError.noMoreChildren), ⟨trailing, true⟩) := by
  induction cs with
  | nil =>
    have h : ElementStream.NextChild ⟨contentTokens [] ++ Token.endElement root :: trailing, false⟩
        = (.error .noMoreChildren, ⟨trailing, true⟩) := by
      simp [ElementStream.NextChild, contentTokens, nextChildLoop]
    have hl : (materializeAll []).length + (k + 1) = k + 1 := by simp [materializeAll]
    rw [hl, nextChildren_succ k _ _ _ h, nextChildren_ended]
    simp [materializeAll, List.replicate_succ]
  | cons nd rest ih =>
    cases nd with
    | text s =>
      have e1 : ElementStream.NextChild
          ⟨contentTokens (Node.text s :: rest) ++ Token.endElement root :: trailing, false⟩ =
          ElementStream.NextChild
            ⟨contentTokens rest ++ Token.endElement root :: trailing, false⟩ := by
        simp [ElementStream.NextChild, contentTokens, nodeTokens, nextChildLoop]
      have hm : materializeAll (Node.text s :: rest) = materializeAll rest := by
        simp [materializeAll]
      rw [hm, ← ih]
      rw [← Nat.add_assoc]
      simp only [nextChildren, e1]
    | other =>
      have e1 : ElementStream.NextChild
          ⟨contentTokens (Node.other :: rest) ++ Token.endElement root :: trailing, false⟩ =
          ElementStream.NextChild
            ⟨contentTokens rest ++ Token.endElement root :: trailing, false⟩ := by
        simp [ElementStream.NextChild, contentTokens, nodeTokens, nextChildLoop]
      have hm : materializeAll (Node.other :: rest) = materializeAll rest := by
        simp [materializeAll]
      rw [hm, ← ih]
      rw [← Nat.add_assoc]
      simp only [nextChildren, e1]
    | elem name attr content =>
      obtain ⟨fuel, hf⟩ := readBack_node name attr content
        (contentTokens rest ++ Token.endElement root :: trailing)
      have e1 : contentTokens (Node.elem name attr content :: rest) ++
          Token.endElement root :: trailing =
          Token.start name attr :: (contentTokens content ++ Token.endElement name ::
            (contentTokens rest ++ Token.endElement root :: trailing)) := by
        simp [contentTokens, nodeTokens, List.append_assoc]
      have e2 := nextChildLoop_start name attr _ _ _ fuel hf
      have h : ElementStream.NextChild
          ⟨contentTokens (Node.elem name attr content :: rest) ++
            Token.endElement root :: trailing, false⟩ =
          (.ok (materialize (.elem name attr content)),
            ⟨contentTokens rest ++ Token.endElement root :: trailing, false⟩) := by
        simp only [ElementStream.NextChild, Bool.false_eq_true, if_false, e1, e2]
      have hm : materializeAll (Node.elem name attr content :: rest) =
          materialize (.elem name attr content) :: materializeAll rest := by
        simp [materializeAll]
      have hl : (materializeAll (Node.elem name attr content :: rest)).length + (k + 1) =
          ((materializeAll rest).length + (k + 1)) + 1 := by
        rw [hm, List.length_cons]; omega
      rw [hl, nextChildren_succ _ _ _ _ h, ih, hm]
      simp

/-- C22: for the content of the root of a well-formed document, followed by the root's
end tag, the first `n` calls of `NextChild` return the `n` child elements of the root in
document order, each materialised with its name, its attributes and, recursively and in
order, its child elements; the call after them and every later call return
`NoMoreChildrenError`. -/
theorem NextChild_document (content : List Node) (root : Name) (trailing : List Token)
    (k : Nat) :
    (nextChildren ((materializeAll content).length + (k + 1))
        ⟨contentTokens content ++ Token.endElement root :: trailing, false⟩).1 =
      (materializeAll content).map Except.ok ++
        List.replicate (k + 1) (Except.error StreamError.noMoreChildren) ∧
    materializeAll [] = [] ∧
    (∀ (name : Name) (attr : List Attr) (inner rest : List Node),
      materializeAll (Node.elem name attr inner :: rest) =
        ⟨name, attr, materializeAll inner, (lastTextOf inner).getD ""⟩ :: materializeAll rest) ∧
    (∀ (s : String) (rest : List Node),
      materializeAll (Node.text s :: rest) = materializeAll rest) ∧
    (∀ rest : List Node, materializeAll (Node.other :: rest) = materializeAll rest) := by
  refine ⟨?_, ?_, ?_, ?_, ?_⟩
  · rw [nextChildren_content]
  · simp [materializeAll]
  · intro name attr inner rest
    simp [materializeAll, materialize]
  · intro s rest
    simp [materializeAll]
  · intro rest
    simp [materializeAll]

/-- C22 on the test document: three children with ids 1, 2, 3, the first with three
`info` children, then `NoMoreChildrenError` twice. -/
theorem NextChild_document_witness :
    (nextChildren 5 ⟨contentTokens testDoc1 ++
        Token.endElement ⟨"", "root"⟩ :: [Token.charData "\n"], false⟩).1 =
      (materializeAll testDoc1).map Except.ok ++
        List.replicate 2 (Except.error StreamError.noMoreChildren) ∧
    (materializeAll testDoc1).map (fun e => (e.GetAttr "id", e.Children.length)) =
      [("1", 3), ("2", 0), ("3", 0)] :=
  ⟨(NextChild_document testDoc1 ⟨"", "root"⟩ [Token.charData "\n"] 1).1, by decide⟩

theorem isNameByte_of_tables (lib : XmlLib) (c : Char)
    (h : (inFirst lib c || inSecond lib c) = true) : isNameByte c = true := by
  unfold inFirst inSecond at h
  unfold isNameByte
  by_cases hc : c.toNat < 128
  · simp only [hc, if_true, Bool.or_eq_true, Bool.and_eq_true, decide_eq_true_eq] at h
    simp only [Bool.or_eq_true, Bool.and_eq_true, decide_eq_true_eq]
    omega
  · simp only [Bool.or_eq_true, Bool.and_eq_true, decide_eq_true_eq]
    omega

theorem isName_bytes (lib : XmlLib) : ∀ (s : List Char), isName lib s = true →
    s ≠ [] ∧ s.all isNameByte = true
  | [], h => by simp [isName] at h
  | c :: rest, h => by
    simp only [isName, Bool.and_eq_true, List.all_eq_true] at h
    refine ⟨by simp, ?_⟩
    simp only [List.all_cons, Bool.and_eq_true, List.all_eq_true]
    refine ⟨isNameByte_of_tables lib c (by simp [h.1]), ?_⟩
    intro x hx
    exact isNameByte_of_tables lib x (h.2 x hx)

theorem readNameLoop_append : ∀ (s : List Char) (c : Char) (rest : List Char),
    s.all isNameByte = true → isNameByte c = false →
    readNameLoop (s ++ c :: rest) = (s, c :: rest)
  | [], c, rest, _, hc => by simp [readNameLoop, hc]
  | x :: xs, c, rest, hs, hc => by
    simp only [List.all_cons, Bool.and_eq_true] at hs
    simp [readNameLoop, hs.1, readNameLoop_append xs c rest hs.2 hc]

theorem nsname_plain (lib : XmlLib) (s : String) (c : Char) (rest : List Char)
    (hs : plainName lib s = true) (hc : isNameByte c = false) :
    nsname lib (s.data ++ c :: rest) = some (⟨"", s⟩, c :: rest) := by
  simp only [plainName, Bool.and_eq_true, Bool.not_eq_true'] at hs
  obtain ⟨hne, hall⟩ := isName_bytes lib s.data hs.1
  have hcolon : ':' ∉ s.data := by
    intro hm
    have h1 : s.data.contains ':' = true := by simpa using hm
    rw [hs.2] at h1
    exact Bool.false_ne_true h1
  have hcount : s.data.count ':' = 0 := List.count_eq_zero.mpr hcolon
  simp [nsname, readXmlName, readNameLoop_append s.data c rest hall hc, hne, hs.1,
    splitNsName, hcount, hcolon]

theorem char_of_toNat (c : Char) (n : Nat) (h : c.toNat = n) : c = Char.ofNat n := by
  rw [← h, Char.ofNat_toNat]

theorem readEntity_named (lib : XmlLib) (nm : List Char) (ch : Char) (more : List Char)
    (hb : nm.all isNameByte = true) (hh : nm.head? ≠ some '#') (hne : nm ≠ [])
    (hn : isName lib nm = true) (he : entityOf nm = some ch) :
    readEntity lib (nm ++ ';' :: more) = some (ch, more) := by
  have hr := readNameLoop_append nm ';' more hb (by decide)
  cases nm with
  | nil => exact absurd rfl hne
  | cons x xs =>
    have hx : x ≠ '#' := by
      intro h; apply hh; simp [h]
    simp only [List.cons_append] at hr ⊢
    unfold readEntity
    split
    · rename_i heq; cases heq
    · rename_i heq
      injection heq with h1 h2
      exact absurd h1 hx
    · rename_i c rest hnot heq
      injection heq with h1 h2
      subst h1; subst h2
      simp only [hr, hn, he, if_true, Option.map_some']

theorem readEntity_34 (lib : XmlLib) (more : List Char) :
    readEntity lib ('#' :: '3' :: '4' :: ';' :: more) = some (Char.ofNat 34, more) := by
  simp [readEntity, isDigitOf, digitsValue, runeOf, List.takeWhile, List.dropWhile]

theorem readEntity_39 (lib : XmlLib) (more : List Char) :
    readEntity lib ('#' :: '3' :: '9' :: ';' :: more) = some (Char.ofNat 39, more) := by
  simp [readEntity, isDigitOf, digitsValue, runeOf, List.takeWhile, List.dropWhile]

theorem readEntity_x9 (lib : XmlLib) (more : List Char) :
    readEntity lib ('#' :: 'x' :: '9' :: ';' :: more) = some (Char.ofNat 9, more) := by
  simp [readEntity, isDigitOf, digitsValue, runeOf, List.takeWhile, List.dropWhile]

theorem readEntity_xA (lib : XmlLib) (more : List Char) :
    readEntity lib ('#' :: 'x' :: 'A' :: ';' :: more) = some (Char.ofNat 10, more) := by
  simp [readEntity, isDigitOf, digitsValue, runeOf, List.takeWhile, List.dropWhile]

theorem readEntity_xD (lib : XmlLib) (more : List Char) :
    readEntity lib ('#' :: 'x' :: 'D' :: ';' :: more) = some (Char.ofNat 13, more) := by
  simp [readEntity, isDigitOf, digitsValue, runeOf, List.takeWhile, List.dropWhile]

theorem readEntity_lt (lib : XmlLib) (more : List Char) :
    readEntity lib ('l' :: 't' :: ';' :: more) = some ('<', more) :=
  readEntity_named lib ['l', 't'] '<' more (by decide) (by decide) (by decide)
    (by simp [isName, inFirst, inSecond]) (by decide)

theorem readEntity_gt (lib : XmlLib) (more : List Char) :
    readEntity lib ('g' :: 't' :: ';' :: more) = some ('>', more) :=
  readEntity_named lib ['g', 't'] '>' more (by decide) (by decide) (by decide)
    (by simp [isName, inFirst, inSecond]) (by decide)

theorem readEntity_amp (lib : XmlLib) (more : List Char) :
    readEntity lib ('a' :: 'm' :: 'p' :: ';' :: more) = some ('&', more) :=
  readEntity_named lib ['a', 'm', 'p'] '&' more (by decide) (by decide) (by decide)
    (by simp [isName, inFirst, inSecond]) (by decide)

theorem textLoop_entity (lib : XmlLib) (q : Option Char) (hq : q = none ∨ q = some '"')
    (fuel : Nat) (b0 b1 : Char) (acc ent more : List Char) (ch : Char)
    (he : readEntity lib (ent ++ more) = some (ch, more)) :
    textLoop lib q (fuel + 1) b0 b1 acc ('&' :: (ent ++ more)) =
      textLoop lib q fuel (Char.ofNat 0) (Char.ofNat 0) (acc ++ [ch]) more := by
  have h1 : ¬ ('&' = '>') := by decide
  have h2 : ¬ ('&' = '<') := by decide
  have h3 : ¬ (q = some '&') := by
    rcases hq with h | h <;> rw [h] <;> decide
  simp only [textLoop, h1, h2, h3, and_false, if_false, if_true, he]

theorem textLoop_raw (lib : XmlLib) (q : Option Char) (hq : q = none ∨ q = some '"')
    (fuel : Nat) (b0 b1 c : Char) (acc more : List Char) (hb1 : b1 ≠ '\r')
    (h1 : c ≠ '>') (h2 : c ≠ '<') (h3 : c ≠ '"') (h4 : c ≠ '&') (h5 : c ≠ '\r') :
    textLoop lib q (fuel + 1) b0 b1 acc (c :: more) =
      textLoop lib q fuel b1 c (acc ++ [c]) more := by
  have h6 : ¬ (q = some c) := by
    rcases hq with h | h
    · rw [h]; simp
    · rw [h]; intro hc; injection hc with hc; exact h3 hc.symm
  simp only [textLoop, h1, h2, h4, h5, h6, hb1, and_false, false_and, if_false]

theorem ne_of_toNat_ne (c d : Char) (h : c.toNat ≠ d.toNat) : c ≠ d := by
  intro hc; exact h (by rw [hc])

theorem textLoop_escapeRune (lib : XmlLib) (q : Option Char) (hq : q = none ∨ q = some '"')
    (c : Char) (fuel : Nat) (b0 b1 : Char) (acc more : List Char) (hb1 : b1 ≠ '\r') :
    ∃ b0n b1n, b1n ≠ '\r' ∧
      textLoop lib q (fuel + 1) b0 b1 acc ((escapeRune c).data ++ more) =
        textLoop lib q fuel b0n b1n (acc ++ [cleanRune c]) more := by
  have hz : Char.ofNat 0 ≠ '\r' := by decide
  unfold escapeRune
  split
  · rename_i h
    have hc := char_of_toNat c 34 h
    refine ⟨Char.ofNat 0, Char.ofNat 0, hz, ?_⟩
    have hcl : cleanRune c = Char.ofNat 34 := by rw [hc]; decide
    rw [hcl]
    exact textLoop_entity lib q hq fuel b0 b1 acc ['#', '3', '4', ';'] more _
      (readEntity_34 lib more)
  split
  · rename_i h
    have hc := char_of_toNat c 39 h
    refine ⟨Char.ofNat 0, Char.ofNat 0, hz, ?_⟩
    have hcl : cleanRune c = Char.ofNat 39 := by rw [hc]; decide
    rw [hcl]
    exact textLoop_entity lib q hq fuel b0 b1 acc ['#', '3', '9', ';'] more _
      (readEntity_39 lib more)
  split
  · rename_i h
    refine ⟨Char.ofNat 0, Char.ofNat 0, hz, ?_⟩
    have hcl : cleanRune c = '&' := by rw [h]; decide
    rw [hcl]
    exact textLoop_entity lib q hq fuel b0 b1 acc ['a', 'm', 'p', ';'] more _
      (readEntity_amp lib more)
  split
  · rename_i h
    refine ⟨Char.ofNat 0, Char.ofNat 0, hz, ?_⟩
    have hcl : cleanRune c = '<' := by rw [h]; decide
    rw [hcl]
    exact textLoop_entity lib q hq fuel b0 b1 acc ['l', 't', ';'] more _
      (readEntity_lt lib more)
  split
  · rename_i h
    refine ⟨Char.ofNat 0, Char.ofNat 0, hz, ?_⟩
    have hcl : cleanRune c = '>' := by rw [h]; decide
    rw [hcl]
    exact textLoop_entity lib q hq fuel b0 b1 acc ['g', 't', ';'] more _
      (readEntity_gt lib more)
  split
  · rename_i h
    have hc := char_of_toNat c 9 h
    refine ⟨Char.ofNat 0, Char.ofNat 0, hz, ?_⟩
    have hcl : cleanRune c = Char.ofNat 9 := by rw [hc]; decide
    rw [hcl]
    exact textLoop_entity lib q hq fuel b0 b1 acc ['#', 'x', '9', ';'] more _
      (readEntity_x9 lib more)
  split
  · rename_i h
    have hc := char_of_toNat c 10 h
    refine ⟨Char.ofNat 0, Char.ofNat 0, hz, ?_⟩
    have hcl : cleanRune c = Char.ofNat 10 := by rw [hc]; decide
    rw [hcl]
    exact textLoop_entity lib q hq fuel b0 b1 acc ['#', 'x', 'A', ';'] more _
      (readEntity_xA lib more)
  split
  · rename_i h
    have hc := char_of_toNat c 13 h
    refine ⟨Char.ofNat 0, Char.ofNat 0, hz, ?_⟩
    have hcl : cleanRune c = Char.ofNat 13 := by rw [hc]; decide
    rw [hcl]
    exact textLoop_entity lib q hq fuel b0 b1 acc ['#', 'x', 'D', ';'] more _
      (readEntity_xD lib more)
  split
  · rename_i h
    have hcl : cleanRune c = Char.ofNat 0xFFFD := by
      unfold cleanRune
      simp only [Bool.not_eq_true'] at h
      simp [h]
    rw [hcl]
    refine ⟨b1, Char.ofNat 0xFFFD, by decide, ?_⟩
    exact textLoop_raw lib q hq fuel b0 b1 (Char.ofNat 0xFFFD) acc more hb1 (by decide)
      (by decide) (by decide) (by decide) (by decide)
  · rename_i h34 h39 hamp hlt hgt h9 h10 h13 hr
    have hcl : cleanRune c = c := by
      unfold cleanRune
      simp only [Bool.not_eq_true', Bool.not_eq_false] at hr
      simp [hr]
    rw [hcl]
    refine ⟨b1, c, ne_of_toNat_ne c '\r' h13, ?_⟩
    exact textLoop_raw lib q hq fuel b0 b1 c acc more hb1 hgt hlt
      (ne_of_toNat_ne c '"' h34) hamp (ne_of_toNat_ne c '\r' h13)

theorem textLoop_escapeCharDataRune (lib : XmlLib) (c : Char) (fuel : Nat) (b0 b1 : Char)
    (acc more : List Char) (hb1 : b1 ≠ '\r') :
    ∃ b0n b1n, b1n ≠ '\r' ∧
      textLoop lib none (fuel + 1) b0 b1 acc ((escapeCharDataRune c).data ++ more) =
        textLoop lib none fuel b0n b1n (acc ++ [cleanRune c]) more := by
  unfold escapeCharDataRune
  split
  · rename_i h
    have hc := char_of_toNat c 10 h
    have hcl : cleanRune c = c := by rw [hc]; decide
    rw [hcl]
    refine ⟨b1, c, by rw [hc]; decide, ?_⟩
    exact textLoop_raw lib none (Or.inl rfl) fuel b0 b1 c acc more hb1 (by rw [hc]; decide)
      (by rw [hc]; decide) (by rw [hc]; decide) (by rw [hc]; decide) (by rw [hc]; decide)
  · exact textLoop_escapeRune lib none (Or.inl rfl) c fuel b0 b1 acc more hb1

theorem textLoop_attr (lib : XmlLib) : ∀ (t : List Char) (fuel : Nat) (b0 b1 : Char)
    (acc rest : List Char), t.length < fuel → b1 ≠ '\r' →
    textLoop lib (some '"') fuel b0 b1 acc
        ((t.map (fun c => (escapeRune c).data)).flatten ++ '"' :: rest) =
      some (acc ++ t.map cleanRune, rest)
  | [], fuel, b0, b1, acc, rest, hf, _ => by
    obtain ⟨f, rfl⟩ : ∃ f, fuel = f + 1 := ⟨fuel - 1, by simp at hf; omega⟩
    have h1 : ¬ ('"' = '>') := by decide
    have h2 : ¬ ('"' = '<') := by decide
    simp [textLoop, h1, h2]
  | c :: t, fuel, b0, b1, acc, rest, hf, hb1 => by
    obtain ⟨f, rfl⟩ : ∃ f, fuel = f + 1 := ⟨fuel - 1, by simp at hf; omega⟩
    obtain ⟨b0n, b1n, hn, hstep⟩ := textLoop_escapeRune lib (some '"') (Or.inr rfl) c f b0 b1 acc
      ((t.map (fun c => (escapeRune c).data)).flatten ++ '"' :: rest) hb1
    simp only [List.map_cons, List.flatten_cons, List.append_assoc]
    rw [hstep, textLoop_attr lib t f b0n b1n _ rest (by simp at hf; omega) hn]
    simp

theorem textLoop_charData (lib : XmlLib) : ∀ (t : List Char) (fuel : Nat) (b0 b1 : Char)
    (acc rest : List Char), t.length < fuel → b1 ≠ '\r' →
    textLoop lib none fuel b0 b1 acc
        ((t.map (fun c => (escapeCharDataRune c).data)).flatten ++ '<' :: rest) =
      some (acc ++ t.map cleanRune, '<' :: rest)
  | [], fuel, b0, b1, acc, rest, hf, _ => by
    obtain ⟨f, rfl⟩ : ∃ f, fuel = f + 1 := ⟨fuel - 1, by simp at hf; omega⟩
    have h1 : ¬ ('<' = '>') := by decide
    simp [textLoop, h1]
  | c :: t, fuel, b0, b1, acc, rest, hf, hb1 => by
    obtain ⟨f, rfl⟩ : ∃ f, fuel = f + 1 := ⟨fuel - 1, by simp at hf; omega⟩
    obtain ⟨b0n, b1n, hn, hstep⟩ := textLoop_escapeCharDataRune lib c f b0 b1 acc
      ((t.map (fun c => (escapeCharDataRune c).data)).flatten ++ '<' :: rest) hb1
    simp only [List.map_cons, List.flatten_cons, List.append_assoc]
    rw [hstep, textLoop_charData lib t f b0n b1n _ rest (by simp at hf; omega) hn]
    simp

theorem escapeRune_length (c : Char) : 1 ≤ (escapeRune c).data.length := by
  unfold escapeRune
  repeat' split
  all_goals first | decide | simp [String.singleton]

theorem escapeCharDataRune_length (c : Char) : 1 ≤ (escapeCharDataRune c).data.length := by
  unfold escapeCharDataRune
  split
  · simp [String.singleton]
  · exact escapeRune_length c

theorem flatten_length_ge (f : Char → List Char) (hf : ∀ c, 1 ≤ (f c).length) :
    ∀ (t : List Char), t.length ≤ ((t.map f).flatten).length
  | [] => by simp
  | c :: t => by
    have := flatten_length_ge f hf t
    have := hf c
    simp only [List.map_cons, List.flatten_cons, List.length_append, List.length_cons]
    omega

theorem cleanRune_inRange (c : Char) : isInCharacterRange (cleanRune c) = true := by
  unfold cleanRune
  split
  · assumption
  · decide

theorem readText_attr (lib : XmlLib) (v : String) (rest : List Char) :
    readText lib (some '"') ((XMLEscape v).data ++ '"' :: rest) =
      some ((cleanText v).data, rest) := by
  have hd : (XMLEscape v).data = (v.data.map (fun c => (escapeRune c).data)).flatten := by
    simp [XMLEscape, String.data_join, List.map_map, Function.comp_def]
  have hlen := flatten_length_ge (fun c => (escapeRune c).data) escapeRune_length v.data
  unfold readText
  rw [hd, textLoop_attr lib v.data _ _ _ [] rest
    (by simp only [List.length_append, List.length_cons]; omega) (by decide)]
  simp [cleanText, cleanRune_inRange]

theorem readText_charData (lib : XmlLib) (s : String) (rest : List Char) :
    readText lib none (renderText s ++ '<' :: rest) =
      some ((cleanText s).data, '<' :: rest) := by
  have hd : renderText s = (s.data.map (fun c => (escapeCharDataRune c).data)).flatten := by
    simp [renderText, String.data_join, List.map_map, Function.comp_def]
  have hlen := flatten_length_ge (fun c => (escapeCharDataRune c).data)
    escapeCharDataRune_length s.data
  unfold readText
  rw [hd, textLoop_charData lib s.data _ _ _ [] rest
    (by simp only [List.length_append, List.length_cons]; omega) (by decide)]
  simp [cleanText, cleanRune_inRange]

theorem skipSpace_nameByte (c : Char) (rest : List Char) (h : isNameByte c = true) :
    skipSpace (c :: rest) = c :: rest := by
  have h1 : c ≠ ' ' := by intro hc; rw [hc] at h; exact absurd h (by decide)
  have h2 : c ≠ '\r' := by intro hc; rw [hc] at h; exact absurd h (by decide)
  have h3 : c ≠ '\n' := by intro hc; rw [hc] at h; exact absurd h (by decide)
  have h4 : c ≠ '\t' := by intro hc; rw [hc] at h; exact absurd h (by decide)
  simp [skipSpace, h1, h2, h3, h4]

theorem plainName_cons (lib : XmlLib) (s : String) (h : plainName lib s = true) :
    ∃ x xs, s.data = x :: xs ∧ isNameByte x = true := by
  simp only [plainName, Bool.and_eq_true] at h
  obtain ⟨hne, hall⟩ := isName_bytes lib s.data h.1
  cases hd : s.data with
  | nil => exact absurd hd hne
  | cons x xs =>
    rw [hd] at hall
    simp only [List.all_cons, Bool.and_eq_true] at hall
    exact ⟨x, xs, rfl, hall.1⟩

theorem readAttrs_render (lib : XmlLib) : ∀ (attrs : List Attr) (fuel : Nat) (acc : List Attr)
    (rest : List Char),
    (∀ a ∈ attrs, a.Name.Space = "" ∧ plainName lib a.Name.Local = true) →
    attrs.length < fuel →
    readAttrs lib fuel acc (renderAttrs attrs ++ '>' :: rest) =
      some (acc ++ attrs.map (fun a => ⟨a.Name, cleanText a.Value⟩), false, rest)
  | [], fuel, acc, rest, _, hf => by
    obtain ⟨f, rfl⟩ : ∃ f, fuel = f + 1 := ⟨fuel - 1, by simp at hf; omega⟩
    simp [readAttrs, renderAttrs, skipSpace]
  | a :: attrs, fuel, acc, rest, ha, hf => by
    obtain ⟨f, rfl⟩ : ∃ f, fuel = f + 1 := ⟨fuel - 1, by simp at hf; omega⟩
    obtain ⟨hsp, hpl⟩ := ha a (List.mem_cons_self _ _)
    obtain ⟨x, xs, hx, hxb⟩ := plainName_cons lib a.Name.Local hpl
    have ih := readAttrs_render lib attrs f (acc ++ [⟨a.Name, cleanText a.Value⟩]) rest
      (fun b hb => ha b (List.mem_cons_of_mem _ hb)) (by simp at hf; omega)
    have hns := nsname_plain lib a.Name.Local '='
      ('"' :: ((XMLEscape a.Value).data ++ '"' :: (renderAttrs attrs ++ '>' :: rest)))
      hpl (by decide)
    have hin : renderAttrs (a :: attrs) ++ '>' :: rest =
        ' ' :: (x :: (xs ++ '=' :: '"' :: ((XMLEscape a.Value).data ++
          '"' :: (renderAttrs attrs ++ '>' :: rest)))) := by
      simp [renderAttrs, renderAttr, hx, List.append_assoc]
    rw [hx] at hns
    simp only [List.cons_append] at hns
    have h1 : x ≠ '/' := by intro hc; rw [hc] at hxb; exact absurd hxb (by decide)
    have h2 : x ≠ '>' := by intro hc; rw [hc] at hxb; exact absurd hxb (by decide)
    have hname : (⟨"", a.Name.Local⟩ : Name) = a.Name := by
      cases hn : a.Name with
      | mk sp lo => rw [hn] at hsp; simp at hsp; simp [hsp]
    rw [hin]
    unfold readAttrs
    have hs1 : skipSpace (' ' :: (x :: (xs ++ '=' :: '"' :: ((XMLEscape a.Value).data ++
          '"' :: (renderAttrs attrs ++ '>' :: rest))))) =
        x :: (xs ++ '=' :: '"' :: ((XMLEscape a.Value).data ++
          '"' :: (renderAttrs attrs ++ '>' :: rest))) := by
      rw [skipSpace]
      simp only [true_or, if_true]
      exact skipSpace_nameByte x _ hxb
    rw [hs1]
    split
    · rename_i heq; cases heq
    · rename_i heq; injection heq with h _; exact absurd h h1
    · rename_i heq; injection heq with h _; exact absurd h h2
    · rename_i b r hno1 hno2 heq
      injection heq with hb hr
      subst hb; subst hr
      rw [hns]
      have hs2 : ∀ r : List Char, skipSpace ('=' :: r) = '=' :: r := by
        intro r; simp [skipSpace]
      have hs3 : ∀ r : List Char, skipSpace ('"' :: r) = '"' :: r := by
        intro r; simp [skipSpace]
      simp only [hs2, hs3, attrval, true_or, if_true, readText_attr, hname]
      rw [ih]
      simp

theorem renderAttrs_head (attrs : List Attr) (rest : List Char) :
    ∃ c r, renderAttrs attrs ++ '>' :: rest = c :: r ∧ isNameByte c = false := by
  cases attrs with
  | nil => exact ⟨'>', rest, by simp [renderAttrs], by decide⟩
  | cons a t => exact ⟨' ', _, by simp [renderAttrs, renderAttr]; rfl, by decide⟩

theorem renderAttrs_length : ∀ (attrs : List Attr), attrs.length ≤ (renderAttrs attrs).length
  | [] => by simp [renderAttrs]
  | a :: t => by
    have := renderAttrs_length t
    simp only [renderAttrs, renderAttr, List.length_append, List.length_cons]
    omega

theorem rawToken_start (lib : XmlLib) (loc : String) (attrs : List Attr) (rest : List Char)
    (hl : plainName lib loc = true)
    (ha : ∀ a ∈ attrs, a.Name.Space = "" ∧ plainName lib a.Name.Local = true) :
    rawToken lib ('<' :: (loc.data ++ (renderAttrs attrs ++ '>' :: rest))) =
      some (.start ⟨"", loc⟩ (attrs.map (fun a => ⟨a.Name, cleanText a.Value⟩)), false, rest) := by
  obtain ⟨x, xs, hx, hxb⟩ := plainName_cons lib loc hl
  obtain ⟨c, r, hc, hcb⟩ := renderAttrs_head attrs rest
  have hns := nsname_plain lib loc c r hl hcb
  rw [← hc, hx] at hns
  simp only [List.cons_append] at hns
  have h1 : x ≠ '/' := by intro h; rw [h] at hxb; exact absurd hxb (by decide)
  have h2 : x ≠ '?' := by intro h; rw [h] at hxb; exact absurd hxb (by decide)
  have h3 : x ≠ '!' := by intro h; rw [h] at hxb; exact absurd hxb (by decide)
  have hra := readAttrs_render lib attrs ((renderAttrs attrs ++ '>' :: rest).length + 1) [] rest ha
    (by have := renderAttrs_length attrs
        simp only [List.length_append, List.length_cons]; omega)
  rw [hx]
  simp only [List.cons_append]
  unfold rawToken
  split
  · rename_i heq; cases heq
  · rename_i r0 heq
    injection heq with _ hr
    subst hr
    split
    · rename_i heq; cases heq
    · rename_i heq; injection heq with h _; exact absurd h h1
    · rename_i heq; injection heq with h _; exact absurd h h2
    · rename_i heq; injection heq with h _; exact absurd h h3
    · rename_i b r1 _ _ _ heq
      injection heq with hb hr
      subst hb; subst hr
      rw [hns]
      simp only [hra, List.nil_append]
  · rename_i b r0 hno heq
    injection heq with hb _
    exact (hno hb.symm).elim

theorem rawToken_end (lib : XmlLib) (loc : String) (rest : List Char)
    (hl : plainName lib loc = true) :
    rawToken lib ('<' :: '/' :: (loc.data ++ '>' :: rest)) =
      some (.endElement ⟨"", loc⟩, false, rest) := by
  have hns := nsname_plain lib loc '>' rest hl (by decide)
  have hs : skipSpace ('>' :: rest) = '>' :: rest := by simp [skipSpace]
  unfold rawToken
  split
  · rename_i heq; cases heq
  · rename_i r0 heq
    injection heq with _ hr
    subst hr
    split
    · rename_i heq; cases heq
    · rename_i r1 heq
      injection heq with _ hr
      subst hr
      rw [hns]
      simp only [hs]
    · rename_i heq; injection heq with h _; exact absurd h (by decide)
    · rename_i heq; injection heq with h _; exact absurd h (by decide)
    · rename_i b r1 hno _ _ heq
      injection heq with hb _
      exact (hno hb.symm).elim
  · rename_i b r0 hno heq
    injection heq with hb _
    exact (hno hb.symm).elim

theorem escapeRune_head (c : Char) :
    ∃ y ys, (escapeRune c).data = y :: ys ∧ y ≠ '<' := by
  unfold escapeRune
  split
  · exact ⟨'&', _, rfl, by decide⟩
  split
  · exact ⟨'&', _, rfl, by decide⟩
  split
  · exact ⟨'&', _, rfl, by decide⟩
  split
  · exact ⟨'&', _, rfl, by decide⟩
  split
  · exact ⟨'&', _, rfl, by decide⟩
  split
  · exact ⟨'&', _, rfl, by decide⟩
  split
  · exact ⟨'&', _, rfl, by decide⟩
  split
  · exact ⟨'&', _, rfl, by decide⟩
  split
  · exact ⟨Char.ofNat 0xFFFD, _, rfl, by decide⟩
  · rename_i h _ _ _ _ _
    exact ⟨c, [], rfl, h⟩

theorem renderText_head (s : String) (hs : s ≠ "") :
    ∃ y ys, renderText s = y :: ys ∧ y ≠ '<' := by
  have hd : renderText s = (s.data.map (fun c => (escapeCharDataRune c).data)).flatten := by
    simp [renderText, String.data_join, List.map_map, Function.comp_def]
  cases hsd : s.data with
  | nil =>
    exfalso; apply hs
    cases s; simp at hsd; simp [hsd]
  | cons c t =>
    rw [hd, hsd]
    simp only [List.map_cons, List.flatten_cons]
    by_cases h10 : c.toNat = 10
    · have hc := char_of_toNat c 10 h10
      refine ⟨c, (t.map (fun c => (escapeCharDataRune c).data)).flatten, ?_, by rw [hc]; decide⟩
      simp [escapeCharDataRune, h10, String.singleton]
    · obtain ⟨y, ys, hy, hne⟩ := escapeRune_head c
      refine ⟨y, ys ++ (t.map (fun c => (escapeCharDataRune c).data)).flatten, ?_, hne⟩
      simp [escapeCharDataRune, h10, hy]

theorem rawToken_charData (lib : XmlLib) (s : String) (rest : List Char) (hs : s ≠ "") :
    rawToken lib (renderText s ++ '<' :: rest) =
      some (.charData (cleanText s), false, '<' :: rest) := by
  obtain ⟨y, ys, hy, hne⟩ := renderText_head s hs
  have ht := readText_charData lib s rest
  rw [hy] at ht ⊢
  simp only [List.cons_append] at ht ⊢
  unfold rawToken
  split
  · rename_i heq; cases heq
  · rename_i heq; injection heq with h _; exact absurd h hne
  · rename_i b r0 hno heq
    injection heq with hb hr
    subst hb; subst hr
    rw [ht]

theorem pushBindings_plain : ∀ (attrs : List Attr) (d : Decoder),
    (∀ a ∈ attrs, a.Name.Space = "" ∧ a.Name.Local ≠ "xmlns") → pushBindings d attrs = d
  | [], d, _ => rfl
  | a :: rest, d, h => by
    obtain ⟨h1, h2⟩ := h a (List.mem_cons_self _ _)
    have h3 : ¬ (a.Name.Space = "xmlns") := by rw [h1]; decide
    simp only [pushBindings, h3, if_false, h2, and_false]
    exact pushBindings_plain rest d (fun b hb => h b (List.mem_cons_of_mem _ hb))

theorem translate_attr (ns : String → Option String) (n : Name) (h : n.Space = "") :
    translate ns n false = n := by
  have h3 : ¬ (n.Space = "xmlns") := by rw [h]; decide
  simp [translate, h3, h]

theorem translate_elem (ns : String → Option String) (loc : String) :
    translate ns ⟨"", loc⟩ true = ⟨elementSpace (ns "") loc, loc⟩ := by
  have h3 : ¬ ("" = "xmlns") := by decide
  have h4 : ¬ ("" = "xml") := by decide
  unfold translate elementSpace
  simp only [h3, if_false, h4, true_and, Bool.true_eq_false, and_false]
  split
  · rfl
  · cases ns "" <;> rfl

theorem keptAttrs_plain (lib : XmlLib) (attr : List Attr)
    (h : (keptAttrs attr).all (fun a => a.Name.Space == "" && plainName lib a.Name.Local) = true) :
    ∀ a ∈ keptAttrs attr, (a.Name.Space = "" ∧ plainName lib a.Name.Local = true) ∧
      a.Name.Local ≠ "xmlns" := by
  intro a ha
  simp only [List.all_eq_true, Bool.and_eq_true, beq_iff_eq] at h
  have h1 := h a ha
  refine ⟨h1, ?_⟩
  have h2 : a ∈ attr.filter (fun a => a.Name.Space != "" || a.Name.Local != "xmlns") := ha
  simp only [List.mem_filter, Bool.or_eq_true, bne_iff_ne, ne_eq] at h2
  rcases h2.2 with h3 | h3
  · exact absurd h1.1 h3
  · exact h3

theorem plainName_xmlns (lib : XmlLib) : plainName lib "xmlns" = true := by
  simp [plainName, isName, inFirst, inSecond]

theorem Token_start (lib : XmlLib) (d : Decoder) (name : Name) (attr : List Attr)
    (rest : List Char) (hd : d.needClose = false) (hl : plainName lib name.Local = true)
    (ha : (keptAttrs attr).all
      (fun a => a.Name.Space == "" && plainName lib a.Name.Local) = true) :
    Decoder.Token lib (d.withInput ('<' :: (name.Local.data ++
        (renderAttrs (xmlnsAttrs name.Space ++ keptAttrs attr) ++ '>' :: rest)))) =
      some (.start ⟨elementSpace (scopeOf (d.ns "") name) name.Local, name.Local⟩
        ((xmlnsAttrs name.Space ++ keptAttrs attr).map (fun a => ⟨a.Name, cleanText a.Value⟩)),
        d.opened name rest) := by
  have hk := keptAttrs_plain lib attr ha
  have hall : ∀ a ∈ xmlnsAttrs name.Space ++ keptAttrs attr,
      a.Name.Space = "" ∧ plainName lib a.Name.Local = true := by
    intro a hm
    rcases List.mem_append.mp hm with h | h
    · unfold xmlnsAttrs at h
      split at h
      · simp only [List.mem_singleton] at h
        rw [h]; exact ⟨rfl, plainName_xmlns lib⟩
      · simp at h
    · exact (hk a h).1
  have hraw := rawToken_start lib name.Local _ rest hl hall
  have hpush : pushBindings
      { d with input := rest, needClose := false, toClose := d.toClose }
      ((xmlnsAttrs name.Space ++ keptAttrs attr).map (fun a => ⟨a.Name, cleanText a.Value⟩)) =
      { input := rest, needClose := false, toClose := d.toClose,
        stk := (if name.Space ≠ "" then
          [⟨.ns, ⟨(d.ns "").getD "", ""⟩, (d.ns "").isSome⟩] else []) ++ d.stk,
        ns := if name.Space ≠ "" then Function.update d.ns "" (some (cleanText name.Space))
          else d.ns } := by
    have hkm : ∀ a ∈ (keptAttrs attr).map (fun a => (⟨a.Name, cleanText a.Value⟩ : Attr)),
        a.Name.Space = "" ∧ a.Name.Local ≠ "xmlns" := by
      intro a hm
      obtain ⟨b, hb, rfl⟩ := List.mem_map.mp hm
      exact ⟨(hk b hb).1.1, (hk b hb).2⟩
    by_cases hsp : name.Space = ""
    · simp only [xmlnsAttrs, hsp, ne_eq, not_true_eq_false, if_false, List.nil_append]
      rw [pushBindings_plain _ _ hkm]
    · have h3 : ¬ ("" = "xmlns") := by decide
      simp only [xmlnsAttrs, hsp, ne_eq, not_false_eq_true, if_true, List.singleton_append,
        List.map_cons, pushBindings, h3, if_false, true_and]
      rw [pushBindings_plain _ _ hkm]
  unfold Decoder.Token Decoder.withInput
  simp only [hd, Bool.false_eq_true, if_false, hraw]
  rw [hpush]
  simp only [translate_elem, Decoder.opened]
  have hns : (if name.Space ≠ "" then Function.update d.ns "" (some (cleanText name.Space))
      else d.ns) "" = scopeOf (d.ns "") name := by
    unfold scopeOf
    split <;> simp
  rw [hns]
  have hmap : List.map (fun (a : Attr) => (⟨translate (if name.Space ≠ "" then
        Function.update d.ns "" (some (cleanText name.Space)) else d.ns) a.Name false,
        a.Value⟩ : Attr))
      ((xmlnsAttrs name.Space ++ keptAttrs attr).map
        (fun (a : Attr) => (⟨a.Name, cleanText a.Value⟩ : Attr))) =
      (xmlnsAttrs name.Space ++ keptAttrs attr).map
        (fun (a : Attr) => (⟨a.Name, cleanText a.Value⟩ : Attr)) := by
    rw [List.map_map]
    apply List.map_congr_left
    intro a hm
    simp only [Function.comp]
    rw [translate_attr _ _ (hall a hm).1]
  rw [hmap]

theorem popBindings_ready (ns : String → Option String) (stk : List StackEntry)
    (h : (match stk with
      | [] => true
      | s :: _ => s.kind == .start) = true) :
    popBindings ns stk = (ns, stk) := by
  cases stk with
  | nil => rfl
  | cons s rest =>
    simp only [beq_iff_eq] at h
    simp [popBindings, h]

theorem Token_end (lib : XmlLib) (d : Decoder) (name : Name) (rest other : List Char)
    (hd : d.ready = true) (hl : plainName lib name.Local = true) :
    Decoder.Token lib ((d.opened name other).withInput
        ('<' :: '/' :: (name.Local.data ++ '>' :: rest))) =
      some (.endElement ⟨elementSpace (scopeOf (d.ns "") name) name.Local, name.Local⟩,
        d.withInput rest) := by
  simp only [Decoder.ready, Bool.and_eq_true, Bool.not_eq_true'] at hd
  have hraw := rawToken_end lib name.Local rest hl
  have hpop : popBindings (if name.Space ≠ "" then
        Function.update d.ns "" (some (cleanText name.Space)) else d.ns)
      ((if name.Space ≠ "" then
        [(⟨.ns, ⟨(d.ns "").getD "", ""⟩, (d.ns "").isSome⟩ : StackEntry)] else []) ++ d.stk) =
      (d.ns, d.stk) := by
    by_cases hsp : name.Space = ""
    · simp only [hsp, ne_eq, not_true_eq_false, if_false, List.nil_append]
      exact popBindings_ready _ _ hd.2
    · simp only [hsp, ne_eq, not_false_eq_true, if_true, List.singleton_append, popBindings]
      have hk : ¬ (StackKind.ns = StackKind.start) := by decide
      simp only [hk, if_false]
      have hu : Function.update (Function.update d.ns "" (some (cleanText name.Space))) ""
          (if (d.ns "").isSome = true then some ((d.ns "").getD "") else none) = d.ns := by
        rw [Function.update_idem]
        apply Function.update_eq_self_iff.mpr
        cases d.ns "" <;> rfl
      rw [hu]
      exact popBindings_ready _ _ hd.2
  have hns : (if name.Space ≠ "" then Function.update d.ns "" (some (cleanText name.Space))
      else d.ns) "" = scopeOf (d.ns "") name := by
    unfold scopeOf
    split <;> simp
  unfold Decoder.Token Decoder.withInput Decoder.opened
  simp only [Bool.false_eq_true, if_false, hraw, ne_eq, not_true_eq_false, or_self, hpop,
    translate_elem, hns]
  cases d
  simp only at hd
  simp [hd.1]

theorem Token_charData (lib : XmlLib) (d : Decoder) (s : String) (rest : List Char)
    (hd : d.needClose = false) (hs : s ≠ "") :
    Decoder.Token lib (d.withInput (renderText s ++ '<' :: rest)) =
      some (.charData (cleanText s), d.withInput ('<' :: rest)) := by
  have hraw := rawToken_charData lib s rest hs
  unfold Decoder.Token Decoder.withInput
  simp only [hd, Bool.false_eq_true, if_false, hraw]

theorem tokens_succ (lib : XmlLib) (d d1 : Decoder) (t : Token) (n : Nat)
    (h : d.Token lib = some (t, d1)) :
    Decoder.tokens lib (n + 1) d = t :: Decoder.tokens lib n d1 := by
  simp [Decoder.tokens, h]

theorem contentTokens_app : ∀ (xs ys : List Node),
    contentTokens (xs ++ ys) = contentTokens xs ++ contentTokens ys
  | [], ys => by simp [contentTokens]
  | x :: xs, ys => by simp [contentTokens, contentTokens_app xs ys, List.append_assoc]

theorem opened_ns (d : Decoder) (name : Name) (r : List Char) :
    (d.opened name r).ns "" = scopeOf (d.ns "") name := by
  unfold Decoder.opened scopeOf
  simp only
  split <;> simp

theorem opened_ready (d : Decoder) (name : Name) (r : List Char) :
    (d.opened name r).ready = true := by
  simp [Decoder.opened, Decoder.ready]

theorem opened_withInput (d : Decoder) (name : Name) (r s : List Char) :
    (d.opened name r).withInput s = d.opened name s := rfl

mutual
theorem tokens_render (lib : XmlLib) : ∀ (e : Element), wireSafe lib e = true →
    ∀ (d : Decoder), d.ready = true → ∀ (n : Nat) (rest : List Char),
      Decoder.tokens lib ((nodeTokens (wireNode (d.ns "") e)).length + n)
          (d.withInput (render e ++ rest)) =
        nodeTokens (wireNode (d.ns "") e) ++ Decoder.tokens lib n (d.withInput rest)
  | ⟨name, attr, children, text⟩, h, d, hd, n, rest => by
    simp only [wireSafe, Bool.and_eq_true] at h
    obtain ⟨⟨hl, ha⟩, hc⟩ := h
    have hnc : d.needClose = false := by
      simp only [Decoder.ready, Bool.and_eq_true, Bool.not_eq_true'] at hd
      exact hd.1
    have ihc := tokens_renderAll lib children hc (d.opened name []) (opened_ready d name [])
    rw [opened_ns] at ihc
    have hstart := Token_start lib d name attr
      (renderAll children ++ (renderText text ++
        ('<' :: '/' :: (name.Local.data ++ '>' :: rest)))) hnc hl ha
    have hend := Token_end lib d name rest [] hd hl
    have hin : render ⟨name, attr, children, text⟩ ++ rest =
        '<' :: (name.Local.data ++ (renderAttrs (xmlnsAttrs name.Space ++ keptAttrs attr) ++
          '>' :: (renderAll children ++ (renderText text ++
            ('<' :: '/' :: (name.Local.data ++ '>' :: rest)))))) := by
      simp [render, List.append_assoc]
    rw [hin]
    by_cases ht : text = ""
    · have hrt : renderText text = [] := by rw [ht]; rfl
      have hw : nodeTokens (wireNode (d.ns "") ⟨name, attr, children, text⟩) =
          Token.start ⟨elementSpace (scopeOf (d.ns "") name) name.Local, name.Local⟩
            ((xmlnsAttrs name.Space ++ keptAttrs attr).map
              (fun a => ⟨a.Name, cleanText a.Value⟩)) ::
          (contentTokens (wireNodes (scopeOf (d.ns "") name) children) ++
            [Token.endElement
              ⟨elementSpace (scopeOf (d.ns "") name) name.Local, name.Local⟩]) := by
        simp [wireNode, nodeTokens, ht]
      rw [hw]
      have hlen : (Token.start ⟨elementSpace (scopeOf (d.ns "") name) name.Local, name.Local⟩
            ((xmlnsAttrs name.Space ++ keptAttrs attr).map
              (fun a => ⟨a.Name, cleanText a.Value⟩)) ::
          (contentTokens (wireNodes (scopeOf (d.ns "") name) children) ++
            [Token.endElement
              ⟨elementSpace (scopeOf (d.ns "") name) name.Local, name.Local⟩])).length + n =
          ((contentTokens (wireNodes (scopeOf (d.ns "") name) children)).length + (n + 1)) + 1 := by
        simp only [List.length_cons, List.length_append, List.length_nil]; omega
      rw [hlen, tokens_succ lib _ _ _ _ hstart, ← opened_withInput d name [], hrt,
        List.nil_append, ihc (n + 1), opened_withInput, ← opened_withInput d name [],
        tokens_succ lib _ _ _ _ hend]
      simp
    · have htok := Token_charData lib (d.opened name []) text
        ('/' :: (name.Local.data ++ '>' :: rest)) rfl ht
      have hw : nodeTokens (wireNode (d.ns "") ⟨name, attr, children, text⟩) =
          Token.start ⟨elementSpace (scopeOf (d.ns "") name) name.Local, name.Local⟩
            ((xmlnsAttrs name.Space ++ keptAttrs attr).map
              (fun a => ⟨a.Name, cleanText a.Value⟩)) ::
          (contentTokens (wireNodes (scopeOf (d.ns "") name) children) ++
            (Token.charData (cleanText text) :: [Token.endElement
              ⟨elementSpace (scopeOf (d.ns "") name) name.Local, name.Local⟩])) := by
        simp [wireNode, nodeTokens, ht, contentTokens_app, contentTokens]
      rw [hw]
      have hlen : (Token.start ⟨elementSpace (scopeOf (d.ns "") name) name.Local, name.Local⟩
            ((xmlnsAttrs name.Space ++ keptAttrs attr).map
              (fun a => ⟨a.Name, cleanText a.Value⟩)) ::
          (contentTokens (wireNodes (scopeOf (d.ns "") name) children) ++
            (Token.charData (cleanText text) :: [Token.endElement
              ⟨elementSpace (scopeOf (d.ns "") name) name.Local, name.Local⟩]))).length + n =
          ((contentTokens (wireNodes (scopeOf (d.ns "") name) children)).length +
            ((n + 1) + 1)) + 1 := by
        simp only [List.length_cons, List.length_append, List.length_nil]; omega
      rw [hlen, tokens_succ lib _ _ _ _ hstart, ← opened_withInput d name [],
        ihc ((n + 1) + 1), tokens_succ lib _ _ _ _ htok, opened_withInput,
        ← opened_withInput d name [], tokens_succ lib _ _ _ _ hend]
      simp
theorem tokens_renderAll (lib : XmlLib) : ∀ (cs : List Element), wireSafeList lib cs = true →
    ∀ (d : Decoder), d.ready = true → ∀ (n : Nat) (rest : List Char),
      Decoder.tokens lib ((contentTokens (wireNodes (d.ns "") cs)).length + n)
          (d.withInput (renderAll cs ++ rest)) =
        contentTokens (wireNodes (d.ns "") cs) ++ Decoder.tokens lib n (d.withInput rest)
  | [], _, d, _, n, rest => by
    simp [wireNodes, contentTokens, renderAll]
  | c :: cs, h, d, hd, n, rest => by
    simp only [wireSafeList, Bool.and_eq_true] at h
    have ih1 := tokens_render lib c h.1 d hd
    have ih2 := tokens_renderAll lib cs h.2 d hd
    have hlen : (contentTokens (wireNodes (d.ns "") (c :: cs))).length + n =
        (nodeTokens (wireNode (d.ns "") c)).length +
          ((contentTokens (wireNodes (d.ns "") cs)).length + n) := by
      simp only [wireNodes, contentTokens, List.length_append]; omega
    have hin : renderAll (c :: cs) ++ rest = render c ++ (renderAll cs ++ rest) := by
      simp [renderAll, List.append_assoc]
    rw [hlen, hin, ih1, ih2]
    simp [wireNodes, contentTokens, List.append_assoc]
end

theorem plainName_ne (lib : XmlLib) (s : String) (h : plainName lib s = true) : s ≠ "" := by
  obtain ⟨x, xs, hx, _⟩ := plainName_cons lib s h
  intro hs
  rw [hs] at hx
  cases hx

mutual
theorem wireSafe_allNamed (lib : XmlLib) : ∀ (e : Element), wireSafe lib e = true →
    allNamed e = true
  | ⟨name, attr, children, text⟩, h => by
    simp only [wireSafe, Bool.and_eq_true] at h
    simp only [allNamed, Bool.and_eq_true, bne_iff_ne, ne_eq]
    exact ⟨plainName_ne lib _ h.1.1, wireSafeList_allNamed lib children h.2⟩
theorem wireSafeList_allNamed (lib : XmlLib) : ∀ (cs : List Element),
    wireSafeList lib cs = true → allNamedList cs = true
  | [], _ => rfl
  | c :: cs, h => by
    simp only [wireSafeList, Bool.and_eq_true] at h
    simp only [allNamedList, Bool.and_eq_true]
    exact ⟨wireSafe_allNamed lib c h.1, wireSafeList_allNamed lib cs h.2⟩
end

theorem writeAttr_plain (lib : XmlLib) (p : Printer) (a : Attr) (h1 : a.Name.Space = "")
    (h2 : a.Name.Local ≠ "") :
    p.writeAttr lib a = { p with out := p.out ++ renderAttr a } := by
  simp [Printer.writeAttr, h1, h2, renderAttr]

theorem foldl_writeAttr (lib : XmlLib) : ∀ (attrs : List Attr) (p : Printer),
    (∀ a ∈ attrs, a.Name.Space = "" ∧ a.Name.Local ≠ "") →
    attrs.foldl (Printer.writeAttr lib) p = { p with out := p.out ++ renderAttrs attrs }
  | [], p, _ => by simp [renderAttrs]
  | a :: rest, p, h => by
    obtain ⟨h1, h2⟩ := h a (List.mem_cons_self _ _)
    simp only [List.foldl_cons, writeAttr_plain lib p a h1 h2]
    rw [foldl_writeAttr lib rest _ (fun b hb => h b (List.mem_cons_of_mem _ hb))]
    simp [renderAttrs, List.append_assoc]

theorem writeStart_plain (lib : XmlLib) (p : Printer) (name : Name) (attrs : List Attr)
    (hn : name.Local ≠ "") (h : ∀ a ∈ attrs, a.Name.Space = "" ∧ a.Name.Local ≠ "") :
    p.writeStart lib name attrs =
      ({ p with
          tags := name :: p.tags
          prefixes := "" :: p.prefixes
          out := p.out ++ ('<' :: (name.Local.data ++
            (renderAttrs (xmlnsAttrs name.Space ++ attrs) ++ ['>']))) }, true) := by
  unfold Printer.writeStart
  simp only [hn, if_false]
  rw [foldl_writeAttr lib attrs _ h]
  by_cases hs : name.Space = ""
  · simp [hs, xmlnsAttrs, List.append_assoc]
  · simp [hs, xmlnsAttrs, renderAttrs, renderAttr, List.append_assoc]

theorem encodeTokens_append (lib : XmlLib) (p : Printer) (xs ys : List Token) :
    encodeTokens lib p (xs ++ ys) = encodeTokens lib (encodeTokens lib p xs) ys := by
  simp [encodeTokens, List.foldl_append]

theorem encodeTokens_cons (lib : XmlLib) (p : Printer) (t : Token) (ys : List Token) :
    encodeTokens lib p (t :: ys) = encodeTokens lib (EncodeToken lib p t).1 ys := by
  simp [encodeTokens]

mutual
theorem encode_render (lib : XmlLib) : ∀ (e : Element), wireSafe lib e = true →
    ∀ (p : Printer), encodeTokens lib p (writeToEncoder e).1 =
      { p with out := p.out ++ render e }
  | ⟨name, attr, children, text⟩, h, p => by
    have hnamed := wireSafe_allNamed lib _ h
    simp only [wireSafe, Bool.and_eq_true] at h
    obtain ⟨⟨hl, ha⟩, hc⟩ := h
    have hk := keptAttrs_plain lib attr ha
    have hattrs : ∀ a ∈ keptAttrs attr, a.Name.Space = "" ∧ a.Name.Local ≠ "" :=
      fun a hm => ⟨(hk a hm).1.1, plainName_ne lib _ (hk a hm).1.2⟩
    have hne := plainName_ne lib _ hl
    have ihc := encode_renderAll lib children hc
    rw [writeToEncoder_named _ hnamed]
    simp only [List.cons_append, encodeTokens_cons, encodeTokens_append, EncodeToken,
      writeStart_plain lib p name (keptAttrs attr) hne hattrs, ihc]
    by_cases ht : text = ""
    · simp only [ht, ne_eq, not_true_eq_false, if_false, encodeTokens]
      simp only [List.foldl_nil, List.foldl_cons, EncodeToken, Printer.writeEnd, hne, if_false,
        popPrefixes, if_true]
      simp [render, renderText, List.append_assoc]
    · simp only [ht, ne_eq, not_false_eq_true, if_true, encodeTokens]
      simp only [List.foldl_nil, List.foldl_cons, EncodeToken, Printer.writeEnd, hne, if_false,
        popPrefixes, if_true]
      simp [render, renderText, List.append_assoc]
theorem encode_renderAll (lib : XmlLib) : ∀ (cs : List Element), wireSafeList lib cs = true →
    ∀ (p : Printer), encodeTokens lib p (writeChildren cs).1 =
      { p with out := p.out ++ renderAll cs }
  | [], _, p => by simp [writeChildren, encodeTokens, renderAll]
  | c :: cs, h, p => by
    simp only [wireSafeList, Bool.and_eq_true] at h
    have h1 := encode_render lib c h.1
    have h2 := encode_renderAll lib cs h.2
    have hn := writeToEncoder_named c (wireSafe_allNamed lib c h.1)
    have hw : (writeChildren (c :: cs)).1 = (writeToEncoder c).1 ++ (writeChildren cs).1 := by
      simp only [writeChildren]
      rw [hn]
      simp
    rw [hw, encodeTokens_append, h1, h2]
    simp [renderAll, List.append_assoc]
end

theorem AsString_render (lib : XmlLib) (e : Element) (h : wireSafe lib e = true) :
    (e.AsString lib).data = render e := by
  simp [Element.AsString, encode_render lib e h, Printer.init]

theorem lastTextOf_wireNodes (dflt : Option String) : ∀ (cs : List Element),
    lastTextOf (wireNodes dflt cs) = none
  | [] => rfl
  | ⟨name, attr, children, text⟩ :: cs => by
    simp [wireNodes, wireNode, lastTextOf, lastTextOf_wireNodes dflt cs]

theorem lastTextOf_snoc_text : ∀ (xs : List Node) (s : String),
    lastTextOf (xs ++ [Node.text s]) = some s
  | [], s => by simp [lastTextOf]
  | x :: xs, s => by simp [lastTextOf, lastTextOf_snoc_text xs s]

theorem materializeAll_snoc_text : ∀ (xs : List Node) (s : String),
    materializeAll (xs ++ [Node.text s]) = materializeAll xs
  | [], s => by simp [materializeAll]
  | x :: xs, s => by
    cases x <;> simp [materializeAll, materializeAll_snoc_text xs s]

mutual
theorem materialize_wireNode : ∀ (e : Element) (dflt : Option String),
    materialize (wireNode dflt e) = readBack dflt e
  | ⟨name, attr, children, text⟩, dflt => by
    have ih := materializeAll_wireNodes children (scopeOf dflt name)
    by_cases ht : text = ""
    · simp [wireNode, readBack, materialize, ht, ih, lastTextOf_wireNodes, cleanText]
    · simp [wireNode, readBack, materialize, ht, ih, lastTextOf_snoc_text,
        materializeAll_snoc_text]
theorem materializeAll_wireNodes : ∀ (cs : List Element) (dflt : Option String),
    materializeAll (wireNodes dflt cs) = readBackAll dflt cs
  | [], _ => by simp [wireNodes, materializeAll, readBackAll]
  | ⟨name, attr, children, text⟩ :: cs, dflt => by
    have h1 := materialize_wireNode ⟨name, attr, children, text⟩ dflt
    have h2 := materializeAll_wireNodes cs dflt
    simp only [wireNodes, readBackAll]
    simp only [wireNode] at h1 ⊢
    simp only [materializeAll, h1, h2]
end

mutual
theorem wireNode_length : ∀ (e : Element) (dflt : Option String), allNamed e = true →
    (nodeTokens (wireNode dflt e)).length = (writeToEncoder e).1.length
  | ⟨name, attr, children, text⟩, dflt, h => by
    have hn := writeToEncoder_named _ h
    simp only [allNamed, Bool.and_eq_true] at h
    have ih := wireNodes_length children (scopeOf dflt name) h.2
    rw [hn]
    by_cases ht : text = ""
    · simp [wireNode, nodeTokens, ht, ih]
    · simp [wireNode, nodeTokens, ht, ih, contentTokens_app, contentTokens]
theorem wireNodes_length : ∀ (cs : List Element) (dflt : Option String),
    allNamedList cs = true →
    (contentTokens (wireNodes dflt cs)).length = (writeChildren cs).1.length
  | [], _, _ => by simp [wireNodes, contentTokens, writeChildren]
  | c :: cs, dflt, h => by
    simp only [allNamedList, Bool.and_eq_true] at h
    have h1 := wireNode_length c dflt h.1
    have h2 := wireNodes_length cs dflt h.2
    have hn := writeToEncoder_named c h.1
    have hw : (writeChildren (c :: cs)).1 = (writeToEncoder c).1 ++ (writeChildren cs).1 := by
      simp only [writeChildren]
      rw [hn]
      simp
    rw [hw]
    simp [wireNodes, contentTokens, h1, h2]
end

theorem NextChild_wireNode (dflt : Option String) (e : Element) (tail : List Token) :
    ElementStream.NextChild ⟨nodeTokens (wireNode dflt e) ++ tail, false⟩ =
      (.ok (readBack dflt e), ⟨tail, false⟩) := by
  rw [← materialize_wireNode e dflt]
  cases e with
  | mk name attr children text =>
    simp only [wireNode]
    generalize (⟨elementSpace (scopeOf dflt name) name.Local, name.Local⟩ : Name) = nm
    generalize (xmlnsAttrs name.Space ++ keptAttrs attr).map
      (fun (a : Attr) => (⟨a.Name, cleanText a.Value⟩ : Attr)) = at1
    generalize wireNodes (scopeOf dflt name) children ++
      (if text ≠ "" then [Node.text (cleanText text)] else []) = content
    obtain ⟨fuel, hf⟩ := readBack_node nm at1 content tail
    have e1 : nodeTokens (Node.elem nm at1 content) ++ tail =
        Token.start nm at1 :: (contentTokens content ++ Token.endElement nm :: tail) := by
      simp [nodeTokens, List.append_assoc]
    have e2 := nextChildLoop_start nm at1 _ _ _ fuel hf
    simp only [ElementStream.NextChild, Bool.false_eq_true, if_false, e1, e2]

theorem NextChild_bytes (lib : XmlLib) (d : Decoder) (e : Element) (rest : List Char)
    (n : Nat) (he : wireSafe lib e = true) (hd : d.ready = true)
    (hn : (writeToEncoder e).1.length ≤ n) :
    (ElementStream.NextChild
      ⟨Decoder.tokens lib n (d.withInput ((e.AsString lib).data ++ rest)), false⟩).1 =
      .ok (readBack (d.ns "") e) := by
  have hlen := wireNode_length e (d.ns "") (wireSafe_allNamed lib e he)
  obtain ⟨m, rfl⟩ : ∃ m, n = (nodeTokens (wireNode (d.ns "") e)).length + m :=
    ⟨n - (writeToEncoder e).1.length, by rw [hlen]; omega⟩
  rw [AsString_render lib e he, tokens_render lib e he d hd m rest, NextChild_wireNode]

theorem cleanText_valid (s : String) (h : s.data.all isInCharacterRange = true) :
    cleanText s = s := by
  have hm : s.data.map cleanRune = s.data := by
    conv => rhs; rw [← List.map_id s.data]
    apply List.map_congr_left
    intro c hc
    simp only [List.all_eq_true] at h
    simp [cleanRune, h c hc]
  unfold cleanText
  rw [hm]

mutual
theorem readBack_bare : ∀ (e : Element), bareElement e = true →
    readBack none e = stripXmlns e
  | ⟨name, attr, children, text⟩, h => by
    simp only [bareElement, Bool.and_eq_true, beq_iff_eq, bne_iff_ne, ne_eq] at h
    obtain ⟨⟨⟨⟨hs, hl⟩, ht⟩, ha⟩, hc⟩ := h
    have ih := readBackAll_bare children hc
    have hattr : (keptAttrs attr).map (fun (a : Attr) => (⟨a.Name, cleanText a.Value⟩ : Attr)) =
        keptAttrs attr := by
      conv => rhs; rw [← List.map_id (keptAttrs attr)]
      apply List.map_congr_left
      intro a hm
      simp only [List.all_eq_true] at ha
      have := cleanText_valid a.Value (by simpa using ha a hm)
      simp [this]
    have hname : (⟨"", name.Local⟩ : Name) = name := by
      cases name; simp at hs; simp [hs]
    simp only [readBack, stripXmlns, scopeOf, hs, ne_eq, not_true_eq_false, if_false,
      elementSpace, hl, Option.getD_none, xmlnsAttrs, List.nil_append, hattr, ih,
      cleanText_valid text ht, hname]
theorem readBackAll_bare : ∀ (cs : List Element), bareElements cs = true →
    readBackAll none cs = stripXmlnsAll cs
  | [], _ => rfl
  | c :: cs, h => by
    simp only [bareElements, Bool.and_eq_true] at h
    simp only [readBackAll, stripXmlnsAll, readBack_bare c h.1, readBackAll_bare cs h.2]
end

theorem readBackAll_eq_map (dflt : Option String) (cs : List Element) :
    readBackAll dflt cs = cs.map (readBack dflt) := by
  induction cs with
  | nil => rfl
  | cons c rest ih => simp [readBackAll, ih]

/-- C20, as stated, fails. `<a xmlns='urn:x'/>` and `<a/>` have the same serialisation
`<a></a>`, so no parser of the output of `AsString` returns the attributes of both, and the
decoder returns none. For the message of the admin API the `xmlns` attribute that the
encoder writes for `Name.Space` comes back as a third attribute. A child without a
namespace comes back in the namespace of its parent. The rune U+0001 comes back as
U+FFFD. An attribute with a namespace comes back behind the declaration of an invented
prefix, and one with an empty local name does not come back. An element with an empty
local name is serialised to nothing, one with a blank in its name to bytes the decoder
refuses, and one with a colon in its name comes back under another name. -/
theorem roundtrip_counterexample :
    xmlnsElement.AsString asciiLib = "<a></a>" ∧
    plainElement.AsString asciiLib = "<a></a>" ∧
    xmlnsElement.Attr = [⟨⟨"", "xmlns"⟩, "urn:x"⟩] ∧ plainElement.Attr = [] ∧
    (reparse xmlnsElement).map (fun e => e.Attr) = some [] ∧
    (¬ ∃ parse : String → Option Element,
      ∀ e : Element, ∃ e1, parse (e.AsString asciiLib) = some e1 ∧
        ∀ a, a ∈ e1.Attr ↔ a ∈ e.Attr) ∧
    apiMessage.AsString asciiLib =
      "<message xmlns=\"jabber:client\" from=\"admin\" to=\"alice@localhost\">" ++
        "<body xmlns=\"jabber:client\">hello</body></message>" ∧
    apiMessage.Attr = [⟨⟨"", "from"⟩, "admin"⟩, ⟨⟨"", "to"⟩, "alice@localhost"⟩] ∧
    (reparse apiMessage).map (fun e => e.Attr) =
      some [⟨⟨"", "xmlns"⟩, "jabber:client"⟩, ⟨⟨"", "from"⟩, "admin"⟩,
        ⟨⟨"", "to"⟩, "alice@localhost"⟩] ∧
    nsParent.Children.map (fun c => c.Name) = [⟨"", "b"⟩] ∧
    (reparse nsParent).map (fun e => e.Children.map (fun c => c.Name)) =
      some [⟨"urn:p", "b"⟩] ∧
    controlText.Text = String.singleton (Char.ofNat 1) ∧
    (reparse controlText).map (fun e => e.Text) = some (String.singleton (Char.ofNat 0xFFFD)) ∧
    nsAttr.AsString asciiLib = "<a xmlns:_=\"urn:x\" _:k=\"v\"></a>" ∧
    (reparse nsAttr).map (fun e => e.Attr) =
      some [⟨⟨"xmlns", "_"⟩, "urn:x"⟩, ⟨⟨"urn:x", "k"⟩, "v"⟩] ∧
    (reparse namelessAttr).map (fun e => e.Attr) = some [] ∧
    Element.zero.AsString asciiLib = "" ∧
    (reparse Element.zero).isNone = true ∧
    blankName.AsString asciiLib = "<a b></a b>" ∧
    (reparse blankName).isNone = true ∧
    (reparse colonName).map (fun e => e.Name) = some ⟨"a", "b"⟩ := by
  refine ⟨by decide, by decide, rfl, rfl, by decide, ?_, by decide, by decide, by decide,
    by decide, by decide, by decide, by decide, by decide, by decide, by decide, by decide,
    by decide, by decide, by decide, by decide⟩
  rintro ⟨parse, hp⟩
  obtain ⟨e1, h1, ha1⟩ := hp xmlnsElement
  obtain ⟨e2, h2, ha2⟩ := hp plainElement
  have hw : xmlnsElement.AsString asciiLib = plainElement.AsString asciiLib := by decide
  rw [hw, h2] at h1
  have he : e2 = e1 := Option.some.inj h1
  have hm : (⟨⟨"", "xmlns"⟩, "urn:x"⟩ : Attr) ∈ e1.Attr :=
    (ha1 _).mpr (List.mem_singleton.mpr rfl)
  rw [← he] at hm
  exact List.not_mem_nil _ ((ha2 _).mp hm)

/-- C20, amended: let every element of `e` be named by an XML name without a colon, and
so every attribute that `writeToEncoder` keeps, none of which has a namespace. Then
`writeToEncoder` returns no error, and a strict decoder that stands between two tokens
and reads the bytes of `e.AsString()`, whatever follows them, makes `NextChild` return,
once it is given at least as many tokens as were encoded, the element `readBack e`:
its local name is that of `e`; its namespace is the `Name.Space` of `e` when that is not
empty and else the default namespace in scope at that place (none for the name `xmlns`);
its attributes are an `xmlns` attribute carrying `Name.Space` when that is not empty,
followed by the attributes of `e`, in order, without those named `xmlns` with empty
namespace; its children are those of `e` read back the same way, in order, inside the
default namespace of `e`; its text is that of `e`; in every text and attribute value the
runes outside the XML character range have become U+FFFD. When no default namespace is
in scope, no element of `e` has a namespace or is named `xmlns` and all runes are XML
characters, this is `e` without its un-namespaced `xmlns` attributes, at every level. -/
theorem roundtrip_bytes (lib : XmlLib) (d : Decoder) (e : Element) (rest : List Char)
    (n : Nat) (he : wireSafe lib e = true) (hd : d.ready = true)
    (hn : (writeToEncoder e).1.length ≤ n) :
    (writeToEncoder e).2 = true ∧
    (ElementStream.NextChild
      ⟨Decoder.tokens lib n (d.withInput ((e.AsString lib).data ++ rest)), false⟩).1 =
      .ok (readBack (d.ns "") e) ∧
    (readBack (d.ns "") e).Name.Local = e.Name.Local ∧
    (readBack (d.ns "") e).Name.Space =
      (if e.Name.Local = "xmlns" then ""
       else if e.Name.Space ≠ "" then cleanText e.Name.Space else (d.ns "").getD "") ∧
    (readBack (d.ns "") e).Attr =
      (if e.Name.Space ≠ "" then [(⟨⟨"", "xmlns"⟩, cleanText e.Name.Space⟩ : Attr)] else []) ++
        (e.Attr.filter (fun a => a.Name.Space != "" || a.Name.Local != "xmlns")).map
          (fun a => ⟨a.Name, cleanText a.Value⟩) ∧
    (readBack (d.ns "") e).Children =
      e.Children.map (readBack
        (if e.Name.Space ≠ "" then some (cleanText e.Name.Space) else d.ns "")) ∧
    (readBack (d.ns "") e).Text = cleanText e.Text ∧
    (d.ns "" = none → bareElement e = true → readBack (d.ns "") e = stripXmlns e) := by
  refine ⟨?_, NextChild_bytes lib d e rest n he hd hn, ?_, ?_, ?_, ?_, ?_, ?_⟩
  · rw [writeToEncoder_named e (wireSafe_allNamed lib e he)]
  · cases e; rfl
  · cases e with
    | mk name attr children text =>
      simp only [readBack, elementSpace, scopeOf]
      split
      · rfl
      · split <;> rfl
  · cases e with
    | mk name attr children text =>
      simp only [readBack, xmlnsAttrs, keptAttrs]
      split <;> simp
  · cases e with
    | mk name attr children text =>
      simp only [readBack, readBackAll_eq_map, scopeOf]
  · cases e; rfl
  · intro h0 hb
    rw [h0]
    exact readBack_bare e hb

/-- C20, amended, for an `iq` stanza with nested children read back on a connection
whose stream header made `jabber:client` the default namespace. -/
theorem roundtrip_bytes_witness :
    (ElementStream.NextChild
      ⟨Decoder.tokens asciiLib 7 (streamDecoder.withInput
        ((nestedElement.AsString asciiLib).data ++ "</stream:stream>".data)), false⟩).1 =
      .ok (readBack (streamDecoder.ns "") nestedElement) :=
  (roundtrip_bytes asciiLib streamDecoder nestedElement "</stream:stream>".data 7
    (by decide) (by decide) (by decide)).2.1

end Sbrwxmpp
